import Mathlib

/-!
# TeristaSpace native engine: inline hook installer, IPC policy store, hook manager

Shallow embedding of `native/src/main/cpp` (inline_hook.cpp, binder_hook.cpp,
elf_utils.cpp, terista_native.cpp) and the properties proved about it.

Conventions of the embedding
* Pointers and machine integers are `Nat`; the null pointer is `0`.  Values stored
  through a `uintN_t` lvalue are truncated by the store itself.
* `std::map` is an association list kept in key order (`StdMap`).
* Operating-system services (`mprotect`, `mmap`, the dynamic linker) are
  answer schedules indexed by a call counter kept in the `World`, so every
  call may succeed or fail independently of every other one.
* Logging (`LOGD`/`LOGE`/`LOGI`) has no effect on the modelled state and is omitted.
-/

namespace Terista

/-! ## std::map -/

/-- Model of `std::map<K, V>`: association list; `set` keeps it in key order. -/
abbrev StdMap (κ ν : Type) := List (κ × ν)

/-- Model of `std::less<K>`, the key order of a `std::map`. -/
class KeyLess (κ : Type) where
  less : κ → κ → Bool

/-- Pointers (`void*` keys) are ordered by address. -/
instance instKeyLessNat : KeyLess Nat := ⟨fun a b => decide (a < b)⟩

/-- Lexicographic comparison of two character sequences (`std::string::compare`). -/
def strLess : List Char → List Char → Bool
  | [], [] => false
  | [], _ :: _ => true
  | _ :: _, [] => false
  | a :: as, b :: bs =>
      if a.toNat < b.toNat then true
      else if b.toNat < a.toNat then false
      else strLess as bs

/-- Strings (`std::string` keys) are ordered lexicographically. -/
instance instKeyLessString : KeyLess String := ⟨fun a b => strLess a.data b.data⟩

/-- Model of `m.find(k)`: the first entry stored under `k` (`none` is `m.end()`). -/
def StdMap.findEntry {κ ν : Type} [DecidableEq κ] : StdMap κ ν → κ → Option (κ × ν)
  | [], _ => none
  | (k', v) :: rest, k => if k' = k then some (k', v) else StdMap.findEntry rest k

/-- Value part of `m.find(k)`. -/
def StdMap.find {κ ν : Type} [DecidableEq κ] (m : StdMap κ ν) (k : κ) : Option ν :=
  (StdMap.findEntry m k).map Prod.snd

/-- Model of `m[k] = v`: overwrite in place when the key exists, otherwise insert in key order. -/
def StdMap.set {κ ν : Type} [DecidableEq κ] [KeyLess κ] :
    StdMap κ ν → κ → ν → StdMap κ ν
  | [], k, v => [(k, v)]
  | (k', v') :: rest, k, v =>
      if k = k' then (k, v) :: rest
      else if KeyLess.less k k' then (k, v) :: (k', v') :: rest
      else (k', v') :: StdMap.set rest k v

/-- Model of `m.erase(m.find(k))`. -/
def StdMap.erase {κ ν : Type} [DecidableEq κ] (m : StdMap κ ν) (k : κ) : StdMap κ ν :=
  m.filter (fun p => decide (p.1 ≠ k))

/-! ## binder_hook.h / binder_hook.cpp : policy store -/

/-- Model of `struct BinderTransaction`. -/
structure BinderTransaction where
  code : Nat
  flags : Nat
  target : String
  data : List Nat
  reply : List Nat
  deriving DecidableEq, Repr

/-- Model of `std::function<bool(BinderTransaction&)>`: the predicate's verdict and the
transaction as the predicate leaves it (it receives a mutable reference). -/
abbrev BinderFilter := BinderTransaction → Bool × BinderTransaction

/-- Instance state of `class BinderHook`. -/
structure BinderHook where
  hooksInstalled : Bool
  serviceFilters : StdMap String Bool
  transactionFilters : StdMap String BinderFilter

/-- Model of `BinderHook::setupDefaultFilters`. -/
def BinderHook.setupDefaultFilters (self : BinderHook) : BinderHook :=
  let m := StdMap.set self.serviceFilters "servicemanager" true
  let m := StdMap.set m "package" true
  let m := StdMap.set m "activity" true
  let m := StdMap.set m "window" true
  let m := StdMap.set m "input" true
  let m := StdMap.set m "power" true
  let m := StdMap.set m "telephony.registry" false
  let m := StdMap.set m "isms" false
  let m := StdMap.set m "phone" false
  { self with serviceFilters := m }

/-- Model of the constructor `BinderHook::BinderHook()`: `hooksInstalled(false)`, empty tables,
then `setupDefaultFilters()`. -/
def BinderHook.ctor : BinderHook :=
  BinderHook.setupDefaultFilters
    { hooksInstalled := false, serviceFilters := [], transactionFilters := [] }

/-- Model of `BinderHook::setServiceFilter`. -/
def BinderHook.setServiceFilter (self : BinderHook) (serviceName : String) (allow : Bool) :
    BinderHook × Bool :=
  ({ self with serviceFilters := StdMap.set self.serviceFilters serviceName allow }, true)

/-- Model of `BinderHook::removeServiceFilter`. -/
def BinderHook.removeServiceFilter (self : BinderHook) (serviceName : String) :
    BinderHook × Bool :=
  match StdMap.findEntry self.serviceFilters serviceName with
  | some _ => ({ self with serviceFilters := StdMap.erase self.serviceFilters serviceName }, true)
  | none => (self, false)

/-- Model of `BinderHook::clearServiceFilters`. -/
def BinderHook.clearServiceFilters (self : BinderHook) : BinderHook :=
  let cleared : BinderHook := { self with serviceFilters := [] }
  BinderHook.setupDefaultFilters cleared

/-- Model of `BinderHook::addTransactionFilter`. -/
def BinderHook.addTransactionFilter (self : BinderHook) (serviceName : String)
    (filter : BinderFilter) : BinderHook × Bool :=
  ({ self with transactionFilters := StdMap.set self.transactionFilters serviceName filter }, true)

/-- Model of `BinderHook::removeTransactionFilter`. -/
def BinderHook.removeTransactionFilter (self : BinderHook) (serviceName : String) :
    BinderHook × Bool :=
  match StdMap.findEntry self.transactionFilters serviceName with
  | some _ =>
      ({ self with transactionFilters := StdMap.erase self.transactionFilters serviceName }, true)
  | none => (self, false)

/-- Model of `BinderHook::allowService`. -/
def BinderHook.allowService (self : BinderHook) (serviceName : String) : Bool :=
  match StdMap.findEntry self.serviceFilters serviceName with
  | some it => it.2
  | none => true

/-- Outcome of `BinderHook::processTransaction`: the returned verdict, the transaction as the
call leaves it, and the keys of the registered predicates that were invoked, in order. -/
structure ProcessResult where
  admitted : Bool
  transaction : BinderTransaction
  invoked : List String

/-- Model of `BinderHook::processTransaction`. -/
def BinderHook.processTransaction (self : BinderHook) (transaction : BinderTransaction) :
    ProcessResult :=
  if !self.allowService transaction.target then
    { admitted := false, transaction := transaction, invoked := [] }
  else
    match StdMap.findEntry self.transactionFilters transaction.target with
    | some filterIt =>
        let r := filterIt.2 transaction
        if !r.1 then { admitted := false, transaction := r.2, invoked := [filterIt.1] }
        else { admitted := true, transaction := r.2, invoked := [filterIt.1] }
    | none => { admitted := true, transaction := transaction, invoked := [] }

/-! ## Process memory and operating-system services -/

/-- Build target selected by `#ifdef __aarch64__`. -/
inductive Arch where
  | aarch64
  | aarch32
  deriving DecidableEq, Repr

/-- Width of `uintptr_t` / `size_t` / `void*` in bits. -/
def Arch.ptrBits : Arch → Nat
  | .aarch64 => 64
  | .aarch32 => 32

/-- The constant `hookSize` of `installArm64Hook` (16) and `installArm32Hook` (8). -/
def Arch.hookSize : Arch → Nat
  | .aarch64 => 16
  | .aarch32 => 8

/-- `PROT_READ` of `<sys/mman.h>`. -/
def PROT_READ : Nat := 1
/-- `PROT_WRITE` of `<sys/mman.h>`. -/
def PROT_WRITE : Nat := 2
/-- `PROT_EXEC` of `<sys/mman.h>`. -/
def PROT_EXEC : Nat := 4

/-- One request made to the operating system, with its answer. -/
inductive SysCall where
  | mprotect (addr len prot : Nat) (ok : Bool)
  | mmap (len prot : Nat) (result : Option Nat)
  | munmap (addr len : Nat)
  deriving DecidableEq, Repr

/-- The memory services of the operating system as an answer schedule: the first argument of
each answer is the number of system requests made before this one. -/
structure OS where
  /-- Value of `getpagesize()`. -/
  pageSize : Nat
  /-- Whether `mprotect(addr, len, prot)` returns 0. -/
  mprotect : Nat → Nat → Nat → Nat → Bool
  /-- Answer of the anonymous `mmap` of one page: `none` is `MAP_FAILED`. -/
  mmap : Nat → Option Nat

/-- The dynamic linker as an answer schedule (same call counter as `OS`); `0` is a null result. -/
structure Linker where
  /-- Answer of `dlopen(path, RTLD_LAZY | RTLD_LOCAL)`. -/
  dlopen : Nat → String → Nat
  /-- Answer of `dlsym(handle, name)`. -/
  dlsym : Nat → Nat → String → Nat
  /-- Answer of `dlsym(RTLD_DEFAULT, name)`. -/
  dlsymDefault : Nat → String → Nat

/-- Process state outside the engine's own objects: byte memory, protection bits of every
address, the number of system requests made so far and the requests themselves. -/
structure World where
  mem : Nat → Nat
  prot : Nat → Nat
  tick : Nat
  log : List SysCall

/-- Store of a block of bytes at `a`. -/
def writeBytes (mem : Nat → Nat) (a : Nat) (bs : List Nat) : Nat → Nat :=
  fun x => if a ≤ x ∧ x < a + bs.length then bs.getD (x - a) 0 else mem x

/-- Load of `n` bytes at `a`. -/
def readBytes (mem : Nat → Nat) (a n : Nat) : List Nat :=
  (List.range n).map (fun i => mem (a + i))

/-- Little-endian byte image of an `n`-byte unsigned integer holding `v` (truncated to `n` bytes). -/
def leBytes (n v : Nat) : List Nat :=
  (List.range n).map (fun i => v / 256 ^ i % 256)

/-- Store through a `uint32_t*`. -/
def World.write32 (w : World) (a v : Nat) : World :=
  { w with mem := writeBytes w.mem a (leBytes 4 v) }

/-- Store through a `uint64_t*`. -/
def World.write64 (w : World) (a v : Nat) : World :=
  { w with mem := writeBytes w.mem a (leBytes 8 v) }

/-- Model of `memcpy(dst, src, n)` between two regions of process memory. -/
def World.memcpy (w : World) (dst src n : Nat) : World :=
  { w with mem := writeBytes w.mem dst (readBytes w.mem src n) }

/-- Model of `mprotect(addr, len, prot)`: the schedule decides success; on success the
protection of every address of the range becomes `prot`. -/
def World.mprotect (os : OS) (w : World) (addr len prot : Nat) : World × Bool :=
  let ok := os.mprotect w.tick addr len prot
  ({ mem := w.mem
     prot := if ok then fun x => if addr ≤ x ∧ x < addr + len then prot else w.prot x else w.prot
     tick := w.tick + 1
     log := w.log ++ [SysCall.mprotect addr len prot ok] }, ok)

/-- Model of `mmap(nullptr, len, prot, MAP_PRIVATE | MAP_ANONYMOUS, -1, 0)`.  The content
of the fresh region is whatever the memory function holds there. -/
def World.mmap (os : OS) (w : World) (len prot : Nat) : World × Option Nat :=
  let r := os.mmap w.tick
  ({ mem := w.mem
     prot := match r with
       | some t => fun x => if t ≤ x ∧ x < t + len then prot else w.prot x
       | none => w.prot
     tick := w.tick + 1
     log := w.log ++ [SysCall.mmap len prot r] }, r)

/-- Model of `munmap(addr, len)`. -/
def World.munmap (w : World) (addr len : Nat) : World :=
  { w with tick := w.tick + 1, log := w.log ++ [SysCall.munmap addr len] }

/-! ## inline_hook.h / inline_hook.cpp -/

/-- Model of `struct HookEntry`; `originalBytes` is the 32-byte array. -/
structure HookEntry where
  originalFunction : Nat
  replacementFunction : Nat
  backupFunction : Nat
  originalBytes : List Nat
  originalSize : Nat
  active : Bool
  deriving DecidableEq, Repr

/-- Instance state of `class InlineHook`. -/
structure InlineHook where
  hooks : StdMap Nat HookEntry
  trampolines : List Nat
  deriving DecidableEq, Repr

/-- Model of the constructor `InlineHook::InlineHook()`. -/
def InlineHook.ctor : InlineHook := { hooks := [], trampolines := [] }

/-- Subtraction of `uintptr_t` values. -/
def subW (bits x y : Nat) : Nat := (x % 2 ^ bits + (2 ^ bits - y % 2 ^ bits)) % 2 ^ bits

/-- The mask `~(getpagesize() - 1)` converted to `uintptr_t` (an `int` that is sign-extended). -/
def pageMask (arch : Arch) (os : OS) : Nat := 2 ^ arch.ptrBits - os.pageSize % 2 ^ arch.ptrBits

/-- First argument of `mprotect` in `makeMemoryWritable` / `makeMemoryExecutable`:
`(uintptr_t)addr & ~(getpagesize() - 1)`. -/
def pageAddrOf (arch : Arch) (os : OS) (addr : Nat) : Nat :=
  addr &&& pageMask arch os

/-- Second argument of `mprotect` in `makeMemoryWritable` / `makeMemoryExecutable`:
`((uintptr_t)addr + size - pageAddr + getpagesize() - 1) & ~(getpagesize() - 1)`. -/
def pageSizeOf (arch : Arch) (os : OS) (addr size : Nat) : Nat :=
  let b := arch.ptrBits
  let t1 := (addr + size) % 2 ^ b
  let t2 := subW b t1 (pageAddrOf arch os addr)
  let t3 := (t2 + os.pageSize) % 2 ^ b
  let t4 := subW b t3 1
  t4 &&& pageMask arch os

/-- Model of `InlineHook::makeMemoryWritable`. -/
def InlineHook.makeMemoryWritable (arch : Arch) (os : OS) (w : World) (addr size : Nat) :
    World × Bool :=
  let pageAddr := pageAddrOf arch os addr
  let pageSize := pageSizeOf arch os addr size
  let r := World.mprotect os w pageAddr pageSize (PROT_READ ||| PROT_WRITE ||| PROT_EXEC)
  if r.2 = false then (r.1, false) else (r.1, true)

/-- Model of `InlineHook::makeMemoryExecutable`. -/
def InlineHook.makeMemoryExecutable (arch : Arch) (os : OS) (w : World) (addr size : Nat) :
    World × Bool :=
  let pageAddr := pageAddrOf arch os addr
  let pageSize := pageSizeOf arch os addr size
  let r := World.mprotect os w pageAddr pageSize (PROT_READ ||| PROT_EXEC)
  if r.2 = false then (r.1, false) else (r.1, true)

/-- Model of `InlineHook::flushInstructionCache`: `__builtin___clear_cache` changes neither
memory content nor protection. -/
def InlineHook.flushInstructionCache (w : World) (_addr _size : Nat) : World := w

/-- Model of `InlineHook::allocateTrampoline`; the result `0` is `nullptr`. -/
def InlineHook.allocateTrampoline (os : OS) (w : World) (self : InlineHook) :
    World × InlineHook × Nat :=
  let trampolineSize := os.pageSize
  let r := World.mmap os w trampolineSize (PROT_READ ||| PROT_WRITE ||| PROT_EXEC)
  match r.2 with
  | none => (r.1, self, 0)
  | some trampoline =>
      (r.1, { self with trampolines := self.trampolines ++ [trampoline] }, trampoline)

/-- Model of `InlineHook::freeTrampoline`. -/
def InlineHook.freeTrampoline (os : OS) (w : World) (self : InlineHook) (trampoline : Nat) :
    World × InlineHook :=
  if trampoline = 0 then (w, self)
  else if trampoline ∈ self.trampolines then
    (World.munmap w trampoline os.pageSize,
      { self with trampolines := self.trampolines.erase trampoline })
  else (w, self)

/-- Model of `InlineHook::isValidAddress`. -/
def InlineHook.isValidAddress (addr : Nat) : Bool :=
  decide (addr > 0x1000 ∧ addr < 0x7fffffff00000000)

/-- Model of `InlineHook::isHookInstalled`. -/
def InlineHook.isHookInstalled (self : InlineHook) (originalFunction : Nat) : Bool :=
  match StdMap.findEntry self.hooks originalFunction with
  | some it => it.2.active
  | none => false

/-- Model of `InlineHook::writeArm64Jump`. -/
def InlineHook.writeArm64Jump (w : World) (addr target : Nat) : World × Bool :=
  let code := addr
  let targetAddr := target
  let ldr_instruction := 0x58000050
  let br_instruction := 0xD61F0200
  let w := World.write32 w code ldr_instruction
  let w := World.write32 w (code + 4) br_instruction
  let w := World.write64 w (code + 8) targetAddr
  (InlineHook.flushInstructionCache w addr 16, true)

/-- Model of `InlineHook::writeArm32Jump`. -/
def InlineHook.writeArm32Jump (w : World) (addr target : Nat) : World × Bool :=
  let code := addr
  let targetAddr := target
  let w := World.write32 w code 0xe51ff004
  let w := World.write32 w (code + 4) targetAddr
  (InlineHook.flushInstructionCache w addr 8, true)

/-- Outcome of an install: the world and installer afterwards, the returned flag, and the
content of the caller's backup slot (`none` when the caller passed a null slot pointer). -/
structure InstallResult where
  world : World
  hook : InlineHook
  ok : Bool
  backup : Option Nat

/-- Value-initialised `HookEntry` as produced by `std::make_shared<HookEntry>()`. -/
def HookEntry.zero : HookEntry :=
  { originalFunction := 0, replacementFunction := 0, backupFunction := 0,
    originalBytes := List.replicate 32 0, originalSize := 0, active := false }

/-- Model of `memcpy(hook->originalBytes, originalFunction, hookSize)` into the 32-byte array. -/
def HookEntry.saveBytes (hook : HookEntry) (w : World) (originalFunction hookSize : Nat) :
    HookEntry :=
  { hook with
    originalBytes := readBytes w.mem originalFunction hookSize ++ hook.originalBytes.drop hookSize }

/-- Model of `InlineHook::installArm64Hook`. -/
def InlineHook.installArm64Hook (os : OS) (w : World) (self : InlineHook)
    (originalFunction replacementFunction : Nat) (backupFunction : Option Nat) : InstallResult :=
  let hook := HookEntry.zero
  let hook := { hook with originalFunction := originalFunction }
  let hook := { hook with replacementFunction := replacementFunction }
  let hook := { hook with active := false }
  let hookSize := 16
  let hook := { hook with originalSize := hookSize }
  let r := InlineHook.makeMemoryWritable Arch.aarch64 os w originalFunction hookSize
  if r.2 = false then { world := r.1, hook := self, ok := false, backup := backupFunction }
  else
    let w := r.1
    let hook := HookEntry.saveBytes hook w originalFunction hookSize
    let a := InlineHook.allocateTrampoline os w self
    let w := a.1
    let self := a.2.1
    let trampoline := a.2.2
    if trampoline = 0 then { world := w, hook := self, ok := false, backup := backupFunction }
    else
      let w := World.memcpy w trampoline originalFunction hookSize
      let returnAddr := (originalFunction + hookSize) % 2 ^ 64
      let trampolineAddr := (trampoline + hookSize) % 2 ^ 64
      let ldr_instruction := 0x58000050
      let br_instruction := 0xD61F0200
      let w := World.write32 w trampolineAddr ldr_instruction
      let w := World.write32 w ((trampolineAddr + 4) % 2 ^ 64) br_instruction
      let w := World.write64 w ((trampolineAddr + 8) % 2 ^ 64) returnAddr
      let w := InlineHook.flushInstructionCache w trampoline (hookSize + 16)
      let j := InlineHook.writeArm64Jump w originalFunction replacementFunction
      if j.2 = false then
        let f := InlineHook.freeTrampoline os j.1 self trampoline
        { world := f.1, hook := f.2, ok := false, backup := backupFunction }
      else
        let w := (InlineHook.makeMemoryExecutable Arch.aarch64 os j.1 originalFunction hookSize).1
        let hook := { hook with backupFunction := trampoline }
        let hook := { hook with active := true }
        let self := { self with hooks := StdMap.set self.hooks originalFunction hook }
        { world := w, hook := self, ok := true,
          backup := backupFunction.map (fun _ => trampoline) }

/-- Model of `InlineHook::installArm32Hook`. -/
def InlineHook.installArm32Hook (os : OS) (w : World) (self : InlineHook)
    (originalFunction replacementFunction : Nat) (backupFunction : Option Nat) : InstallResult :=
  let hook := HookEntry.zero
  let hook := { hook with originalFunction := originalFunction }
  let hook := { hook with replacementFunction := replacementFunction }
  let hook := { hook with active := false }
  let hookSize := 8
  let hook := { hook with originalSize := hookSize }
  let r := InlineHook.makeMemoryWritable Arch.aarch32 os w originalFunction hookSize
  if r.2 = false then { world := r.1, hook := self, ok := false, backup := backupFunction }
  else
    let w := r.1
    let hook := HookEntry.saveBytes hook w originalFunction hookSize
    let a := InlineHook.allocateTrampoline os w self
    let w := a.1
    let self := a.2.1
    let trampoline := a.2.2
    if trampoline = 0 then { world := w, hook := self, ok := false, backup := backupFunction }
    else
      let w := World.memcpy w trampoline originalFunction hookSize
      let trampolineCode := trampoline
      let returnAddr := (originalFunction + hookSize) % 2 ^ 32
      let w := World.write32 w (trampolineCode + hookSize) 0xe51ff004
      let w := World.write32 w (trampolineCode + hookSize + 4) returnAddr
      let w := InlineHook.flushInstructionCache w trampoline (hookSize + 8)
      let j := InlineHook.writeArm32Jump w originalFunction replacementFunction
      if j.2 = false then
        let f := InlineHook.freeTrampoline os j.1 self trampoline
        { world := f.1, hook := f.2, ok := false, backup := backupFunction }
      else
        let w := (InlineHook.makeMemoryExecutable Arch.aarch32 os j.1 originalFunction hookSize).1
        let hook := { hook with backupFunction := trampoline }
        let hook := { hook with active := true }
        let self := { self with hooks := StdMap.set self.hooks originalFunction hook }
        { world := w, hook := self, ok := true,
          backup := backupFunction.map (fun _ => trampoline) }

/-- Model of `InlineHook::installHook`. -/
def InlineHook.installHook (arch : Arch) (os : OS) (w : World) (self : InlineHook)
    (originalFunction replacementFunction : Nat) (backupFunction : Option Nat) : InstallResult :=
  if originalFunction = 0 ∨ replacementFunction = 0 then
    { world := w, hook := self, ok := false, backup := backupFunction }
  else if self.isHookInstalled originalFunction then
    { world := w, hook := self, ok := false, backup := backupFunction }
  else if !InlineHook.isValidAddress originalFunction then
    { world := w, hook := self, ok := false, backup := backupFunction }
  else
    match arch with
    | .aarch64 =>
        InlineHook.installArm64Hook os w self originalFunction replacementFunction backupFunction
    | .aarch32 =>
        InlineHook.installArm32Hook os w self originalFunction replacementFunction backupFunction

/-- Outcome of an uninstall: world and installer afterwards and the returned flag. -/
structure UninstallResult where
  world : World
  hook : InlineHook
  ok : Bool

/-- Model of `InlineHook::uninstallHook`; the second parameter is unused by the source. -/
def InlineHook.uninstallHook (arch : Arch) (os : OS) (w : World) (self : InlineHook)
    (originalFunction : Nat) (_backupFunction : Nat) : UninstallResult :=
  match StdMap.findEntry self.hooks originalFunction with
  | none => { world := w, hook := self, ok := false }
  | some it =>
      let hook := it.2
      if !hook.active then { world := w, hook := self, ok := false }
      else
        let r := InlineHook.makeMemoryWritable arch os w originalFunction hook.originalSize
        if r.2 = false then { world := r.1, hook := self, ok := false }
        else
          let w := r.1
          let w := { w with
            mem := writeBytes w.mem originalFunction (hook.originalBytes.take hook.originalSize) }
          let w := InlineHook.flushInstructionCache w originalFunction hook.originalSize
          let w := (InlineHook.makeMemoryExecutable arch os w originalFunction hook.originalSize).1
          { world := w, hook := { self with hooks := StdMap.erase self.hooks originalFunction },
            ok := true }

/-! ## binder_hook.cpp : transaction parsing and the I/O replacements -/

/-- `BINDER_TYPE_BINDER` of binder_hook.h. -/
def BINDER_TYPE_BINDER : Nat := 0x73622a85
/-- `BINDER_TYPE_HANDLE` of binder_hook.h. -/
def BINDER_TYPE_HANDLE : Nat := 0x68622a85

/-- Value of a little-endian byte sequence (load through a `uintN_t*`). -/
def fromLE : List Nat → Nat
  | [] => 0
  | b :: bs => b + 256 * fromLE bs

/-- The test `c >= 'a' && c <= 'z'` of `getServiceName`. -/
def isLowerByte (c : Nat) : Bool := decide (97 ≤ c ∧ c ≤ 122)

/-- The character test of the inner `while` of `getServiceName`. -/
def isNameByte (c : Nat) : Bool :=
  decide (97 ≤ c ∧ c ≤ 122) || decide (65 ≤ c ∧ c ≤ 90) || decide (48 ≤ c ∧ c ≤ 57) ||
    decide (c = 46) || decide (c = 95)

/-- The inner `while` of `getServiceName`: the final value of `len`, started from `len`,
with at most `fuel` iterations. -/
def getServiceName.runLength (str : Nat → Nat) (size i : Nat) : Nat → Nat → Nat
  | 0, len => len
  | fuel + 1, len =>
      if i + len < size ∧ isNameByte (str (i + len)) = true then
        getServiceName.runLength str size i fuel (len + 1)
      else len

/-- The outer `for` of `getServiceName` from index `i` on, with at most `fuel` iterations. -/
def getServiceName.scan (str : Nat → Nat) (size : Nat) : Nat → Nat → String
  | 0, _ => ""
  | fuel + 1, i =>
      if i < size - 4 then
        if isLowerByte (str i) = true ∧ isLowerByte (str (i + 1)) = true then
          let len := getServiceName.runLength str size i size 0
          if len > 3 then String.mk ((List.range len).map (fun k => Char.ofNat (str (i + k))))
          else getServiceName.scan str size fuel (i + 1)
        else getServiceName.scan str size fuel (i + 1)
      else ""

/-- Model of `BinderHook::getServiceName`; `data = none` is a null pointer, otherwise the bytes
at `data` (a read past the end of the list yields 0). -/
def BinderHook.getServiceName (data : Option (List Nat)) (size : Nat) : String :=
  match data with
  | none => ""
  | some buf =>
      if size < 16 then ""
      else getServiceName.scan (fun i => buf.getD i 0) size size 0

/-- Model of `BinderHook::parseBinderTransaction`: the returned flag and the out-parameter. -/
def BinderHook.parseBinderTransaction (data : Option (List Nat)) (size : Nat)
    (transaction : BinderTransaction) : Bool × BinderTransaction :=
  match data with
  | none => (false, transaction)
  | some buf =>
      if size < 4 * 2 then (false, transaction)
      else
        let word := fun (k : Nat) => fromLE ((List.range 4).map (fun j => buf.getD (4 * k + j) 0))
        let transaction := { transaction with code := word 0 }
        let transaction := { transaction with flags := word 1 }
        let transaction := { transaction with target := BinderHook.getServiceName data size }
        let transaction :=
          { transaction with data := (List.range size).map (fun j => buf.getD j 0) }
        (true, transaction)

/-- Static members of `BinderHook`: the captured originals (`0` is `nullptr`). -/
structure BinderStatics where
  original_ioctl : Nat
  original_write : Nat
  original_read : Nat
  deriving DecidableEq, Repr

/-- One call made through the captured `original_write` pointer. -/
structure WriteCall where
  callee : Nat
  fd : Int
  buf : Option (List Nat)
  count : Nat
  deriving DecidableEq, Repr

/-- Outcome of `hooked_write`: returned value, the calls made through `original_write`, and
whether the debug branch for a binder object tag was taken. -/
structure HookedWriteResult where
  ret : Int
  calls : List WriteCall
  tagged : Bool

/-- Model of `BinderHook::hooked_write`.  `exec p fd buf count` is the value returned by the
code at address `p` when called as `write(fd, buf, count)`. -/
def BinderHook.hooked_write (exec : Nat → Int → Option (List Nat) → Nat → Int)
    (statics : BinderStatics) (fd : Int) (buf : Option (List Nat)) (count : Nat) :
    HookedWriteResult :=
  let tagged : Bool :=
    match buf with
    | none => false
    | some bytes =>
        if count > 0 then
          if count ≥ 4 then
            let cmd := fromLE ((List.range 4).map (fun j => bytes.getD j 0))
            decide (cmd = BINDER_TYPE_BINDER ∨ cmd = BINDER_TYPE_HANDLE)
          else false
        else false
  if statics.original_write ≠ 0 then
    { ret := exec statics.original_write fd buf count
      calls := [{ callee := statics.original_write, fd := fd, buf := buf, count := count }]
      tagged := tagged }
  else { ret := -1, calls := [], tagged := tagged }

/-! ## elf_utils.h / elf_utils.cpp : symbol lookup -/

/-- Model of `struct ElfInfo`. -/
structure ElfInfo where
  name : String
  baseAddress : Nat
  size : Nat
  symbols : StdMap String Nat
  deriving DecidableEq, Repr

/-- Instance state of `class ElfUtils`; a registry value `none` is a null `shared_ptr`. -/
structure ElfUtils where
  loadedLibraries : StdMap String (Option ElfInfo)
  deriving DecidableEq, Repr

/-- Model of the constructor `ElfUtils::ElfUtils()`. -/
def ElfUtils.ctor : ElfUtils := { loadedLibraries := [] }

/-- Model of `dlsym(handle, name)`. -/
def World.dlsym (lk : Linker) (w : World) (handle : Nat) (name : String) : World × Nat :=
  ({ w with tick := w.tick + 1 }, lk.dlsym w.tick handle name)

/-- Model of `dlsym(RTLD_DEFAULT, name)`. -/
def World.dlsymDefault (lk : Linker) (w : World) (name : String) : World × Nat :=
  ({ w with tick := w.tick + 1 }, lk.dlsymDefault w.tick name)

/-- Model of `ElfUtils::findSymbol`; the result `none` is the dereference of a null registry
record (`it->second->symbols`), the address `0` is `nullptr`. -/
def ElfUtils.findSymbol (lk : Linker) (w : World) (self : ElfUtils) (libname symbol : String) :
    Option (World × ElfUtils × Nat) :=
  match StdMap.findEntry self.loadedLibraries libname with
  | none => some (w, self, 0)
  | some it =>
      match it.2 with
      | none => none
      | some info =>
          match StdMap.findEntry info.symbols symbol with
          | some symbolIt => some (w, self, symbolIt.2)
          | none =>
              let r := World.dlsym lk w info.baseAddress symbol
              let addr := r.2
              if addr ≠ 0 then
                let info := { info with symbols := StdMap.set info.symbols symbol addr }
                some (r.1,
                  { self with
                    loadedLibraries := StdMap.set self.loadedLibraries it.1 (some info) },
                  addr)
              else some (r.1, self, 0)

/-- The `for` loop of `ElfUtils::findSymbolInAll` over the registry keys still to visit. -/
def ElfUtils.findSymbolInAll.loop (lk : Linker) (symbol : String) :
    List String → World → ElfUtils → Option (World × ElfUtils × Nat)
  | [], w, self => some (w, self, 0)
  | name :: rest, w, self =>
      match ElfUtils.findSymbol lk w self name symbol with
      | none => none
      | some r =>
          if r.2.2 ≠ 0 then some r
          else ElfUtils.findSymbolInAll.loop lk symbol rest r.1 r.2.1

/-- Model of `ElfUtils::findSymbolInAll`. -/
def ElfUtils.findSymbolInAll (lk : Linker) (w : World) (self : ElfUtils) (symbol : String) :
    Option (World × ElfUtils × Nat) :=
  match ElfUtils.findSymbolInAll.loop lk symbol (self.loadedLibraries.map Prod.fst) w self with
  | none => none
  | some r =>
      if r.2.2 ≠ 0 then some r
      else
        let d := World.dlsymDefault lk r.1 symbol
        if d.2 ≠ 0 then some (d.1, r.2.1, d.2)
        else some (d.1, r.2.1, 0)

/-! ## symbol_resolver.h : state of the resolver -/

/-- Model of `struct SymbolInfo`. -/
structure SymbolInfo where
  name : String
  address : Nat
  size : Nat
  library : String
  isFunction : Bool
  isExported : Bool
  deriving DecidableEq, Repr

/-- Instance state of `class SymbolResolver`. -/
structure SymbolResolver where
  symbolCache : StdMap String SymbolInfo
  librarySymbols : StdMap String (List String)
  scannedLibraries : List String
  deriving DecidableEq, Repr

/-- Model of the constructor `SymbolResolver::SymbolResolver()`. -/
def SymbolResolver.ctor : SymbolResolver :=
  { symbolCache := [], librarySymbols := [], scannedLibraries := [] }

/-! ## terista_native.h / terista_native.cpp : the coordinator and hook manager -/

/-- Model of `struct HookInfo`. -/
structure HookInfo where
  symbol : String
  originalFunction : Nat
  replacementFunction : Nat
  backupFunction : Nat
  active : Bool
  deriving DecidableEq, Repr

/-- Instance state of `class TeristaNative`; the four components are the objects owned through
`std::unique_ptr`, which are created by the constructor and never reset. -/
structure TeristaNative where
  elfUtils : ElfUtils
  inlineHook : InlineHook
  binderHook : BinderHook
  symbolResolver : SymbolResolver
  initialized : Bool
  jniEnv : Nat
  applicationContext : Nat
  activeHooks : List HookInfo

/-- Model of the constructor `TeristaNative::TeristaNative()`. -/
def TeristaNative.ctor : TeristaNative :=
  { elfUtils := ElfUtils.ctor, inlineHook := InlineHook.ctor, binderHook := BinderHook.ctor,
    symbolResolver := SymbolResolver.ctor, initialized := false, jniEnv := 0,
    applicationContext := 0, activeHooks := [] }

/-- Outcome of `TeristaNative::installHook`: world and coordinator afterwards, the returned
flag, and the content of the caller's backup slot (`none` for a null slot pointer). -/
structure NativeInstallResult where
  world : World
  native : TeristaNative
  ok : Bool
  backup : Option Nat

/-- Model of `TeristaNative::installHook`; `none` is the null dereference inside the symbol
lookup. -/
def TeristaNative.installHook (arch : Arch) (os : OS) (lk : Linker) (w : World)
    (self : TeristaNative) (symbol : String) (replacement : Nat) (backup : Option Nat) :
    Option NativeInstallResult :=
  if !self.initialized then some { world := w, native := self, ok := false, backup := backup }
  else
    match ElfUtils.findSymbolInAll lk w self.elfUtils symbol with
    | none => none
    | some f =>
        let self := { self with elfUtils := f.2.1 }
        let originalFunction := f.2.2
        if originalFunction = 0 then
          some { world := f.1, native := self, ok := false, backup := backup }
        else
          let backupFunction : Option Nat := some 0
          let r := InlineHook.installHook arch os f.1 self.inlineHook originalFunction
            replacement backupFunction
          let self := { self with inlineHook := r.hook }
          if !r.ok then some { world := r.world, native := self, ok := false, backup := backup }
          else
            let backupFunction := r.backup.getD 0
            let hookInfo : HookInfo :=
              { symbol := symbol, originalFunction := originalFunction,
                replacementFunction := replacement, backupFunction := backupFunction,
                active := true }
            let self := { self with activeHooks := self.activeHooks ++ [hookInfo] }
            some { world := r.world, native := self, ok := true,
                   backup := backup.map (fun _ => backupFunction) }

/-- One iteration of the range-`for` of `TeristaNative::uninstallAllHooks`: the state is the
world, the installer and the entries already visited. -/
def TeristaNative.uninstallAllHooks.step (arch : Arch) (os : OS)
    (acc : World × InlineHook × List HookInfo) (hookInfo : HookInfo) :
    World × InlineHook × List HookInfo :=
  if hookInfo.active then
    let r := InlineHook.uninstallHook arch os acc.1 acc.2.1 hookInfo.originalFunction
      hookInfo.backupFunction
    (r.world, r.hook, acc.2.2 ++ [{ hookInfo with active := false }])
  else (acc.1, acc.2.1, acc.2.2 ++ [hookInfo])

/-- Model of `TeristaNative::uninstallAllHooks`. -/
def TeristaNative.uninstallAllHooks (arch : Arch) (os : OS) (w : World) (self : TeristaNative) :
    World × TeristaNative :=
  let r := self.activeHooks.foldl (TeristaNative.uninstallAllHooks.step arch os)
    (w, self.inlineHook, [])
  (r.1, { self with inlineHook := r.2.1, activeHooks := [] })

/-! ## Call sequences used by the statements -/

/-- A call of the policy API that edits the allow/block table. -/
inductive FilterCall where
  | setServiceFilter (serviceName : String) (allow : Bool)
  | removeServiceFilter (serviceName : String)
  deriving DecidableEq, Repr

/-- State of the interceptor after one call of the policy API. -/
def BinderHook.applyCall (self : BinderHook) : FilterCall → BinderHook
  | .setServiceFilter serviceName allow => (self.setServiceFilter serviceName allow).1
  | .removeServiceFilter serviceName => (self.removeServiceFilter serviceName).1

/-- State of the interceptor after a sequence of calls of the policy API. -/
def BinderHook.applyCalls (self : BinderHook) (calls : List FilterCall) : BinderHook :=
  calls.foldl BinderHook.applyCall self

/-! ## A concrete environment for instances of the statements -/

/-- A cooperative system: 4 KiB pages, every `mprotect` granted, every `mmap` answered with a
page of its own. -/
def sampleOS : OS :=
  { pageSize := 4096
    mprotect := fun _ _ _ _ => true
    mmap := fun t => some (0x7000000 + 4096 * t) }

/-- A process image whose byte at address `a` is `a % 251`, all of it read+execute. -/
def sampleWorld : World :=
  { mem := fun a => a % 251, prot := fun _ => 5, tick := 0, log := [] }

/-- Sixteen bytes: opcode 1, flags 0, the characters `isms`, four zero bytes. -/
def sampleBlockedBuffer : List Nat :=
  [1, 0, 0, 0, 0, 0, 0, 0, 105, 115, 109, 115, 0, 0, 0, 0]

/-- Twenty bytes: opcode 1, flags 0, the characters `activity`, four zero bytes. -/
def sampleAllowedBuffer : List Nat :=
  [1, 0, 0, 0, 0, 0, 0, 0, 97, 99, 116, 105, 118, 105, 116, 121, 0, 0, 0, 0]

/-- An original `write` that reports every byte as written. -/
def sampleExec : Nat → Int → Option (List Nat) → Nat → Int :=
  fun _ _ _ count => (count : Int)

/-- The statics after the write hook has captured the trampoline `0x7001000`. -/
def sampleStatics : BinderStatics :=
  { original_ioctl := 0, original_write := 0x7001000, original_read := 0 }

/-! ## Reference descriptions used by the statements -/

/-- The absolute-jump byte sequence of the specification: on AArch64 the little-endian words
`0x58000050` (LDR X16,#8) and `0xD61F0200` (BR X16) followed by the 64-bit literal; on AArch32
the word `0xe51ff004` (LDR PC,[PC,#-4]) followed by the 32-bit literal. -/
def absJump (arch : Arch) (target : Nat) : List Nat :=
  match arch with
  | .aarch64 => leBytes 4 0x58000050 ++ leBytes 4 0xD61F0200 ++ leBytes 8 target
  | .aarch32 => leBytes 4 0xe51ff004 ++ leBytes 4 target

/-- Memory content after the stores of a successful install of `R` over `A` with trampoline
`T`, in program order (trampoline copy, trampoline jump, jump at the target). -/
def installedMem (arch : Arch) (mem : Nat → Nat) (A R T : Nat) : Nat → Nat :=
  match arch with
  | .aarch64 =>
      let m := writeBytes mem T (readBytes mem A 16)
      let m := writeBytes m ((T + 16) % 2 ^ 64) (leBytes 4 0x58000050)
      let m := writeBytes m (((T + 16) % 2 ^ 64 + 4) % 2 ^ 64) (leBytes 4 0xD61F0200)
      let m := writeBytes m (((T + 16) % 2 ^ 64 + 8) % 2 ^ 64) (leBytes 8 ((A + 16) % 2 ^ 64))
      let m := writeBytes m A (leBytes 4 0x58000050)
      let m := writeBytes m (A + 4) (leBytes 4 0xD61F0200)
      writeBytes m (A + 8) (leBytes 8 R)
  | .aarch32 =>
      let m := writeBytes mem T (readBytes mem A 8)
      let m := writeBytes m (T + 8) (leBytes 4 0xe51ff004)
      let m := writeBytes m (T + 8 + 4) (leBytes 4 ((A + 8) % 2 ^ 32))
      let m := writeBytes m A (leBytes 4 0xe51ff004)
      writeBytes m (A + 4) (leBytes 4 R)

/-- The `HookEntry` stored by a successful install of `R` over `A` with trampoline `T`. -/
def installedEntry (arch : Arch) (mem : Nat → Nat) (A R T : Nat) : HookEntry :=
  { originalFunction := A, replacementFunction := R, backupFunction := T,
    originalBytes := readBytes mem A arch.hookSize ++ List.replicate (32 - arch.hookSize) 0,
    originalSize := arch.hookSize, active := true }

/-! ## Sequences of installs through the coordinator -/

/-- One request to `TeristaNative::installHook`. -/
structure InstallCall where
  symbol : String
  replacement : Nat
  backup : Option Nat
  deriving DecidableEq, Repr

/-- A sequence of `TeristaNative::installHook` calls each of which returns true: the world and
coordinator after the last one, `none` when a call fails (or dereferences a null record). -/
def TeristaNative.installAll (arch : Arch) (os : OS) (lk : Linker) :
    List InstallCall → World → TeristaNative → Option (World × TeristaNative)
  | [], w, self => some (w, self)
  | c :: cs, w, self =>
      match TeristaNative.installHook arch os lk w self c.symbol c.replacement c.backup with
      | none => none
      | some r =>
          if r.ok then TeristaNative.installAll arch os lk cs r.world r.native else none

/-- The hooked prologues `[A, A+L)` of the list are pairwise non-overlapping, and every
trampoline region `[T, T+2L)` lies in the address space and overlaps no hooked prologue. -/
def Separated (arch : Arch) (hs : List HookInfo) : Prop :=
  hs.Pairwise (fun a b => a.originalFunction + arch.hookSize ≤ b.originalFunction ∨
      b.originalFunction + arch.hookSize ≤ a.originalFunction) ∧
  ∀ a ∈ hs, a.backupFunction + 2 * arch.hookSize ≤ 2 ^ arch.ptrBits ∧
    ∀ b ∈ hs, a.backupFunction + 2 * arch.hookSize ≤ b.originalFunction ∨
      b.originalFunction + arch.hookSize ≤ a.backupFunction

instance instDecidableSeparated (arch : Arch) (hs : List HookInfo) :
    Decidable (Separated arch hs) := by
  unfold Separated; infer_instance

/-- A dynamic linker that knows three symbols of the C library (handle `0xb2`): `f` at
`0x10000`, `g` eight bytes further, `h` at `0x10040`. -/
def sampleLinker : Linker :=
  { dlopen := fun _ _ => 0
    dlsym := fun _ handle name =>
      if handle = 0xb2 then
        if name = "f" then 0x10000 else if name = "g" then 0x10008
        else if name = "h" then 0x10040 else 0
      else 0
    dlsymDefault := fun _ _ => 0 }

/-- Registry record of a library opened with handle `handle`, nothing cached yet. -/
def sampleLibrary (name : String) (handle : Nat) : String × Option ElfInfo :=
  (name, some { name := name, baseAddress := handle, size := 0, symbols := [] })

/-- An initialised coordinator with the three system libraries registered and no hooks. -/
def sampleNative : TeristaNative :=
  { TeristaNative.ctor with
    initialized := true
    jniEnv := 0xe0
    applicationContext := 0xc0
    elfUtils :=
      { loadedLibraries :=
          [sampleLibrary "libbinder.so" 0xb1, sampleLibrary "libc.so" 0xb2,
           sampleLibrary "libdl.so" 0xb3] } }

/-- State relation kept by successful installs: every listed hook is active in the installer
with the bytes of `mem0` saved, and memory equals `mem0` outside the hooked prologues and the
trampolines. -/
def HooksConsistent (arch : Arch) (mem0 : Nat → Nat) (w : World) (n : TeristaNative) : Prop :=
  (∀ h ∈ n.activeHooks, h.active = true ∧
    ∃ e, StdMap.findEntry n.inlineHook.hooks h.originalFunction = some (h.originalFunction, e) ∧
      e.active = true ∧ e.originalSize = arch.hookSize ∧
      e.originalBytes.take arch.hookSize = readBytes mem0 h.originalFunction arch.hookSize) ∧
  (∀ x, (∀ h ∈ n.activeHooks,
      (x < h.originalFunction ∨ h.originalFunction + arch.hookSize ≤ x) ∧
      (x < h.backupFunction ∨ h.backupFunction + 2 * arch.hookSize ≤ x)) → w.mem x = mem0 x)

/-- The sample coordinator after hooking `f` and then `g`, whose prologues overlap. -/
def sampleOverlapping : Option (World × TeristaNative) :=
  TeristaNative.installAll .aarch64 sampleOS sampleLinker
    [InstallCall.mk "f" 0x20000 none, InstallCall.mk "g" 0x30000 none] sampleWorld sampleNative

/-- The sample coordinator after hooking `f` and then `h`, whose prologues are apart. -/
def sampleApart : World × TeristaNative :=
  (TeristaNative.installAll .aarch64 sampleOS sampleLinker
    [InstallCall.mk "f" 0x20000 none, InstallCall.mk "h" 0x30000 none] sampleWorld
    sampleNative).getD (sampleWorld, sampleNative)

/-! ## elf_utils.cpp : the library registry -/

/-- The file services used by `parseElfHeader` as an answer schedule (same call counter as
`OS`). -/
structure FileSys where
  /-- Whether `open(path, O_RDONLY)` returns a descriptor. -/
  openOk : Nat → String → Bool
  /-- The bytes delivered by `read(fd, &ehdr, sizeof(ehdr))` on the file just opened; a list
  whose length is not `sizeof(ehdr)` is a short or failed read. -/
  readHeader : Nat → String → List Nat

/-- `ELFMAG` of `<elf.h>`: the bytes `0x7f 'E' 'L' 'F'`. -/
def ELFMAG : List Nat := [0x7f, 69, 76, 70]
/-- `SELFMAG` of `<elf.h>`. -/
def SELFMAG : Nat := 4
/-- `EI_CLASS` of `<elf.h>`. -/
def EI_CLASS : Nat := 4
/-- `ELFCLASS32` of `<elf.h>`. -/
def ELFCLASS32 : Nat := 1
/-- `ELFCLASS64` of `<elf.h>`. -/
def ELFCLASS64 : Nat := 2
/-- `sizeof(Elf64_Ehdr)`. -/
def sizeofElf64Ehdr : Nat := 64

/-- One system or linker request that only advances the call counter. -/
def World.advance (w : World) : World := { w with tick := w.tick + 1 }

/-- Model of `dlopen(path, RTLD_LAZY | RTLD_LOCAL)` (`RTLD_LOCAL` is 0, so this is also
`dlopen(path, RTLD_LAZY)`). -/
def World.dlopen (lk : Linker) (w : World) (path : String) : World × Nat :=
  (World.advance w, lk.dlopen w.tick path)

/-- Model of `ElfUtils::isLibraryLoaded`. -/
def ElfUtils.isLibraryLoaded (self : ElfUtils) (name : String) : Bool :=
  (StdMap.findEntry self.loadedLibraries name).isSome

/-- Model of the expression `loadedLibraries[path]`: the record stored under `path`, after
inserting a null record when the key is absent (`std::map::operator[]`). -/
def ElfUtils.subscript (self : ElfUtils) (path : String) : ElfUtils × Option ElfInfo :=
  match StdMap.findEntry self.loadedLibraries path with
  | some it => (self, it.2)
  | none => ({ self with loadedLibraries := StdMap.set self.loadedLibraries path none }, none)

/-- Model of `ElfUtils::parseElf32`. -/
def ElfUtils.parseElf32 (_data : List Nat) (_size : Nat) (_info : Option ElfInfo) : Bool := true

/-- Model of `ElfUtils::parseElf64`. -/
def ElfUtils.parseElf64 (_data : List Nat) (_size : Nat) (_info : Option ElfInfo) : Bool := true

/-- Outcome of `parseElfHeader`: world and registry afterwards, the returned flag, and whether
`*loadedLibraries[path]` was evaluated on a null record (the callee ignores the reference, so
execution goes on). -/
structure ParseResult where
  world : World
  elf : ElfUtils
  result : Bool
  nullDeref : Bool

/-- Model of `ElfUtils::parseElfHeader`. -/
def ElfUtils.parseElfHeader (fs : FileSys) (w : World) (self : ElfUtils) (path : String) :
    ParseResult :=
  let opened := fs.openOk w.tick path
  let w := World.advance w
  if !opened then { world := w, elf := self, result := false, nullDeref := false }
  else
    let ehdr := fs.readHeader w.tick path
    let w := World.advance w
    if ehdr.length ≠ sizeofElf64Ehdr then
      { world := World.advance w, elf := self, result := false, nullDeref := false }
    else if ehdr.take SELFMAG ≠ ELFMAG then
      { world := World.advance w, elf := self, result := false, nullDeref := false }
    else if ehdr.getD EI_CLASS 0 = ELFCLASS32 then
      let s := ElfUtils.subscript self path
      let result := ElfUtils.parseElf32 ehdr sizeofElf64Ehdr s.2
      { world := World.advance w, elf := s.1, result := result, nullDeref := s.2.isNone }
    else if ehdr.getD EI_CLASS 0 = ELFCLASS64 then
      let s := ElfUtils.subscript self path
      let result := ElfUtils.parseElf64 ehdr sizeofElf64Ehdr s.2
      { world := World.advance w, elf := s.1, result := result, nullDeref := s.2.isNone }
    else { world := World.advance w, elf := self, result := false, nullDeref := false }

/-- Outcome of `loadLibrary`: world and registry afterwards, the returned flag, and whether
the header parse evaluated `*loadedLibraries[path]` on a null record. -/
structure LoadResult where
  world : World
  elf : ElfUtils
  ok : Bool
  nullDeref : Bool

/-- Model of `ElfUtils::loadLibrary`. -/
def ElfUtils.loadLibrary (lk : Linker) (fs : FileSys) (w : World) (self : ElfUtils)
    (path : String) : LoadResult :=
  if self.isLibraryLoaded path then { world := w, elf := self, ok := true, nullDeref := false }
  else
    let d := World.dlopen lk w path
    let handle := d.2
    if handle = 0 then { world := d.1, elf := self, ok := false, nullDeref := false }
    else
      let elfInfo : ElfInfo := { name := path, baseAddress := handle, size := 0, symbols := [] }
      let p := ElfUtils.parseElfHeader fs d.1 self path
      let self := p.elf
      let self := { self with loadedLibraries := StdMap.set self.loadedLibraries path (some elfInfo) }
      { world := p.world, elf := self, ok := true, nullDeref := p.nullDeref }

/-! ## symbol_resolver.cpp : library-scoped lookup -/

/-- Model of `SymbolResolver::dlsymWrapper`. -/
def SymbolResolver.dlsymWrapper (lk : Linker) (w : World) (libraryName symbolName : String) :
    World × Nat :=
  let d := World.dlopen lk w libraryName
  let handle := d.2
  if handle = 0 then (d.1, 0)
  else World.dlsym lk d.1 handle symbolName

/-- Model of `SymbolResolver::resolveSymbol(libraryName, symbolName)`. -/
def SymbolResolver.resolveSymbolIn (lk : Linker) (w : World) (self : SymbolResolver)
    (libraryName symbolName : String) : World × SymbolResolver × Nat :=
  let cacheKey := libraryName ++ "::" ++ symbolName
  match StdMap.findEntry self.symbolCache cacheKey with
  | some it => (w, self, it.2.address)
  | none =>
      let r := SymbolResolver.dlsymWrapper lk w libraryName symbolName
      let addr := r.2
      if addr ≠ 0 then
        let info : SymbolInfo :=
          { name := symbolName, address := addr, size := 0, library := libraryName,
            isFunction := true, isExported := true }
        (r.1, { self with symbolCache := StdMap.set self.symbolCache cacheKey info }, addr)
      else (r.1, self, 0)

/-! ## terista_native.cpp : lifecycle, uninstall by name, delegations -/

/-- The host runtime's environment (`JNIEnv`) as an answer schedule. -/
structure Jni where
  /-- Answer of `env->NewGlobalRef(obj)`. -/
  newGlobalRef : Nat → Nat → Nat

/-- Addresses of the three replacement bodies `BinderHook::hooked_ioctl`, `hooked_write` and
`hooked_read` in the loaded engine. -/
structure BinderEntryPoints where
  hooked_ioctl : Nat
  hooked_write : Nat
  hooked_read : Nat
  deriving DecidableEq, Repr

/-- The search of `TeristaNative::uninstallHook` for the first entry with the given symbol
that is active: the entries before it, the entry, the entries after it. -/
def TeristaNative.uninstallHook.find (symbol : String) :
    List HookInfo → Option (List HookInfo × HookInfo × List HookInfo)
  | [] => none
  | hookInfo :: rest =>
      if hookInfo.symbol = symbol ∧ hookInfo.active = true then some ([], hookInfo, rest)
      else
        match TeristaNative.uninstallHook.find symbol rest with
        | none => none
        | some r => some (hookInfo :: r.1, r.2.1, r.2.2)

/-- Outcome of a coordinator call that returns a flag. -/
structure NativeResult where
  world : World
  native : TeristaNative
  ok : Bool

/-- Model of `TeristaNative::uninstallHook`. -/
def TeristaNative.uninstallHook (arch : Arch) (os : OS) (w : World) (self : TeristaNative)
    (symbol : String) : NativeResult :=
  if !self.initialized then { world := w, native := self, ok := false }
  else
    match TeristaNative.uninstallHook.find symbol self.activeHooks with
    | none => { world := w, native := self, ok := false }
    | some f =>
        let r := InlineHook.uninstallHook arch os w self.inlineHook f.2.1.originalFunction
          f.2.1.backupFunction
        if r.ok then
          { world := r.world
            native := { self with inlineHook := r.hook, activeHooks := f.1 ++ f.2.2 }
            ok := true }
        else { world := r.world, native := { self with inlineHook := r.hook }, ok := false }

/-- Outcome of `TeristaNative::loadLibrary`. -/
structure NativeLoadResult where
  world : World
  native : TeristaNative
  ok : Bool
  nullDeref : Bool

/-- Model of `TeristaNative::loadLibrary`. -/
def TeristaNative.loadLibrary (lk : Linker) (fs : FileSys) (w : World) (self : TeristaNative)
    (path : String) : NativeLoadResult :=
  if !self.initialized then { world := w, native := self, ok := false, nullDeref := false }
  else
    let r := ElfUtils.loadLibrary lk fs w self.elfUtils path
    { world := r.world, native := { self with elfUtils := r.elf }, ok := r.ok,
      nullDeref := r.nullDeref }

/-- Model of `TeristaNative::findSymbol`; the address `0` is `nullptr`, the result `none` is
the null dereference inside `ElfUtils::findSymbol`. -/
def TeristaNative.findSymbol (lk : Linker) (w : World) (self : TeristaNative)
    (libname symbol : String) : Option (World × TeristaNative × Nat) :=
  if !self.initialized then some (w, self, 0)
  else
    match ElfUtils.findSymbol lk w self.elfUtils libname symbol with
    | none => none
    | some r => some (r.1, { self with elfUtils := r.2.1 }, r.2.2)

/-- Model of `TeristaNative::setBinderFilter`. -/
def TeristaNative.setBinderFilter (self : TeristaNative) (serviceName : String) (allow : Bool) :
    TeristaNative × Bool :=
  if !self.initialized then (self, false)
  else
    let r := self.binderHook.setServiceFilter serviceName allow
    ({ self with binderHook := r.1 }, r.2)

/-- Outcome of a call that also touches the static members of `BinderHook`. -/
structure BinderResult where
  world : World
  native : TeristaNative
  statics : BinderStatics
  ok : Bool

/-- Model of `BinderHook::installHooks`, called on the coordinator's own interceptor;
`TeristaNative::getInstance()` is that coordinator.  The result `none` is the null dereference
inside the symbol lookup of an install. -/
def BinderHook.installHooks (arch : Arch) (os : OS) (lk : Linker) (ep : BinderEntryPoints)
    (w : World) (native : TeristaNative) (statics : BinderStatics) : Option BinderResult :=
  if native.binderHook.hooksInstalled then
    some { world := w, native := native, statics := statics, ok := true }
  else
    match TeristaNative.installHook arch os lk w native "ioctl" ep.hooked_ioctl (some 0) with
    | none => none
    | some i =>
        if !i.ok then
          some { world := i.world, native := i.native, statics := statics, ok := false }
        else
          let statics := { statics with original_ioctl := i.backup.getD 0 }
          match TeristaNative.installHook arch os lk i.world i.native "write" ep.hooked_write
              (some 0) with
          | none => none
          | some wr =>
              if !wr.ok then
                let u := TeristaNative.uninstallHook arch os wr.world wr.native "ioctl"
                some { world := u.world, native := u.native, statics := statics, ok := false }
              else
                let statics := { statics with original_write := wr.backup.getD 0 }
                match TeristaNative.installHook arch os lk wr.world wr.native "read"
                    ep.hooked_read (some 0) with
                | none => none
                | some rd =>
                    if !rd.ok then
                      let u := TeristaNative.uninstallHook arch os rd.world rd.native "ioctl"
                      let u := TeristaNative.uninstallHook arch os u.world u.native "write"
                      some { world := u.world, native := u.native, statics := statics,
                             ok := false }
                    else
                      let statics := { statics with original_read := rd.backup.getD 0 }
                      let native := rd.native
                      let native :=
                        { native with
                          binderHook := { native.binderHook with hooksInstalled := true } }
                      some { world := rd.world, native := native, statics := statics,
                             ok := true }

/-- Model of `BinderHook::uninstallHooks`, called on the coordinator's own interceptor. -/
def BinderHook.uninstallHooks (arch : Arch) (os : OS) (w : World) (native : TeristaNative)
    (statics : BinderStatics) : World × TeristaNative × BinderStatics :=
  if !native.binderHook.hooksInstalled then (w, native, statics)
  else
    let u := TeristaNative.uninstallHook arch os w native "ioctl"
    let u := TeristaNative.uninstallHook arch os u.world u.native "write"
    let u := TeristaNative.uninstallHook arch os u.world u.native "read"
    let statics := { statics with original_ioctl := 0 }
    let statics := { statics with original_write := 0 }
    let statics := { statics with original_read := 0 }
    let native := u.native
    let native :=
      { native with binderHook := { native.binderHook with hooksInstalled := false } }
    (u.world, native, statics)

/-- Model of `TeristaNative::hookBinder`. -/
def TeristaNative.hookBinder (arch : Arch) (os : OS) (lk : Linker) (ep : BinderEntryPoints)
    (w : World) (self : TeristaNative) (statics : BinderStatics) : Option BinderResult :=
  if !self.initialized then
    some { world := w, native := self, statics := statics, ok := false }
  else BinderHook.installHooks arch os lk ep w self statics

/-- Model of `TeristaNative::unhookBinder`. -/
def TeristaNative.unhookBinder (arch : Arch) (os : OS) (w : World) (self : TeristaNative)
    (statics : BinderStatics) : World × TeristaNative × BinderStatics :=
  if !self.initialized then (w, self, statics)
  else BinderHook.uninstallHooks arch os w self statics

/-- Outcome of `TeristaNative::initialize`. -/
structure InitResult where
  world : World
  native : TeristaNative
  ok : Bool
  nullDeref : Bool

/-- Model of `TeristaNative::initialize`; the result `none` is the call through a null
`JNIEnv*`. -/
def TeristaNative.initialize (lk : Linker) (fs : FileSys) (jni : Jni) (w : World)
    (self : TeristaNative) (env context : Nat) : Option InitResult :=
  if self.initialized then some { world := w, native := self, ok := true, nullDeref := false }
  else if env = 0 then none
  else
    let self := { self with jniEnv := env }
    let self := { self with applicationContext := jni.newGlobalRef w.tick context }
    let w := World.advance w
    let l1 := ElfUtils.loadLibrary lk fs w self.elfUtils "libc.so"
    if !l1.ok then
      some { world := l1.world, native := { self with elfUtils := l1.elf }, ok := false,
             nullDeref := l1.nullDeref }
    else
      let l2 := ElfUtils.loadLibrary lk fs l1.world l1.elf "libdl.so"
      if !l2.ok then
        some { world := l2.world, native := { self with elfUtils := l2.elf }, ok := false,
               nullDeref := l1.nullDeref || l2.nullDeref }
      else
        let l3 := ElfUtils.loadLibrary lk fs l2.world l2.elf "libbinder.so"
        if !l3.ok then
          some { world := l3.world, native := { self with elfUtils := l3.elf }, ok := false,
                 nullDeref := l1.nullDeref || l2.nullDeref || l3.nullDeref }
        else
          some { world := l3.world,
                 native := { self with elfUtils := l3.elf, initialized := true }, ok := true,
                 nullDeref := l1.nullDeref || l2.nullDeref || l3.nullDeref }

/-- Model of `TeristaNative::cleanup`. -/
def TeristaNative.cleanup (arch : Arch) (os : OS) (w : World) (self : TeristaNative)
    (statics : BinderStatics) : World × TeristaNative × BinderStatics :=
  if !self.initialized then (w, self, statics)
  else
    let a := TeristaNative.uninstallAllHooks arch os w self
    let b := TeristaNative.unhookBinder arch os a.1 a.2 statics
    let w := b.1
    let self := b.2.1
    let r : World × TeristaNative :=
      if self.applicationContext ≠ 0 ∧ self.jniEnv ≠ 0 then
        (World.advance w, { self with applicationContext := 0 })
      else (w, self)
    let self := r.2
    let self := { self with activeHooks := [] }
    let self := { self with initialized := false }
    let self := { self with jniEnv := 0 }
    (r.1, self, b.2.2)

/-! ## Order and bookkeeping of uninstalls -/

/-- The entries for which the loop of `TeristaNative::uninstallAllHooks` calls
`inlineHook->uninstallHook`, in the order of the calls. -/
def TeristaNative.uninstallAllHooks.visited : List HookInfo → List HookInfo
  | [] => []
  | hookInfo :: rest =>
      if hookInfo.active then hookInfo :: TeristaNative.uninstallAllHooks.visited rest
      else TeristaNative.uninstallAllHooks.visited rest

/-- `InlineHook::uninstallHook` performed for the given entries one after the other. -/
def InlineHook.uninstallEach (arch : Arch) (os : OS) :
    List HookInfo → World → InlineHook → World × InlineHook
  | [], w, self => (w, self)
  | hookInfo :: rest, w, self =>
      let r := InlineHook.uninstallHook arch os w self hookInfo.originalFunction
        hookInfo.backupFunction
      InlineHook.uninstallEach arch os rest r.world r.hook

/-- A system that grants protection changes only to its first five requests. -/
def sampleFlakyOS : OS :=
  { pageSize := 4096
    mprotect := fun t _ _ _ => decide (t < 5)
    mmap := fun t => some (0x7000000 + 4096 * t) }

/-- The sample coordinator after hooking `f` under `sampleFlakyOS`. -/
def sampleHookedFlaky : World × TeristaNative :=
  (TeristaNative.installAll .aarch64 sampleFlakyOS sampleLinker
    [InstallCall.mk "f" 0x20000 none] sampleWorld sampleNative).getD (sampleWorld, sampleNative)

/-- A system that grants every protection change but has no page left for `mmap`. -/
def sampleNoMmapOS : OS :=
  { pageSize := 4096
    mprotect := fun _ _ _ _ => true
    mmap := fun _ => none }

/-! ## A sample session of the coordinator -/

/-- A dynamic linker that opens the three system libraries and knows, in the C library
(handle `0xb2`), `ioctl`, `write`, `read` and the symbols of `sampleLinker`. -/
def sampleOpenLinker : Linker :=
  { dlopen := fun _ path =>
      if path = "libc.so" then 0xb2 else if path = "libdl.so" then 0xb3
      else if path = "libbinder.so" then 0xb1 else 0
    dlsym := fun t handle name =>
      if handle = 0xb2 then
        if name = "ioctl" then 0x11000 else if name = "write" then 0x12000
        else if name = "read" then 0x13000 else sampleLinker.dlsym t handle name
      else 0
    dlsymDefault := fun _ _ => 0 }

/-- A file system in which the bare library names cannot be opened. -/
def sampleFiles : FileSys :=
  { openOk := fun _ _ => false, readHeader := fun _ _ => [] }

/-- A host runtime whose global references are the object handle plus `0x100`. -/
def sampleJni : Jni := { newGlobalRef := fun _ obj => obj + 0x100 }

/-- Addresses of the three replacement bodies in the sample process. -/
def sampleEntryPoints : BinderEntryPoints :=
  { hooked_ioctl := 0x40000, hooked_write := 0x40100, hooked_read := 0x40200 }

/-- A session in the sample process: construct, `initialize`, `hookBinder`, hook `f`. -/
def sampleSession : Option (World × TeristaNative × BinderStatics) :=
  ( TeristaNative.initialize sampleOpenLinker sampleFiles sampleJni sampleWorld
    TeristaNative.ctor 0xe0 0xc0).bind fun i =>
  (TeristaNative.hookBinder .aarch64 sampleOS sampleOpenLinker sampleEntryPoints i.world
    i.native (BinderStatics.mk 0 0 0)).bind fun b =>
  (TeristaNative.installHook .aarch64 sampleOS sampleOpenLinker b.world b.native "f" 0x20000
    none).map fun r => (r.world, r.native, b.statics)

/-! ## Lookups: repeated and across libraries -/

/-- A dynamic linker that cannot serve its first request and serves all later ones: it opens
every library with handle `0xb2` and resolves every symbol to `0x10000`. -/
def sampleLateLinker : Linker :=
  { dlopen := fun t _ => if t = 0 then 0 else 0xb2
    dlsym := fun t _ _ => if t = 0 then 0 else 0x10000
    dlsymDefault := fun _ _ => 0 }

/-- The keys of the map are strictly ascending in the order of `std::less`. -/
def StdMap.KeySorted {κ ν : Type} [KeyLess κ] (m : StdMap κ ν) : Prop :=
  m.Pairwise (fun a b => KeyLess.less a.1 b.1 = true)

/-- A sequence of `ElfUtils::loadLibrary` calls, one per path, in the given order. -/
def ElfUtils.loadAll (lk : Linker) (fs : FileSys) :
    List String → World → ElfUtils → World × ElfUtils
  | [], w, self => (w, self)
  | path :: rest, w, self =>
      let r := ElfUtils.loadLibrary lk fs w self path
      ElfUtils.loadAll lk fs rest r.world r.elf

/-- A dynamic linker with two libraries that both define `sym`: `liba.so` (handle `0xa1`)
at `0x5000` and `libz.so` (handle `0xa2`) at `0x6000`. -/
def sampleTwoLibLinker : Linker :=
  { dlopen := fun _ path =>
      if path = "liba.so" then 0xa1 else if path = "libz.so" then 0xa2 else 0
    dlsym := fun _ handle name =>
      if name = "sym" then (if handle = 0xa1 then 0x5000 else if handle = 0xa2 then 0x6000 else 0)
      else 0
    dlsymDefault := fun _ _ => 0 }

/-! ## binder_hook.cpp : the control-call replacement -/

/-- The request code `BINDER_WRITE_READ`, that is `_IOWR('b', 1, struct binder_write_read)`:
direction read+write in bits 30-31, the size of the structure in bits 16-29, the type
character `'b'` in bits 8-15 and the number 1 in bits 0-7. -/
def BINDER_WRITE_READ (sizeofBinderWriteRead : Nat) : Nat :=
  (3 <<< 30) ||| (sizeofBinderWriteRead <<< 16) ||| (98 <<< 8) ||| 1

/-- One call made through the captured `original_ioctl` pointer. -/
structure IoctlCall where
  callee : Nat
  fd : Int
  request : Nat
  arg : Nat
  deriving DecidableEq, Repr

/-- Outcome of `hooked_ioctl`: returned value, the calls made through `original_ioctl`, and
whether the debug branch for the read-write request code was taken. -/
structure HookedIoctlResult where
  ret : Int
  calls : List IoctlCall
  logged : Bool

/-- Model of `BinderHook::hooked_ioctl`.  `exec p fd request arg` is the value returned by the
code at address `p` when called as `ioctl(fd, request, arg)`; `sizeofBinderWriteRead` is
`sizeof(struct binder_write_read)` on the platform. -/
def BinderHook.hooked_ioctl (sizeofBinderWriteRead : Nat) (exec : Nat → Int → Nat → Nat → Int)
    (statics : BinderStatics) (fd : Int) (request arg : Nat) : HookedIoctlResult :=
  let logged : Bool := decide (request = BINDER_WRITE_READ sizeofBinderWriteRead)
  if statics.original_ioctl ≠ 0 then
    { ret := exec statics.original_ioctl fd request arg
      calls := [{ callee := statics.original_ioctl, fd := fd, request := request, arg := arg }]
      logged := logged }
  else { ret := -1, calls := [], logged := logged }

/-- Code at the captured `ioctl` original in the sample process: it returns the low byte of
the request code. -/
def sampleIoctlExec : Nat → Int → Nat → Nat → Int :=
  fun p _ request _ => if p = 0x7000000 then Int.ofNat (request % 256) else -1

/-! ## binder_hook.cpp : the byte reads of the service-name scan -/

/-- The inner `while` of `getServiceName` together with the byte indices it reads, in order
(appended to `reads`); `none` when `fuel` evaluations of the loop condition do not end the
loop. -/
def getServiceName.runReads (str : Nat → Nat) (size i : Nat) :
    Nat → Nat → List Nat → Option (Nat × List Nat)
  | 0, _, _ => none
  | fuel + 1, len, reads =>
      if i + len < size then
        if isNameByte (str (i + len)) = true then
          getServiceName.runReads str size i fuel (len + 1) (reads ++ [i + len])
        else some (len, reads ++ [i + len])
      else some (len, reads)

/-- The outer `for` of `getServiceName` together with the byte indices it reads, in order;
`none` when `fuel` evaluations of the loop condition do not end the loop.  The second letter
test reads `str[i+1]` only after the first one succeeded (`&&`). -/
def getServiceName.scanReads (str : Nat → Nat) (size : Nat) :
    Nat → Nat → List Nat → Option (String × List Nat)
  | 0, _, _ => none
  | fuel + 1, i, reads =>
      if i < size - 4 then
        if isLowerByte (str i) = true then
          if isLowerByte (str (i + 1)) = true then
            match getServiceName.runReads str size i (size + 1) 0 (reads ++ [i, i + 1]) with
            | none => none
            | some r =>
                if r.1 > 3 then
                  some (String.mk ((List.range r.1).map (fun k => Char.ofNat (str (i + k)))), r.2)
                else getServiceName.scanReads str size fuel (i + 1) r.2
          else getServiceName.scanReads str size fuel (i + 1) (reads ++ [i, i + 1])
        else getServiceName.scanReads str size fuel (i + 1) (reads ++ [i])
      else some ("", reads)

/-- Model of `BinderHook::getServiceName` that also reports the byte indices read from the
buffer; `none` when the scan does not come to an end. -/
def BinderHook.getServiceNameReads (data : Option (List Nat)) (size : Nat) :
    Option (String × List Nat) :=
  match data with
  | none => some ("", [])
  | some buf =>
      if size < 16 then some ("", [])
      else getServiceName.scanReads (fun i => buf.getD i 0) size size 0 []

/-! ## Runs of name characters -/

/-- The bytes `str[i .. i+len)` are a run of name characters that cannot be extended to the
right inside the first `size` bytes. -/
def IsRunAt (str : Nat → Nat) (size i len : Nat) : Prop :=
  i + len ≤ size ∧ (∀ k, k < len → isNameByte (str (i + k)) = true) ∧
    (i + len < size → isNameByte (str (i + len)) = false)

/-- Decision procedure for `IsRunAt`. -/
instance instDecidableIsRunAt (str : Nat → Nat) (size i len : Nat) :
    Decidable (IsRunAt str size i len) := by
  unfold IsRunAt
  infer_instance

/-- A start index that `getServiceName` accepts: it lies below `size - 4`, the bytes at `i`
and `i + 1` are lowercase letters, and the run of name characters from `i` has length
`len > 3`. -/
def IsCandidate (str : Nat → Nat) (size i len : Nat) : Prop :=
  i < size - 4 ∧ isLowerByte (str i) = true ∧ isLowerByte (str (i + 1)) = true ∧
    IsRunAt str size i len ∧ 3 < len

/-- Decision procedure for `IsCandidate`. -/
instance instDecidableIsCandidate (str : Nat → Nat) (size i len : Nat) :
    Decidable (IsCandidate str size i len) := by
  unfold IsCandidate
  infer_instance

/-- The specification's notion of a service-name run in a buffer: `len > 3` bytes at
`i .. i+len`, located after the first 8 bytes, all from `[A-Za-z0-9._]`, the first one a
lowercase letter. -/
def isSpecServiceRun (buf : List Nat) (size i len : Nat) : Bool :=
  decide (8 ≤ i ∧ i + len ≤ size ∧ 3 < len) && isLowerByte (buf.getD i 0) &&
    (List.range len).all (fun k => isNameByte (buf.getD (i + k) 0))

/-- Sixteen bytes: "abcd", four zero bytes, "efghijk", one zero byte. -/
def sampleTwoRuns : List Nat :=
  [97, 98, 99, 100, 0, 0, 0, 0, 101, 102, 103, 104, 105, 106, 107, 0]

/-- Sixteen bytes: twelve zero bytes, then "abcd". -/
def sampleLateRun : List Nat :=
  [0, 0, 0, 0, 0, 0, 0, 0, 0, 0, 0, 0, 97, 98, 99, 100]

/-- Sixteen bytes: eight zero bytes, "a.bcd", three zero bytes. -/
def sampleDottedRun : List Nat :=
  [0, 0, 0, 0, 0, 0, 0, 0, 97, 46, 98, 99, 100, 0, 0, 0]

/-! ## Replay of the logged protection requests -/

/-- The protection bits include `PROT_EXEC`. -/
def hasExec (prot : Nat) : Bool := decide (prot &&& PROT_EXEC = PROT_EXEC)

/-- Effect of one logged request on the protection of every address, as `World.mprotect`
and `World.mmap` apply it. -/
def SysCall.applyProt (p : Nat → Nat) : SysCall → Nat → Nat
  | .mprotect addr len prot ok =>
      if ok then fun x => if addr ≤ x ∧ x < addr + len then prot else p x else p
  | .mmap len prot r =>
      match r with
      | some t => fun x => if t ≤ x ∧ x < t + len then prot else p x
      | none => p
  | .munmap _ _ => p

/-- The protection states after each of the requests, in order, starting from `p`. -/
def protStates (p : Nat → Nat) : List SysCall → List (Nat → Nat)
  | [] => []
  | c :: rest => SysCall.applyProt p c :: protStates (SysCall.applyProt p c) rest

/-- The requests made between the world `w` and a later world `w'`. -/
def World.newRequests (w w' : World) : List SysCall := w'.log.drop w.log.length

/-- A request that keeps execute permission: a protection change that starts at `pageAddr`
and asks for read+write+execute or read+execute, the mapping of a read+write+execute page,
or an unmapping. -/
def SysCall.keepsExec (pageAddr : Nat) : SysCall → Prop
  | .mprotect addr _ prot _ =>
      addr = pageAddr ∧
        (prot = (PROT_READ ||| PROT_WRITE ||| PROT_EXEC) ∨ prot = (PROT_READ ||| PROT_EXEC))
  | .mmap _ prot _ => prot = (PROT_READ ||| PROT_WRITE ||| PROT_EXEC)
  | .munmap _ _ => True

/-- The world `w'` arises from `w` by requests that all keep execute permission, and its
protection state is the replay of these requests. -/
def ExecSteps (pageAddr : Nat) (w w' : World) : Prop :=
  ∃ new, w'.log = w.log ++ new ∧ (∀ c ∈ new, SysCall.keepsExec pageAddr c) ∧
    w'.prot = new.foldl SysCall.applyProt w.prot

/-! ## symbol_resolver.cpp : the global lookup and the cache keys -/

/-- The address lookup of the dynamic linker (`dladdr`) as an answer table. -/
structure AddrInfo where
  /-- The `dli_fname` that `dladdr(address, &info)` reports; `none` when `dladdr` fails or
  reports a null file name. -/
  fname : Nat → Option String

/-- Model of `SymbolResolver::getLibraryName`. -/
def SymbolResolver.getLibraryName (ai : AddrInfo) (address : Nat) : String :=
  match ai.fname address with
  | some fname => fname
  | none => ""

/-- The cache key of the library-scoped lookup: `libraryName + "::" + symbolName`. -/
def SymbolResolver.scopedKey (libraryName symbolName : String) : String :=
  libraryName ++ "::" ++ symbolName

/-- The `for` loop of `SymbolResolver::resolveSymbol(symbolName)` over the scanned
libraries: the first library in which the symbol resolves, with the address. -/
def SymbolResolver.resolveSymbol.loop (lk : Linker) (symbolName : String) :
    List String → World → World × Option (String × Nat)
  | [], w => (w, none)
  | libPath :: rest, w =>
      let r := SymbolResolver.dlsymWrapper lk w libPath symbolName
      if r.2 ≠ 0 then (r.1, some (libPath, r.2))
      else SymbolResolver.resolveSymbol.loop lk symbolName rest r.1

/-- Model of `SymbolResolver::resolveSymbol(symbolName)`, the lookup across all libraries. -/
def SymbolResolver.resolveSymbol (lk : Linker) (ai : AddrInfo) (w : World)
    (self : SymbolResolver) (symbolName : String) : World × SymbolResolver × Nat :=
  match StdMap.findEntry self.symbolCache symbolName with
  | some it => (w, self, it.2.address)
  | none =>
      let d := World.dlsymDefault lk w symbolName
      let addr := d.2
      if addr ≠ 0 then
        let info : SymbolInfo :=
          { name := symbolName, address := addr, size := 0,
            library := SymbolResolver.getLibraryName ai addr, isFunction := true,
            isExported := true }
        (d.1, { self with symbolCache := StdMap.set self.symbolCache symbolName info }, addr)
      else if !self.scannedLibraries.isEmpty then
        let r := SymbolResolver.resolveSymbol.loop lk symbolName self.scannedLibraries d.1
        match r.2 with
        | some found =>
            let info : SymbolInfo :=
              { name := symbolName, address := found.2, size := 0, library := found.1,
                isFunction := true, isExported := true }
            (r.1, { self with symbolCache := StdMap.set self.symbolCache symbolName info },
              found.2)
        | none => (r.1, self, 0)
      else (d.1, self, 0)

/-- An address lookup that knows no address. -/
def sampleAddrInfo : AddrInfo := { fname := fun _ => none }

/-- The resolver of the sample process after the scoped lookup of `f` in `libc.so`. -/
def sampleScopedResolver : SymbolResolver :=
  (SymbolResolver.resolveSymbolIn sampleOpenLinker sampleWorld SymbolResolver.ctor "libc.so"
    "f").2.1

/-! ## Samples for the registry and for a failing control-path install -/

/-- A file system in which every path opens and starts with a 64-bit ELF header. -/
def sampleElfFiles : FileSys :=
  { openOk := fun _ _ => true
    readHeader := fun _ _ => [0x7f, 69, 76, 70, 2] ++ List.replicate 59 0 }

/-- A dynamic linker whose C library (handle `0xb2`) defines `ioctl` at `0x11000` and
nothing else. -/
def sampleIoctlOnlyLinker : Linker :=
  { dlopen := fun _ _ => 0
    dlsym := fun _ handle name => if handle = 0xb2 ∧ name = "ioctl" then 0x11000 else 0
    dlsymDefault := fun _ _ => 0 }

/-! # Properties -/

/-! ## std::map lemmas -/

theorem StdMap.findEntry_key {κ ν : Type} [DecidableEq κ] (m : StdMap κ ν) (k : κ) (e : κ × ν)
    (h : StdMap.findEntry m k = some e) : e.1 = k := by
  induction m with
  | nil => simp [StdMap.findEntry] at h
  | cons p rest ih =>
      obtain ⟨k', v⟩ := p
      simp only [StdMap.findEntry] at h
      split at h
      · next hk => cases h; exact hk
      · exact ih h

/-! ## Memory lemmas -/

theorem readBytes_length (m : Nat → Nat) (a n : Nat) : (readBytes m a n).length = n := by
  simp [readBytes]

theorem leBytes_length (n v : Nat) : (leBytes n v).length = n := by
  simp [leBytes]

theorem readBytes_getD (m : Nat → Nat) (a n i : Nat) (h : i < n) :
    (readBytes m a n).getD i 0 = m (a + i) := by
  simp [readBytes, List.getD_eq_getElem?_getD, List.getElem?_map, List.getElem?_range h]

theorem readBytes_eq_of_pointwise (m : Nat → Nat) (a n : Nat) (l : List Nat)
    (hl : l.length = n) (h : ∀ i, i < n → m (a + i) = l.getD i 0) : readBytes m a n = l := by
  apply List.ext_getElem
  · simp [readBytes, hl]
  · intro i h1 h2
    have hi : i < n := by simpa [readBytes] using h1
    have := h i hi
    simp [readBytes, this, List.getD_eq_getElem?_getD, List.getElem?_eq_getElem h2]

theorem installedMem_target64 (m : Nat → Nat) (A R T : Nat) :
    readBytes (installedMem .aarch64 m A R T) A 16 = absJump .aarch64 R := by
  apply readBytes_eq_of_pointwise
  · simp [absJump, leBytes]
  · intro i hi
    interval_cases i <;>
      simp [installedMem, writeBytes, absJump, leBytes, List.range_succ]

theorem installedMem_target32 (m : Nat → Nat) (A R T : Nat) :
    readBytes (installedMem .aarch32 m A R T) A 8 = absJump .aarch32 R := by
  apply readBytes_eq_of_pointwise
  · simp [absJump, leBytes]
  · intro i hi
    interval_cases i <;>
      simp [installedMem, writeBytes, absJump, leBytes, List.range_succ]

theorem installedMem_target (arch : Arch) (m : Nat → Nat) (A R T : Nat) :
    readBytes (installedMem arch m A R T) A arch.hookSize = absJump arch R := by
  cases arch
  · exact installedMem_target64 m A R T
  · exact installedMem_target32 m A R T

theorem writeBytes_outside (m : Nat → Nat) (a : Nat) (bs : List Nat) (x : Nat)
    (h : x < a ∨ a + bs.length ≤ x) : writeBytes m a bs x = m x := by
  unfold writeBytes
  rw [if_neg]
  omega

theorem writeBytes_inside (m : Nat → Nat) (a : Nat) (bs : List Nat) (x : Nat)
    (h1 : a ≤ x) (h2 : x < a + bs.length) : writeBytes m a bs x = bs.getD (x - a) 0 := by
  unfold writeBytes
  rw [if_pos ⟨h1, h2⟩]

theorem installedMem_frame (arch : Arch) (m : Nat → Nat) (A R T x : Nat)
    (hfit : T + 2 * arch.hookSize ≤ 2 ^ arch.ptrBits)
    (hT : x < T ∨ T + 2 * arch.hookSize ≤ x) (hA : x < A ∨ A + arch.hookSize ≤ x) :
    installedMem arch m A R T x = m x := by
  cases arch
  · simp only [Arch.hookSize, Arch.ptrBits] at hfit hT hA
    have e1 : (T + 16) % 2 ^ 64 = T + 16 := Nat.mod_eq_of_lt (by omega)
    have e2 : (T + 16 + 4) % 2 ^ 64 = T + 16 + 4 := Nat.mod_eq_of_lt (by omega)
    have e3 : (T + 16 + 8) % 2 ^ 64 = T + 16 + 8 := Nat.mod_eq_of_lt (by omega)
    simp only [installedMem, e1, e2, e3]
    rw [writeBytes_outside, writeBytes_outside, writeBytes_outside, writeBytes_outside,
      writeBytes_outside, writeBytes_outside, writeBytes_outside] <;>
      simp only [leBytes_length, readBytes_length] <;> omega
  · simp only [Arch.hookSize, Arch.ptrBits] at hfit hT hA
    simp only [installedMem]
    rw [writeBytes_outside, writeBytes_outside, writeBytes_outside, writeBytes_outside,
      writeBytes_outside] <;>
      simp only [leBytes_length, readBytes_length] <;> omega

theorem leBytes_mod (n v : Nat) : leBytes n (v % 256 ^ n) = leBytes n v := by
  unfold leBytes
  apply List.map_congr_left
  intro i hi
  have hi' : i < n := List.mem_range.mp hi
  have hsplit : 256 ^ n = 256 ^ i * 256 ^ (n - i) := by
    rw [← pow_add]; congr 1; omega
  have hdvd : 256 ∣ 256 ^ (n - i) := dvd_pow_self 256 (by omega)
  rw [hsplit, Nat.mod_mul_right_div_self, Nat.mod_mod_of_dvd _ hdvd]

theorem installedMem_trampoline (arch : Arch) (m : Nat → Nat) (A R T : Nat)
    (hfit : T + 2 * arch.hookSize ≤ 2 ^ arch.ptrBits)
    (hsep : T + 2 * arch.hookSize ≤ A ∨ A + arch.hookSize ≤ T) :
    readBytes (installedMem arch m A R T) T arch.hookSize = readBytes m A arch.hookSize ∧
    readBytes (installedMem arch m A R T) (T + arch.hookSize) arch.hookSize
      = absJump arch (A + arch.hookSize) := by
  cases arch
  · simp only [Arch.hookSize, Arch.ptrBits] at hfit hsep ⊢
    have e1 : (T + 16) % 2 ^ 64 = T + 16 := Nat.mod_eq_of_lt (by omega)
    have e2 : (T + 16 + 4) % 2 ^ 64 = T + 16 + 4 := Nat.mod_eq_of_lt (by omega)
    have e3 : (T + 16 + 8) % 2 ^ 64 = T + 16 + 8 := Nat.mod_eq_of_lt (by omega)
    have e4 : leBytes 8 ((A + 16) % 2 ^ 64) = leBytes 8 (A + 16) := leBytes_mod 8 (A + 16)
    constructor
    · apply readBytes_eq_of_pointwise _ _ _ _ (readBytes_length _ _ _)
      intro i hi
      simp only [installedMem, e1, e2, e3]
      rw [writeBytes_outside, writeBytes_outside, writeBytes_outside, writeBytes_outside,
        writeBytes_outside, writeBytes_outside, writeBytes_inside]
      · congr 1; omega
      all_goals (try simp only [leBytes_length, readBytes_length])
      all_goals omega
    · apply readBytes_eq_of_pointwise
      · simp [absJump, leBytes]
      · intro i hi
        simp only [installedMem, e1, e2, e3, e4]
        rw [writeBytes_outside, writeBytes_outside, writeBytes_outside]
        · interval_cases i <;>
            simp [writeBytes, absJump, leBytes, List.range_succ]
        all_goals (try simp only [leBytes_length, readBytes_length])
        all_goals omega
  · simp only [Arch.hookSize, Arch.ptrBits] at hfit hsep ⊢
    have e4 : leBytes 4 ((A + 8) % 2 ^ 32) = leBytes 4 (A + 8) := leBytes_mod 4 (A + 8)
    constructor
    · apply readBytes_eq_of_pointwise _ _ _ _ (readBytes_length _ _ _)
      intro i hi
      simp only [installedMem]
      rw [writeBytes_outside, writeBytes_outside, writeBytes_outside, writeBytes_outside,
        writeBytes_inside]
      · congr 1; omega
      all_goals (try simp only [leBytes_length, readBytes_length])
      all_goals omega
    · apply readBytes_eq_of_pointwise
      · simp [absJump, leBytes]
      · intro i hi
        simp only [installedMem, e4]
        rw [writeBytes_outside, writeBytes_outside]
        · interval_cases i <;>
            simp [writeBytes, absJump, leBytes, List.range_succ]
        all_goals (try simp only [leBytes_length, readBytes_length])
        all_goals omega

/-! ## Inline hook installer lemmas -/

theorem makeMemoryWritable_mem (arch : Arch) (os : OS) (w : World) (a n : Nat) :
    (InlineHook.makeMemoryWritable arch os w a n).1.mem = w.mem := by
  simp only [InlineHook.makeMemoryWritable, World.mprotect]
  split <;> rfl

theorem makeMemoryWritable_tick (arch : Arch) (os : OS) (w : World) (a n : Nat) :
    (InlineHook.makeMemoryWritable arch os w a n).1.tick = w.tick + 1 := by
  simp only [InlineHook.makeMemoryWritable, World.mprotect]
  split <;> rfl

theorem makeMemoryWritable_ok (arch : Arch) (os : OS) (w : World) (a n : Nat) :
    (InlineHook.makeMemoryWritable arch os w a n).2 =
      os.mprotect w.tick (pageAddrOf arch os a) (pageSizeOf arch os a n)
        (PROT_READ ||| PROT_WRITE ||| PROT_EXEC) := by
  simp only [InlineHook.makeMemoryWritable, World.mprotect]
  split <;> simp_all

theorem makeMemoryExecutable_mem (arch : Arch) (os : OS) (w : World) (a n : Nat) :
    (InlineHook.makeMemoryExecutable arch os w a n).1.mem = w.mem := by
  simp only [InlineHook.makeMemoryExecutable, World.mprotect]
  split <;> rfl

theorem makeMemoryExecutable_tick (arch : Arch) (os : OS) (w : World) (a n : Nat) :
    (InlineHook.makeMemoryExecutable arch os w a n).1.tick = w.tick + 1 := by
  simp only [InlineHook.makeMemoryExecutable, World.mprotect]
  split <;> rfl

theorem installArm64Hook_success (os : OS) (w : World) (s : InlineHook) (A R : Nat)
    (slot : Option Nat) (h : (InlineHook.installArm64Hook os w s A R slot).ok = true) :
    ∃ T, T ≠ 0 ∧ os.mmap (w.tick + 1) = some T ∧
      os.mprotect w.tick (pageAddrOf .aarch64 os A) (pageSizeOf .aarch64 os A 16)
        (PROT_READ ||| PROT_WRITE ||| PROT_EXEC) = true ∧
      (InlineHook.installArm64Hook os w s A R slot).backup = slot.map (fun _ => T) ∧
      (InlineHook.installArm64Hook os w s A R slot).hook =
        { hooks := StdMap.set s.hooks A (installedEntry .aarch64 w.mem A R T),
          trampolines := s.trampolines ++ [T] } ∧
      (InlineHook.installArm64Hook os w s A R slot).world.mem = installedMem .aarch64 w.mem A R T ∧
      (InlineHook.installArm64Hook os w s A R slot).world.tick = w.tick + 3 := by
  simp only [InlineHook.installArm64Hook] at h ⊢
  split at h
  · simp at h
  · rename_i h1
    have hp := h1
    rw [makeMemoryWritable_ok] at hp
    simp only [InlineHook.allocateTrampoline, World.mmap, makeMemoryWritable_tick] at h ⊢
    cases hm : os.mmap (w.tick + 1) with
    | none => simp [hm] at h
    | some T =>
      simp only [hm] at h ⊢
      split at h
      · simp at h
      · rename_i h2
        refine ⟨T, h2, rfl, by simpa using hp, ?_, ?_, ?_, ?_⟩
        · simp [h1, h2, InlineHook.writeArm64Jump]
        · simp [h1, h2, InlineHook.writeArm64Jump, installedEntry, HookEntry.saveBytes,
            HookEntry.zero, makeMemoryWritable_mem, Arch.hookSize]
        · simp [h1, h2, InlineHook.writeArm64Jump, installedMem, makeMemoryExecutable_mem,
            World.write32, World.write64, World.memcpy, InlineHook.flushInstructionCache,
            makeMemoryWritable_mem]
        · simp [h1, h2, InlineHook.writeArm64Jump, makeMemoryExecutable_tick,
            World.write32, World.write64, World.memcpy, InlineHook.flushInstructionCache,
            makeMemoryWritable_tick]

theorem installArm32Hook_success (os : OS) (w : World) (s : InlineHook) (A R : Nat)
    (slot : Option Nat) (h : (InlineHook.installArm32Hook os w s A R slot).ok = true) :
    ∃ T, T ≠ 0 ∧ os.mmap (w.tick + 1) = some T ∧
      os.mprotect w.tick (pageAddrOf .aarch32 os A) (pageSizeOf .aarch32 os A 8)
        (PROT_READ ||| PROT_WRITE ||| PROT_EXEC) = true ∧
      (InlineHook.installArm32Hook os w s A R slot).backup = slot.map (fun _ => T) ∧
      (InlineHook.installArm32Hook os w s A R slot).hook =
        { hooks := StdMap.set s.hooks A (installedEntry .aarch32 w.mem A R T),
          trampolines := s.trampolines ++ [T] } ∧
      (InlineHook.installArm32Hook os w s A R slot).world.mem = installedMem .aarch32 w.mem A R T ∧
      (InlineHook.installArm32Hook os w s A R slot).world.tick = w.tick + 3 := by
  simp only [InlineHook.installArm32Hook] at h ⊢
  split at h
  · simp at h
  · rename_i h1
    have hp := h1
    rw [makeMemoryWritable_ok] at hp
    simp only [InlineHook.allocateTrampoline, World.mmap, makeMemoryWritable_tick] at h ⊢
    cases hm : os.mmap (w.tick + 1) with
    | none => simp [hm] at h
    | some T =>
      simp only [hm] at h ⊢
      split at h
      · simp at h
      · rename_i h2
        refine ⟨T, h2, rfl, by simpa using hp, ?_, ?_, ?_, ?_⟩
        · simp [h1, h2, InlineHook.writeArm32Jump]
        · simp [h1, h2, InlineHook.writeArm32Jump, installedEntry, HookEntry.saveBytes,
            HookEntry.zero, makeMemoryWritable_mem, Arch.hookSize]
        · simp [h1, h2, InlineHook.writeArm32Jump, installedMem, makeMemoryExecutable_mem,
            World.write32, World.memcpy, InlineHook.flushInstructionCache,
            makeMemoryWritable_mem]
        · simp [h1, h2, InlineHook.writeArm32Jump, makeMemoryExecutable_tick,
            World.write32, World.memcpy, InlineHook.flushInstructionCache,
            makeMemoryWritable_tick]

/-- What a successful `installHook` has established. -/
theorem installHook_success (arch : Arch) (os : OS) (w : World) (s : InlineHook) (A R : Nat)
    (slot : Option Nat) (h : (InlineHook.installHook arch os w s A R slot).ok = true) :
    A ≠ 0 ∧ R ≠ 0 ∧ s.isHookInstalled A = false ∧ InlineHook.isValidAddress A = true ∧
    ∃ T, T ≠ 0 ∧ os.mmap (w.tick + 1) = some T ∧
      os.mprotect w.tick (pageAddrOf arch os A) (pageSizeOf arch os A arch.hookSize)
        (PROT_READ ||| PROT_WRITE ||| PROT_EXEC) = true ∧
      (InlineHook.installHook arch os w s A R slot).backup = slot.map (fun _ => T) ∧
      (InlineHook.installHook arch os w s A R slot).hook =
        { hooks := StdMap.set s.hooks A (installedEntry arch w.mem A R T),
          trampolines := s.trampolines ++ [T] } ∧
      (InlineHook.installHook arch os w s A R slot).world.mem = installedMem arch w.mem A R T ∧
      (InlineHook.installHook arch os w s A R slot).world.tick = w.tick + 3 := by
  have h0 : ¬ (A = 0 ∨ R = 0) := by
    intro h0
    simp [InlineHook.installHook, h0] at h
  have hI : s.isHookInstalled A = false := by
    cases hI : s.isHookInstalled A with
    | false => rfl
    | true => simp [InlineHook.installHook, h0, hI] at h
  have hV : InlineHook.isValidAddress A = true := by
    cases hV : InlineHook.isValidAddress A with
    | true => rfl
    | false => simp [InlineHook.installHook, h0, hI, hV] at h
  refine ⟨fun e => h0 (Or.inl e), fun e => h0 (Or.inr e), hI, hV, ?_⟩
  cases arch with
  | aarch64 =>
      have heq : InlineHook.installHook .aarch64 os w s A R slot
          = InlineHook.installArm64Hook os w s A R slot := by
        simp [InlineHook.installHook, h0, hI, hV]
      rw [heq] at h ⊢
      exact installArm64Hook_success os w s A R slot h
  | aarch32 =>
      have heq : InlineHook.installHook .aarch32 os w s A R slot
          = InlineHook.installArm32Hook os w s A R slot := by
        simp [InlineHook.installHook, h0, hI, hV]
      rw [heq] at h ⊢
      exact installArm32Hook_success os w s A R slot h

/-- An install whose guards pass and whose system requests are granted succeeds. -/
theorem installHook_ok_of (arch : Arch) (os : OS) (w : World) (s : InlineHook) (A R T : Nat)
    (slot : Option Nat) (hA : A ≠ 0) (hR : R ≠ 0) (hI : s.isHookInstalled A = false)
    (hV : InlineHook.isValidAddress A = true)
    (hP : os.mprotect w.tick (pageAddrOf arch os A) (pageSizeOf arch os A arch.hookSize)
        (PROT_READ ||| PROT_WRITE ||| PROT_EXEC) = true)
    (hM : os.mmap (w.tick + 1) = some T) (hT : T ≠ 0) :
    (InlineHook.installHook arch os w s A R slot).ok = true := by
  unfold InlineHook.installHook
  rw [if_neg (by simp [hA, hR])]
  simp only [hI, hV]
  cases arch with
  | aarch64 =>
      simp [InlineHook.installArm64Hook, makeMemoryWritable_ok, Arch.hookSize] at hP ⊢
      simp [hP, InlineHook.allocateTrampoline, World.mmap, makeMemoryWritable_tick, hM, hT,
        InlineHook.writeArm64Jump]
  | aarch32 =>
      simp [InlineHook.installArm32Hook, makeMemoryWritable_ok, Arch.hookSize] at hP ⊢
      simp [hP, InlineHook.allocateTrampoline, World.mmap, makeMemoryWritable_tick, hM, hT,
        InlineHook.writeArm32Jump]

theorem StdMap.findEntry_set_self {κ ν : Type} [DecidableEq κ] [KeyLess κ] (m : StdMap κ ν)
    (k : κ) (v : ν) : StdMap.findEntry (StdMap.set m k v) k = some (k, v) := by
  induction m with
  | nil => simp [StdMap.set, StdMap.findEntry]
  | cons p rest ih =>
      obtain ⟨k', v'⟩ := p
      simp only [StdMap.set]
      split
      · simp [StdMap.findEntry]
      · rename_i hne
        split
        · simp [StdMap.findEntry]
        · simp only [StdMap.findEntry]
          rw [if_neg (fun e => hne e.symm)]
          exact ih

theorem StdMap.findEntry_set_other {κ ν : Type} [DecidableEq κ] [KeyLess κ] (m : StdMap κ ν)
    (k k' : κ) (v : ν) (h : k' ≠ k) :
    StdMap.findEntry (StdMap.set m k v) k' = StdMap.findEntry m k' := by
  induction m with
  | nil => simp [StdMap.set, StdMap.findEntry, h.symm]
  | cons p rest ih =>
      obtain ⟨k₁, v₁⟩ := p
      simp only [StdMap.set]
      split
      · rename_i hk
        subst hk
        simp [StdMap.findEntry, h.symm]
      · split
        · simp [StdMap.findEntry, h.symm]
        · simp only [StdMap.findEntry]
          rw [ih]

theorem StdMap.findEntry_erase_self {κ ν : Type} [DecidableEq κ] (m : StdMap κ ν) (k : κ) :
    StdMap.findEntry (StdMap.erase m k) k = none := by
  induction m with
  | nil => simp [StdMap.erase, StdMap.findEntry]
  | cons p rest ih =>
      obtain ⟨k₁, v₁⟩ := p
      by_cases hk : k₁ = k
      · simpa [StdMap.erase, hk] using ih
      · simp only [StdMap.erase, List.filter, hk]
        simpa [StdMap.findEntry, hk, StdMap.erase] using ih

theorem StdMap.findEntry_erase_other {κ ν : Type} [DecidableEq κ] (m : StdMap κ ν) (k k' : κ)
    (h : k' ≠ k) : StdMap.findEntry (StdMap.erase m k) k' = StdMap.findEntry m k' := by
  induction m with
  | nil => simp [StdMap.erase, StdMap.findEntry]
  | cons p rest ih =>
      obtain ⟨k₁, v₁⟩ := p
      by_cases hk : k₁ = k
      · subst hk
        have : ¬ k₁ = k' := fun e => h e.symm
        simpa [StdMap.erase, StdMap.findEntry, this] using ih
      · by_cases hk' : k₁ = k'
        · subst hk'
          simp [StdMap.erase, List.filter_cons, hk, StdMap.findEntry]
        · simpa [StdMap.erase, List.filter_cons, hk, StdMap.findEntry, hk'] using ih

/-- What a successful `uninstallHook` has done. -/
theorem uninstallHook_success (arch : Arch) (os : OS) (w : World) (s : InlineHook) (A B : Nat)
    (h : (InlineHook.uninstallHook arch os w s A B).ok = true) :
    ∃ e, StdMap.findEntry s.hooks A = some (A, e) ∧ e.active = true ∧
      (InlineHook.uninstallHook arch os w s A B).world.mem
        = writeBytes w.mem A (e.originalBytes.take e.originalSize) ∧
      (InlineHook.uninstallHook arch os w s A B).hook
        = { s with hooks := StdMap.erase s.hooks A } := by
  cases hF : StdMap.findEntry s.hooks A with
  | none => simp [InlineHook.uninstallHook, hF] at h
  | some it =>
      have hkey := StdMap.findEntry_key _ _ _ hF
      obtain ⟨k, e⟩ := it
      simp only at hkey
      subst hkey
      have hact : e.active = true := by
        cases hact : e.active with
        | true => rfl
        | false => simp [InlineHook.uninstallHook, hF, hact] at h
      have hw : (InlineHook.makeMemoryWritable arch os w k e.originalSize).2 = true := by
        cases hw : (InlineHook.makeMemoryWritable arch os w k e.originalSize).2 with
        | true => rfl
        | false => simp [InlineHook.uninstallHook, hF, hact, hw] at h
      refine ⟨e, rfl, hact, ?_, ?_⟩
      · simp [InlineHook.uninstallHook, hF, hact, hw, makeMemoryExecutable_mem,
          InlineHook.flushInstructionCache, makeMemoryWritable_mem]
      · simp [InlineHook.uninstallHook, hF, hact, hw]

/-- An uninstall of an active entry whose protection request is granted succeeds. -/
theorem uninstallHook_ok_of (arch : Arch) (os : OS) (w : World) (s : InlineHook) (A B : Nat)
    (e : HookEntry) (hF : StdMap.findEntry s.hooks A = some (A, e)) (hact : e.active = true)
    (hP : os.mprotect w.tick (pageAddrOf arch os A) (pageSizeOf arch os A e.originalSize)
        (PROT_READ ||| PROT_WRITE ||| PROT_EXEC) = true) :
    (InlineHook.uninstallHook arch os w s A B).ok = true := by
  unfold InlineHook.uninstallHook
  simp [hF, hact, makeMemoryWritable_ok, hP]


/-! ## Inline hook installer (C1 to C4) -/

theorem readBytes_writeBytes_same (m : Nat → Nat) (a n : Nat) (bs : List Nat)
    (h : bs.length = n) : readBytes (writeBytes m a bs) a n = bs := by
  apply readBytes_eq_of_pointwise _ _ _ _ h
  intro i hi
  rw [writeBytes_inside _ _ _ _ (by omega) (by omega)]
  congr 1
  omega

theorem installedEntry_take (arch : Arch) (mem : Nat → Nat) (A R T : Nat) :
    (installedEntry arch mem A R T).originalBytes.take (installedEntry arch mem A R T).originalSize
      = readBytes mem A arch.hookSize := by
  simp only [installedEntry]
  rw [List.take_left' (readBytes_length _ _ _)]

theorem fromLE_leBytes (n v : Nat) : fromLE (leBytes n v) = v % 256 ^ n := by
  induction n generalizing v with
  | zero => simp [leBytes, fromLE, Nat.mod_one]
  | succ n ih =>
      have hstep : leBytes (n + 1) v = v % 256 :: leBytes n (v / 256) := by
        simp only [leBytes, List.range_succ_eq_map, List.map_cons, List.map_map, pow_zero,
          Nat.div_one]
        congr 1
        apply List.map_congr_left
        intro i _
        simp only [Function.comp, Nat.succ_eq_add_one, pow_succ']
        rw [Nat.div_div_eq_div_mul]
      rw [hstep, fromLE, ih, pow_succ', Nat.mod_mul]

/-- C1: if `installHook(A, R, &T)` succeeds and a later `uninstallHook(A, T)` on the entry it
recorded succeeds, the `L` bytes at `[A, A+L)` (`L = 16` on AArch64, `8` on AArch32) are the
bytes that were there just before the install.  The world and the rest of the installer state
in between are arbitrary, so this holds in particular when nothing else wrote to `[A, A+L)`. -/
theorem install_uninstall_roundtrip (arch : Arch) (os : OS) (w : World) (s : InlineHook)
    (A R : Nat) (slot : Option Nat) (w' : World) (s' : InlineHook) (B : Nat)
    (hi : (InlineHook.installHook arch os w s A R slot).ok = true)
    (hentry : StdMap.findEntry s'.hooks A
      = StdMap.findEntry (InlineHook.installHook arch os w s A R slot).hook.hooks A)
    (hu : (InlineHook.uninstallHook arch os w' s' A B).ok = true) :
    readBytes (InlineHook.uninstallHook arch os w' s' A B).world.mem A arch.hookSize
      = readBytes w.mem A arch.hookSize := by
  obtain ⟨-, -, -, -, T, -, -, -, -, hhook, -, -⟩ := installHook_success arch os w s A R slot hi
  obtain ⟨e, hF, -, hmem, -⟩ := uninstallHook_success arch os w' s' A B hu
  rw [hhook] at hentry
  simp only [StdMap.findEntry_set_self] at hentry
  rw [hF] at hentry
  have he : e = installedEntry arch w.mem A R T := by
    simpa using hentry
  rw [hmem, he, installedEntry_take]
  exact readBytes_writeBytes_same _ _ _ _ (readBytes_length _ _ _)

/-- Instance of C1: on AArch64, hooking `0x10000` in the sample process and unhooking it
at once gives back the sixteen original bytes. -/
theorem install_uninstall_roundtrip_witness :
    readBytes (InlineHook.uninstallHook .aarch64 sampleOS
        (InlineHook.installHook .aarch64 sampleOS sampleWorld InlineHook.ctor 0x10000 0x20000
          (some 0)).world
        (InlineHook.installHook .aarch64 sampleOS sampleWorld InlineHook.ctor 0x10000 0x20000
          (some 0)).hook 0x10000 0x7001000).world.mem 0x10000 16
      = readBytes sampleWorld.mem 0x10000 16 :=
  install_uninstall_roundtrip .aarch64 sampleOS sampleWorld InlineHook.ctor 0x10000 0x20000
    (some 0) _ _ 0x7001000 (by decide) rfl (by decide)

/-- C2: after a successful `installHook(A, R, &T)`, the address written to the backup slot is
the trampoline recorded in the hook entry for `A`, whose saved prologue is the pre-hook content
of `[A, A+L)`; the first `L` bytes at `T` equal those pre-hook bytes and the next `L` bytes at
`T` are the absolute-jump sequence with literal `A+L` (as a pointer-width value; on AArch64 it
is `A+L` without truncation).  The trampoline region `[T, T+2L)` is the one the system's `mmap`
returned: it lies in the address space and does not overlap `[A, A+L)`. -/
theorem install_trampoline_layout (arch : Arch) (os : OS) (w : World) (s : InlineHook)
    (A R slot T : Nat)
    (hi : (InlineHook.installHook arch os w s A R (some slot)).ok = true)
    (hT : (InlineHook.installHook arch os w s A R (some slot)).backup = some T)
    (hfit : T + 2 * arch.hookSize ≤ 2 ^ arch.ptrBits)
    (hsep : T + 2 * arch.hookSize ≤ A ∨ A + arch.hookSize ≤ T) :
    (∃ e, StdMap.find (InlineHook.installHook arch os w s A R (some slot)).hook.hooks A = some e ∧
      e.backupFunction = T ∧ e.active = true ∧ e.originalFunction = A ∧
      e.replacementFunction = R ∧ e.originalSize = arch.hookSize ∧
      e.originalBytes.take arch.hookSize = readBytes w.mem A arch.hookSize) ∧
    readBytes (InlineHook.installHook arch os w s A R (some slot)).world.mem T arch.hookSize
      = readBytes w.mem A arch.hookSize ∧
    readBytes (InlineHook.installHook arch os w s A R (some slot)).world.mem
        (T + arch.hookSize) arch.hookSize = absJump arch (A + arch.hookSize) ∧
    fromLE (leBytes (arch.ptrBits / 8) (A + arch.hookSize))
      = (A + arch.hookSize) % 2 ^ arch.ptrBits ∧
    (arch = Arch.aarch64 → (A + arch.hookSize) % 2 ^ arch.ptrBits = A + arch.hookSize) := by
  obtain ⟨-, -, -, hV, T', -, -, -, hb, hhook, hmem, -⟩ :=
    installHook_success arch os w s A R (some slot) hi
  rw [hb] at hT
  simp only [Option.map_some', Option.some.injEq] at hT
  subst hT
  rw [hhook, hmem]
  refine ⟨⟨installedEntry arch w.mem A R T', ?_, rfl, rfl, rfl, rfl, rfl, ?_⟩, ?_, ?_, ?_, ?_⟩
  · simp [StdMap.find, StdMap.findEntry_set_self]
  · exact installedEntry_take arch w.mem A R T'
  · exact (installedMem_trampoline arch w.mem A R T' hfit hsep).1
  · exact (installedMem_trampoline arch w.mem A R T' hfit hsep).2
  · rw [fromLE_leBytes]
    cases arch <;> simp [Arch.ptrBits]
  · intro ha
    subst ha
    simp only [InlineHook.isValidAddress, decide_eq_true_eq] at hV
    simp only [Arch.hookSize, Arch.ptrBits]
    exact Nat.mod_eq_of_lt (by omega)

/-- Instance of C2 on AArch64 in the sample process (target `0x10000`, trampoline
`0x7001000`). -/
theorem install_trampoline_layout_witness :
    readBytes (InlineHook.installHook .aarch64 sampleOS sampleWorld InlineHook.ctor 0x10000
        0x20000 (some 0)).world.mem 0x7001000 16 = readBytes sampleWorld.mem 0x10000 16 ∧
    readBytes (InlineHook.installHook .aarch64 sampleOS sampleWorld InlineHook.ctor 0x10000
        0x20000 (some 0)).world.mem (0x7001000 + 16) 16 = absJump .aarch64 (0x10000 + 16) :=
  ⟨(install_trampoline_layout .aarch64 sampleOS sampleWorld InlineHook.ctor 0x10000 0x20000 0
      0x7001000 (by decide) (by decide) (by decide) (by decide)).2.1,
   (install_trampoline_layout .aarch64 sampleOS sampleWorld InlineHook.ctor 0x10000 0x20000 0
      0x7001000 (by decide) (by decide) (by decide) (by decide)).2.2.1⟩

/-- C3: after a successful `installHook(A, R, _)` the first `L` bytes at `A` are exactly the
absolute jump to `R`: on AArch64 the little-endian words `0x58000050` and `0xD61F0200` followed
by the 64-bit value `R`; on AArch32 the word `0xe51ff004` followed by the 32-bit value `R`. -/
theorem install_writes_jump (arch : Arch) (os : OS) (w : World) (s : InlineHook) (A R : Nat)
    (slot : Option Nat) (hi : (InlineHook.installHook arch os w s A R slot).ok = true) :
    readBytes (InlineHook.installHook arch os w s A R slot).world.mem A arch.hookSize
      = absJump arch R ∧
    absJump Arch.aarch64 R
      = [0x50, 0x00, 0x00, 0x58, 0x00, 0x02, 0x1F, 0xD6] ++ leBytes 8 R ∧
    absJump Arch.aarch32 R = [0x04, 0xf0, 0x1f, 0xe5] ++ leBytes 4 R := by
  obtain ⟨-, -, -, -, T, -, -, -, -, -, hmem, -⟩ := installHook_success arch os w s A R slot hi
  rw [hmem]
  refine ⟨installedMem_target arch w.mem A R T, ?_, ?_⟩
  · simp [absJump, leBytes, List.range_succ]
  · simp [absJump, leBytes, List.range_succ]

/-- Instance of C3 on AArch32 in the sample process. -/
theorem install_writes_jump_witness :
    readBytes (InlineHook.installHook .aarch32 sampleOS sampleWorld InlineHook.ctor 0x10000
        0x20000 none).world.mem 0x10000 8 = absJump .aarch32 0x20000 :=
  (install_writes_jump .aarch32 sampleOS sampleWorld InlineHook.ctor 0x10000 0x20000 none
    (by decide)).1


/-- C4: for every target `A` that currently has an active hook, `installHook(A, R2, _)` returns
failure and changes nothing: world (so the bytes at `A`, which still are what the first install
wrote), hook table, trampoline list and backup slot are as before.  Once `uninstallHook(A)` has
succeeded, `A` is no longer reported as hooked, and a new install on `A` (a non-null, valid
target, with a non-null replacement) goes through whenever the system grants its protection
change and its trampoline page. -/
theorem install_rejects_duplicate (arch : Arch) (os : OS) (w : World) (s : InlineHook)
    (A R2 : Nat) (slot : Option Nat) (h : s.isHookInstalled A = true) :
    InlineHook.installHook arch os w s A R2 slot
      = { world := w, hook := s, ok := false, backup := slot } ∧
    (∀ w₁ B, (InlineHook.uninstallHook arch os w₁ s A B).ok = true →
      (InlineHook.uninstallHook arch os w₁ s A B).hook.isHookInstalled A = false ∧
      ∀ (w₂ : World) (R T : Nat) (slot₂ : Option Nat), A ≠ 0 → R ≠ 0 →
        InlineHook.isValidAddress A = true →
        os.mprotect w₂.tick (pageAddrOf arch os A) (pageSizeOf arch os A arch.hookSize)
          (PROT_READ ||| PROT_WRITE ||| PROT_EXEC) = true →
        os.mmap (w₂.tick + 1) = some T → T ≠ 0 →
        (InlineHook.installHook arch os w₂ (InlineHook.uninstallHook arch os w₁ s A B).hook
          A R slot₂).ok = true) := by
  constructor
  · unfold InlineHook.installHook
    by_cases h0 : A = 0 ∨ R2 = 0
    · rw [if_pos h0]
    · rw [if_neg h0]
      simp [h]
  · intro w₁ B hu
    obtain ⟨e, -, -, -, hhook⟩ := uninstallHook_success arch os w₁ s A B hu
    have hno : (InlineHook.uninstallHook arch os w₁ s A B).hook.isHookInstalled A = false := by
      rw [hhook]
      simp [InlineHook.isHookInstalled, StdMap.findEntry_erase_self]
    refine ⟨hno, ?_⟩
    intro w₂ R T slot₂ hA hR hV hP hM hT
    exact installHook_ok_of arch os w₂ _ A R T slot₂ hA hR hno hV hP hM hT

/-- Instance of C4 in the sample process: a second install over the hooked `0x10000` fails
and leaves world, installer and slot as they were. -/
theorem install_rejects_duplicate_witness :
    InlineHook.installHook .aarch64 sampleOS sampleWorld
      (InlineHook.installHook .aarch64 sampleOS sampleWorld InlineHook.ctor 0x10000 0x20000
        none).hook 0x10000 0x30000 none
      = { world := sampleWorld,
          hook := (InlineHook.installHook .aarch64 sampleOS sampleWorld InlineHook.ctor 0x10000
            0x20000 none).hook,
          ok := false, backup := none } :=
  (install_rejects_duplicate .aarch64 sampleOS sampleWorld _ 0x10000 0x30000 none
    (by decide)).1

/-! ## The write replacement (C5) -/

/-- C5 as stated fails: the sixteen-byte buffer `sampleBlockedBuffer` parses as a transaction
to "isms", which the default policy rejects, yet `hooked_write` with a captured original
forwards it: the original is invoked and its result 16, not -1, is returned. -/
theorem hooked_write_forwards_blocked_service :
    (BinderHook.parseBinderTransaction (some sampleBlockedBuffer) 16
      { code := 0, flags := 0, target := "", data := [], reply := [] }).1 = true ∧
    (BinderHook.parseBinderTransaction (some sampleBlockedBuffer) 16
      { code := 0, flags := 0, target := "", data := [], reply := [] }).2.target = "isms" ∧
    (BinderHook.ctor.processTransaction
      (BinderHook.parseBinderTransaction (some sampleBlockedBuffer) 16
        { code := 0, flags := 0, target := "", data := [], reply := [] }).2).admitted = false ∧
    (BinderHook.hooked_write sampleExec sampleStatics 3 (some sampleBlockedBuffer) 16).ret = 16 ∧
    (BinderHook.hooked_write sampleExec sampleStatics 3 (some sampleBlockedBuffer) 16).calls
      = [{ callee := 0x7001000, fd := 3, buf := some sampleBlockedBuffer, count := 16 }] := by
  decide

/-- C5, amended: `hooked_write` does not consult the policy.  For every buffer, whatever it
parses to, a captured original write is invoked exactly once, with the arguments unchanged,
and its result is returned; without a captured original nothing is invoked and -1 is
returned. -/
theorem hooked_write_passes_through (exec : Nat → Int → Option (List Nat) → Nat → Int)
    (statics : BinderStatics) (fd : Int) (buf : Option (List Nat)) (count : Nat) :
    (statics.original_write ≠ 0 →
      (BinderHook.hooked_write exec statics fd buf count).ret
        = exec statics.original_write fd buf count ∧
      (BinderHook.hooked_write exec statics fd buf count).calls
        = [{ callee := statics.original_write, fd := fd, buf := buf, count := count }]) ∧
    (statics.original_write = 0 →
      (BinderHook.hooked_write exec statics fd buf count).ret = -1 ∧
      (BinderHook.hooked_write exec statics fd buf count).calls = []) := by
  constructor
  · intro h
    simp [BinderHook.hooked_write, h]
  · intro h
    simp [BinderHook.hooked_write, h]

/-- Instance of the amended C5: an allowed service ("activity") is forwarded once as well. -/
theorem hooked_write_passes_through_witness :
    (BinderHook.hooked_write sampleExec sampleStatics 3 (some sampleAllowedBuffer) 20).ret = 20 ∧
    (BinderHook.hooked_write sampleExec sampleStatics 3 (some sampleAllowedBuffer) 20).calls
      = [{ callee := 0x7001000, fd := 3, buf := some sampleAllowedBuffer, count := 20 }] :=
  (hooked_write_passes_through sampleExec sampleStatics 3 (some sampleAllowedBuffer) 20).1
    (by decide)

/-! ## Policy store (C6 to C9) -/

theorem processTransaction_blocked (self : BinderHook) (t : BinderTransaction)
    (hA : self.allowService t.target = false) :
    self.processTransaction t = { admitted := false, transaction := t, invoked := [] } := by
  simp [BinderHook.processTransaction, hA]

theorem processTransaction_unfiltered (self : BinderHook) (t : BinderTransaction)
    (hA : self.allowService t.target = true)
    (hF : StdMap.findEntry self.transactionFilters t.target = none) :
    self.processTransaction t = { admitted := true, transaction := t, invoked := [] } := by
  simp [BinderHook.processTransaction, hA, hF]

theorem processTransaction_filtered (self : BinderHook) (t : BinderTransaction)
    (it : String × BinderFilter) (hA : self.allowService t.target = true)
    (hF : StdMap.findEntry self.transactionFilters t.target = some it) :
    self.processTransaction t =
      { admitted := (it.2 t).1, transaction := (it.2 t).2, invoked := [it.1] } := by
  unfold BinderHook.processTransaction
  rw [hA, hF]
  cases hR : (it.2 t).1 <;> simp [hR]

/-- C6: `processTransaction` admits a transaction exactly when the service is allowed and
either no predicate is registered under the target or that predicate accepts the transaction;
at most one predicate is invoked, and an invoked predicate is registered under exactly the
target of an allowed service.  With a predicate for "foo" that accepts only opcode 7 on a fresh
interceptor, a transaction to "foo" is admitted exactly when its opcode is 7 (so 7 is admitted
and 8 is rejected). -/
theorem processTransaction_admits_iff (self : BinderHook) (t : BinderTransaction) :
    ((self.processTransaction t).admitted = true ↔
      (self.allowService t.target = true ∧
        (StdMap.find self.transactionFilters t.target = none ∨
          ∃ f, StdMap.find self.transactionFilters t.target = some f ∧ (f t).1 = true))) ∧
    (self.processTransaction t).invoked.length ≤ 1 ∧
    (∀ k ∈ (self.processTransaction t).invoked,
      k = t.target ∧ (StdMap.find self.transactionFilters k).isSome = true ∧
        self.allowService t.target = true) ∧
    (∀ code flags data reply,
      ((BinderHook.ctor.addTransactionFilter "foo"
          (fun x => (decide (x.code = 7), x))).1.processTransaction
        { code := code, flags := flags, target := "foo", data := data, reply := reply }).admitted
        = decide (code = 7)) := by
  refine ⟨?_, ?_, ?_, ?_⟩
  · cases hA : self.allowService t.target with
    | false => simp [processTransaction_blocked self t hA]
    | true =>
        cases hF : StdMap.findEntry self.transactionFilters t.target with
        | none => simp [processTransaction_unfiltered self t hA hF, StdMap.find, hF]
        | some it => simp [processTransaction_filtered self t it hA hF, StdMap.find, hF]
  · cases hA : self.allowService t.target with
    | false => simp [processTransaction_blocked self t hA]
    | true =>
        cases hF : StdMap.findEntry self.transactionFilters t.target with
        | none => simp [processTransaction_unfiltered self t hA hF]
        | some it => simp [processTransaction_filtered self t it hA hF]
  · intro k hk
    cases hA : self.allowService t.target with
    | false => simp [processTransaction_blocked self t hA] at hk
    | true =>
        cases hF : StdMap.findEntry self.transactionFilters t.target with
        | none => simp [processTransaction_unfiltered self t hA hF] at hk
        | some it =>
            have hkey := StdMap.findEntry_key _ _ _ hF
            rw [processTransaction_filtered self t it hA hF] at hk
            have hk' : k = it.1 := by simpa using hk
            subst hk'
            refine ⟨hkey, ?_, rfl⟩
            rw [hkey]
            simp [StdMap.find, hF]
  · intro code flags data reply
    have hfoo : BinderHook.allowService
        (BinderHook.ctor.addTransactionFilter "foo" (fun x => (decide (x.code = 7), x))).1 "foo"
        = true := by decide
    have hfind : StdMap.findEntry
        (BinderHook.ctor.addTransactionFilter "foo"
          (fun x => (decide (x.code = 7), x))).1.transactionFilters
        "foo" = some ("foo", fun x => (decide (x.code = 7), x)) := rfl
    rw [processTransaction_filtered _ _ _ hfoo hfind]

/-- Instance of C6: with the opcode-7 predicate registered for "foo" on a fresh interceptor,
a transaction to "foo" with opcode 8 is rejected and one with opcode 7 is admitted. -/
theorem processTransaction_admits_iff_witness :
    ((BinderHook.ctor.addTransactionFilter "foo"
        (fun x => (decide (x.code = 7), x))).1.processTransaction
      { code := 8, flags := 0, target := "foo", data := [], reply := [] }).admitted
      = decide (8 = 7) ∧
    ((BinderHook.ctor.addTransactionFilter "foo"
        (fun x => (decide (x.code = 7), x))).1.processTransaction
      { code := 7, flags := 0, target := "foo", data := [], reply := [] }).admitted
      = decide (7 = 7) :=
  ⟨(processTransaction_admits_iff BinderHook.ctor
      { code := 0, flags := 0, target := "", data := [], reply := [] }).2.2.2 8 0 [] [],
   (processTransaction_admits_iff BinderHook.ctor
      { code := 0, flags := 0, target := "", data := [], reply := [] }).2.2.2 7 0 [] []⟩

/-- C7: `allowService` returns true for every name without an entry in the policy table, and
the stored allow bit for a name with an entry. -/
theorem allowService_absent_or_stored (self : BinderHook) (S : String) :
    (StdMap.find self.serviceFilters S = none → self.allowService S = true) ∧
    (∀ b, StdMap.find self.serviceFilters S = some b → self.allowService S = b) := by
  unfold BinderHook.allowService StdMap.find
  cases h : StdMap.findEntry self.serviceFilters S with
  | none => simp
  | some it => simp

/-- Instance of C7 on the default table: "foo" has no entry and is allowed, "isms" is stored
as blocked. -/
theorem allowService_absent_or_stored_witness :
    BinderHook.ctor.allowService "foo" = true ∧ BinderHook.ctor.allowService "isms" = false :=
  ⟨(allowService_absent_or_stored BinderHook.ctor "foo").1 (by decide),
   (allowService_absent_or_stored BinderHook.ctor "isms").2 false (by decide)⟩

/-- C8: a freshly constructed `BinderHook` has a policy table with exactly nine entries:
servicemanager, package, activity, window, input and power allowed, and telephony.registry,
isms and phone blocked. -/
theorem ctor_default_policy :
    BinderHook.ctor.serviceFilters.length = 9 ∧
    BinderHook.ctor.serviceFilters =
      [("activity", true), ("input", true), ("isms", false), ("package", true),
       ("phone", false), ("power", true), ("servicemanager", true),
       ("telephony.registry", false), ("window", true)] ∧
    StdMap.find BinderHook.ctor.serviceFilters "servicemanager" = some true ∧
    StdMap.find BinderHook.ctor.serviceFilters "package" = some true ∧
    StdMap.find BinderHook.ctor.serviceFilters "activity" = some true ∧
    StdMap.find BinderHook.ctor.serviceFilters "window" = some true ∧
    StdMap.find BinderHook.ctor.serviceFilters "input" = some true ∧
    StdMap.find BinderHook.ctor.serviceFilters "power" = some true ∧
    StdMap.find BinderHook.ctor.serviceFilters "telephony.registry" = some false ∧
    StdMap.find BinderHook.ctor.serviceFilters "isms" = some false ∧
    StdMap.find BinderHook.ctor.serviceFilters "phone" = some false := by
  decide

/-- C9: after any sequence of `setServiceFilter` and `removeServiceFilter` calls, from any
state of the interceptor, `clearServiceFilters` leaves the allow/block table equal to the table
of a freshly constructed interceptor, so every name is allowed or blocked as by default; the
other fields of the interceptor are untouched. -/
theorem clearServiceFilters_restores_seed (self : BinderHook) (calls : List FilterCall) :
    (self.applyCalls calls).clearServiceFilters.serviceFilters = BinderHook.ctor.serviceFilters ∧
    (∀ S, (self.applyCalls calls).clearServiceFilters.allowService S
        = BinderHook.ctor.allowService S) ∧
    (self.applyCalls calls).clearServiceFilters.hooksInstalled
        = (self.applyCalls calls).hooksInstalled ∧
    (self.applyCalls calls).clearServiceFilters.transactionFilters
        = (self.applyCalls calls).transactionFilters := by
  have h : (self.applyCalls calls).clearServiceFilters.serviceFilters
      = BinderHook.ctor.serviceFilters := rfl
  refine ⟨h, ?_, rfl, rfl⟩
  intro S
  unfold BinderHook.allowService
  rw [h]

/-! ## Hook manager teardown (C10) -/

theorem readBytes_congr (m m' : Nat → Nat) (a n : Nat)
    (h : ∀ i, i < n → m (a + i) = m' (a + i)) : readBytes m a n = readBytes m' a n := by
  apply readBytes_eq_of_pointwise _ _ _ _ (readBytes_length _ _ _)
  intro i hi
  rw [readBytes_getD _ _ _ _ hi, h i hi]

theorem hookSize_pos (arch : Arch) : 0 < arch.hookSize := by
  cases arch <;> simp [Arch.hookSize]

theorem findSymbol_mem (lk : Linker) (w : World) (e : ElfUtils) (lib sym : String)
    (r : World × ElfUtils × Nat) (h : ElfUtils.findSymbol lk w e lib sym = some r) :
    r.1.mem = w.mem := by
  unfold ElfUtils.findSymbol at h
  split at h
  · cases h; rfl
  · split at h
    · cases h
    · split at h
      · cases h; rfl
      · simp only [World.dlsym] at h
        split at h <;> (cases h; rfl)

theorem findSymbolInAll_loop_mem (lk : Linker) (sym : String) (names : List String) (w : World)
    (e : ElfUtils) (r : World × ElfUtils × Nat)
    (h : ElfUtils.findSymbolInAll.loop lk sym names w e = some r) : r.1.mem = w.mem := by
  induction names generalizing w e with
  | nil => simp [ElfUtils.findSymbolInAll.loop] at h; cases h; rfl
  | cons name rest ih =>
      simp only [ElfUtils.findSymbolInAll.loop] at h
      cases hf : ElfUtils.findSymbol lk w e name sym with
      | none => simp [hf] at h
      | some r1 =>
          have hm := findSymbol_mem lk w e name sym r1 hf
          simp only [hf] at h
          split at h
          · cases h; exact hm
          · rw [ih _ _ h, hm]

theorem findSymbolInAll_mem (lk : Linker) (w : World) (e : ElfUtils) (sym : String)
    (r : World × ElfUtils × Nat) (h : ElfUtils.findSymbolInAll lk w e sym = some r) :
    r.1.mem = w.mem := by
  unfold ElfUtils.findSymbolInAll at h
  cases hl : ElfUtils.findSymbolInAll.loop lk sym (e.loadedLibraries.map Prod.fst) w e with
  | none => simp [hl] at h
  | some r1 =>
      have hm := findSymbolInAll_loop_mem lk sym _ w e r1 hl
      simp only [hl] at h
      split at h
      · cases h; exact hm
      · simp only [World.dlsymDefault] at h
        split at h <;> (cases h; exact hm)

/-- What a successful `TeristaNative::installHook` has done. -/
theorem native_installHook_success (arch : Arch) (os : OS) (lk : Linker) (w : World)
    (n : TeristaNative) (sym : String) (R : Nat) (slot : Option Nat) (r : NativeInstallResult)
    (h : TeristaNative.installHook arch os lk w n sym R slot = some r) (hok : r.ok = true) :
    ∃ wf A T, wf.mem = w.mem ∧
      (InlineHook.installHook arch os wf n.inlineHook A R (some 0)).ok = true ∧
      (InlineHook.installHook arch os wf n.inlineHook A R (some 0)).backup = some T ∧
      r.world = (InlineHook.installHook arch os wf n.inlineHook A R (some 0)).world ∧
      r.native.inlineHook = (InlineHook.installHook arch os wf n.inlineHook A R (some 0)).hook ∧
      r.native.activeHooks = n.activeHooks ++
        [HookInfo.mk sym A R T true] := by
  unfold TeristaNative.installHook at h
  cases hinit : n.initialized with
  | false => simp [hinit] at h; subst h; simp at hok
  | true =>
      simp only [hinit] at h
      cases hf : ElfUtils.findSymbolInAll lk w n.elfUtils sym with
      | none => simp [hf] at h
      | some f =>
          have hm := findSymbolInAll_mem lk w n.elfUtils sym f hf
          simp only [hf] at h
          by_cases hA : f.2.2 = 0
          · simp [hA] at h; subst h; simp at hok
          · by_cases hi : (InlineHook.installHook arch os f.1 n.inlineHook f.2.2 R (some 0)).ok
                = true
            · obtain ⟨-, -, -, -, T, -, -, -, hb, -, -, -⟩ :=
                installHook_success arch os f.1 n.inlineHook f.2.2 R (some 0) hi
              refine ⟨f.1, f.2.2, T, hm, hi, by simpa using hb, ?_, ?_, ?_⟩
              · simp [hA, hi] at h; subst h; rfl
              · simp [hA, hi] at h; subst h; rfl
              · simp [hA, hi] at h; subst h; simp [hb]
            · simp [hA, hi] at h; subst h; simp at hok

theorem Separated.prefix (arch : Arch) (l₁ l₂ : List HookInfo)
    (h : Separated arch (l₁ ++ l₂)) : Separated arch l₁ := by
  obtain ⟨hp, ht⟩ := h
  refine ⟨(List.pairwise_append.mp hp).1, ?_⟩
  intro a ha
  obtain ⟨hfit, hsep⟩ := ht a (List.mem_append_left _ ha)
  exact ⟨hfit, fun b hb => hsep b (List.mem_append_left _ hb)⟩

/-- The active-hooks list after a sequence of successful installs extends the list before. -/
theorem installAll_extends (arch : Arch) (os : OS) (lk : Linker) (calls : List InstallCall)
    (w : World) (n : TeristaNative) (w1 : World) (n1 : TeristaNative)
    (h : TeristaNative.installAll arch os lk calls w n = some (w1, n1)) :
    ∃ rest, n1.activeHooks = n.activeHooks ++ rest ∧
      rest.map HookInfo.symbol = calls.map InstallCall.symbol := by
  induction calls generalizing w n with
  | nil =>
      simp only [TeristaNative.installAll, Option.some.injEq, Prod.mk.injEq] at h
      obtain ⟨-, rfl⟩ := h
      exact ⟨[], by simp, rfl⟩
  | cons c cs ih =>
      simp only [TeristaNative.installAll] at h
      cases hr : TeristaNative.installHook arch os lk w n c.symbol c.replacement c.backup with
      | none => simp [hr] at h
      | some r =>
          simp only [hr] at h
          cases hok : r.ok with
          | false => simp [hok] at h
          | true =>
              simp only [hok, if_true] at h
              obtain ⟨wf, A, T, -, -, -, -, -, hact⟩ :=
                native_installHook_success arch os lk w n c.symbol c.replacement c.backup r hr hok
              obtain ⟨rest, hrest, hsym⟩ := ih r.world r.native h
              refine ⟨HookInfo.mk c.symbol A c.replacement T true :: rest, ?_, ?_⟩
              · rw [hrest, hact, List.append_assoc]; rfl
              · simp [hsym]

/-- One successful install keeps `HooksConsistent`, provided the new list is separated. -/
theorem HooksConsistent.step (arch : Arch) (os : OS) (lk : Linker) (mem0 : Nat → Nat)
    (w : World) (n : TeristaNative) (sym : String) (R : Nat) (slot : Option Nat)
    (r : NativeInstallResult)
    (h : TeristaNative.installHook arch os lk w n sym R slot = some r) (hok : r.ok = true)
    (hsep : Separated arch r.native.activeHooks) (hinv : HooksConsistent arch mem0 w n) :
    HooksConsistent arch mem0 r.world r.native := by
  obtain ⟨wf, A, T, hwf, hi, hb, hworld, hhook, hact⟩ :=
    native_installHook_success arch os lk w n sym R slot r h hok
  obtain ⟨-, -, -, -, T', -, -, -, hb', hhooks, hmem, -⟩ :=
    installHook_success arch os wf n.inlineHook A R (some 0) hi
  rw [hb'] at hb
  simp only [Option.map_some', Option.some.injEq] at hb
  subst hb
  obtain ⟨hold, hframe⟩ := hinv
  rw [hact] at hsep
  obtain ⟨hpair, htramp⟩ := hsep
  have hL := hookSize_pos arch
  obtain ⟨-, -, hcross⟩ := List.pairwise_append.mp hpair
  -- facts about the new entry
  have hnew := htramp (HookInfo.mk sym A R T' true) (by simp)
  have hfit : T' + 2 * arch.hookSize ≤ 2 ^ arch.ptrBits := hnew.1
  -- the bytes at the new target are still those of `mem0`
  have hAmem : ∀ i, i < arch.hookSize → w.mem (A + i) = mem0 (A + i) := by
    intro i hi'
    apply hframe
    intro h' hh'
    constructor
    · have := hcross h' hh' _ (List.mem_singleton.mpr rfl)
      simp only at this
      omega
    · have := (htramp h' (List.mem_append_left _ hh')).2
        { symbol := sym, originalFunction := A, replacementFunction := R,
          backupFunction := T', active := true } (by simp)
      simp only at this
      omega
  constructor
  · intro h' hh'
    rw [hact] at hh'
    rw [hhook, hhooks]
    rcases List.mem_append.mp hh' with hin | hin
    · obtain ⟨ha, e, hF, he⟩ := hold h' hin
      refine ⟨ha, e, ?_, he⟩
      have hne : h'.originalFunction ≠ A := by
        have := hcross h' hin _ (List.mem_singleton.mpr rfl)
        simp only at this
        omega
      simp only
      rw [StdMap.findEntry_set_other _ _ _ _ hne]
      exact hF
    · rw [List.mem_singleton] at hin
      subst hin
      refine ⟨rfl, installedEntry arch wf.mem A R T', ?_, rfl, rfl, ?_⟩
      · simp only
        rw [StdMap.findEntry_set_self]
      · have := installedEntry_take arch wf.mem A R T'
        simp only [installedEntry] at this ⊢
        rw [this, hwf]
        exact readBytes_congr _ _ _ _ hAmem
  · intro x hx
    rw [hact] at hx
    rw [hworld, hmem]
    have hxnew := hx (HookInfo.mk sym A R T' true) (by simp)
    simp only at hxnew
    rw [installedMem_frame arch wf.mem A R T' x hfit hxnew.2 hxnew.1, hwf]
    exact hframe x (fun h' hh' => hx h' (List.mem_append_left _ hh'))

/-- A sequence of successful installs keeps `HooksConsistent`, provided the final list is
separated. -/
theorem HooksConsistent.installAll (arch : Arch) (os : OS) (lk : Linker) (mem0 : Nat → Nat)
    (calls : List InstallCall) (w : World) (n : TeristaNative) (w1 : World) (n1 : TeristaNative)
    (h : TeristaNative.installAll arch os lk calls w n = some (w1, n1))
    (hsep : Separated arch n1.activeHooks) (hinv : HooksConsistent arch mem0 w n) :
    HooksConsistent arch mem0 w1 n1 := by
  induction calls generalizing w n with
  | nil =>
      simp only [TeristaNative.installAll, Option.some.injEq, Prod.mk.injEq] at h
      obtain ⟨rfl, rfl⟩ := h
      exact hinv
  | cons c cs ih =>
      simp only [TeristaNative.installAll] at h
      cases hr : TeristaNative.installHook arch os lk w n c.symbol c.replacement c.backup with
      | none => simp [hr] at h
      | some r =>
          simp only [hr] at h
          cases hok : r.ok with
          | false => simp [hok] at h
          | true =>
              simp only [hok, if_true] at h
              obtain ⟨rest, hrest, -⟩ := installAll_extends arch os lk cs r.world r.native w1 n1 h
              have hsep' : Separated arch r.native.activeHooks := by
                rw [hrest] at hsep
                exact Separated.prefix arch _ _ hsep
              exact ih r.world r.native h
                (HooksConsistent.step arch os lk mem0 w n c.symbol c.replacement c.backup r hr hok
                  hsep' hinv)

/-- The loop of `uninstallAllHooks` over hooks that are active in the installer with the bytes
of `mem0` saved, on non-overlapping prologues and with every protection change granted:
every prologue ends up as in `mem0`, and nothing outside the prologues is written. -/
theorem uninstallAll_loop (arch : Arch) (os : OS) (mem0 : Nat → Nat)
    (hprot : ∀ t a l p, os.mprotect t a l p = true) (hs : List HookInfo) :
    ∀ (w : World) (ih : InlineHook) (acc : List HookInfo),
    (∀ h ∈ hs, h.active = true ∧
      ∃ e, StdMap.findEntry ih.hooks h.originalFunction = some (h.originalFunction, e) ∧
        e.active = true ∧ e.originalSize = arch.hookSize ∧
        e.originalBytes.take arch.hookSize = readBytes mem0 h.originalFunction arch.hookSize) →
    hs.Pairwise (fun a b => a.originalFunction + arch.hookSize ≤ b.originalFunction ∨
      b.originalFunction + arch.hookSize ≤ a.originalFunction) →
    (∀ h ∈ hs,
      readBytes (hs.foldl (TeristaNative.uninstallAllHooks.step arch os) (w, ih, acc)).1.mem
        h.originalFunction arch.hookSize = readBytes mem0 h.originalFunction arch.hookSize) ∧
    (∀ x, (∀ h ∈ hs, x < h.originalFunction ∨ h.originalFunction + arch.hookSize ≤ x) →
      (hs.foldl (TeristaNative.uninstallAllHooks.step arch os) (w, ih, acc)).1.mem x
        = w.mem x) := by
  have hL := hookSize_pos arch
  induction hs with
  | nil =>
      intro w ih acc _ _
      exact ⟨by simp, fun x _ => rfl⟩
  | cons h hs ihs =>
      intro w ih acc hent hpair
      obtain ⟨hhead, htail⟩ := List.pairwise_cons.mp hpair
      obtain ⟨hact, e, hF, heact, hsize, hbytes⟩ := hent h (List.mem_cons_self _ _)
      have hok : (InlineHook.uninstallHook arch os w ih h.originalFunction h.backupFunction).ok
          = true := uninstallHook_ok_of arch os w ih _ _ e hF heact (hprot _ _ _ _)
      obtain ⟨e', hF', -, hmem, hhook⟩ :=
        uninstallHook_success arch os w ih h.originalFunction h.backupFunction hok
      rw [hF] at hF'
      simp only [Option.some.injEq, Prod.mk.injEq, true_and] at hF'
      subst hF'
      rw [hsize, hbytes] at hmem
      have hstep : TeristaNative.uninstallAllHooks.step arch os (w, ih, acc) h
          = ((InlineHook.uninstallHook arch os w ih h.originalFunction h.backupFunction).world,
             (InlineHook.uninstallHook arch os w ih h.originalFunction h.backupFunction).hook,
             acc ++ [{ h with active := false }]) := by
        simp [TeristaNative.uninstallAllHooks.step, hact]
      simp only [List.foldl_cons, hstep]
      have hent' : ∀ h' ∈ hs, h'.active = true ∧
          ∃ e', StdMap.findEntry
              (InlineHook.uninstallHook arch os w ih h.originalFunction h.backupFunction).hook.hooks
              h'.originalFunction = some (h'.originalFunction, e') ∧
            e'.active = true ∧ e'.originalSize = arch.hookSize ∧
            e'.originalBytes.take arch.hookSize
              = readBytes mem0 h'.originalFunction arch.hookSize := by
        intro h' hh'
        obtain ⟨ha', e', hF', rest'⟩ := hent h' (List.mem_cons_of_mem _ hh')
        refine ⟨ha', e', ?_, rest'⟩
        have hne : h'.originalFunction ≠ h.originalFunction := by
          have := hhead h' hh'
          omega
        rw [hhook]
        simp only
        rw [StdMap.findEntry_erase_other _ _ _ hne]
        exact hF'
      obtain ⟨hres, hout⟩ := ihs _ _ (acc ++ [{ h with active := false }]) hent' htail
      constructor
      · intro h' hh'
        rcases List.mem_cons.mp hh' with heq | hin
        · subst heq
          have : readBytes
              (hs.foldl (TeristaNative.uninstallAllHooks.step arch os)
                ((InlineHook.uninstallHook arch os w ih h'.originalFunction
                    h'.backupFunction).world,
                 (InlineHook.uninstallHook arch os w ih h'.originalFunction
                    h'.backupFunction).hook,
                 acc ++ [{ h' with active := false }])).1.mem h'.originalFunction arch.hookSize
              = readBytes (InlineHook.uninstallHook arch os w ih h'.originalFunction
                    h'.backupFunction).world.mem h'.originalFunction arch.hookSize := by
            apply readBytes_congr
            intro i hi
            apply hout
            intro h'' hh''
            have := hhead h'' hh''
            omega
          rw [this, hmem]
          exact readBytes_writeBytes_same _ _ _ _ (readBytes_length _ _ _)
        · exact hres h' hin
      · intro x hx
        rw [hout x (fun h' hh' => hx h' (List.mem_cons_of_mem _ hh')), hmem]
        apply writeBytes_outside
        have := hx h (List.mem_cons_self _ _)
        rw [readBytes_length]
        omega

/-- C10, amended: for every sequence of successful `TeristaNative::installHook` calls made on
a coordinator with an empty active-hooks list, if the hooked prologues do not overlap one
another and no trampoline region overlaps a hooked prologue (`Separated`), and every
protection change is granted, then `uninstallAllHooks` leaves the active-hooks list empty and
the prologue of every hooked target equal, byte for byte, to its value before the first
install.  Every call of the sequence has its entry in the list, in call order. -/
theorem uninstallAllHooks_restores (arch : Arch) (os : OS) (lk : Linker)
    (calls : List InstallCall) (w0 : World) (n0 : TeristaNative) (w1 : World)
    (n1 : TeristaNative)
    (hempty : n0.activeHooks = [])
    (hseq : TeristaNative.installAll arch os lk calls w0 n0 = some (w1, n1))
    (hsep : Separated arch n1.activeHooks)
    (hprot : ∀ t a l p, os.mprotect t a l p = true) :
    (TeristaNative.uninstallAllHooks arch os w1 n1).2.activeHooks = [] ∧
    n1.activeHooks.map HookInfo.symbol = calls.map InstallCall.symbol ∧
    ∀ h ∈ n1.activeHooks,
      readBytes (TeristaNative.uninstallAllHooks arch os w1 n1).1.mem h.originalFunction
        arch.hookSize = readBytes w0.mem h.originalFunction arch.hookSize := by
  have hinv0 : HooksConsistent arch w0.mem w0 n0 := by
    constructor
    · intro h hh
      rw [hempty] at hh
      cases hh
    · intro x _
      rfl
  obtain ⟨hent, -⟩ := HooksConsistent.installAll arch os lk w0.mem calls w0 n0 w1 n1 hseq hsep hinv0
  obtain ⟨rest, hrest, hsym⟩ := installAll_extends arch os lk calls w0 n0 w1 n1 hseq
  rw [hempty, List.nil_append] at hrest
  refine ⟨rfl, by rw [hrest, hsym], ?_⟩
  exact (uninstallAll_loop arch os w0.mem hprot n1.activeHooks w1 n1.inlineHook [] hent hsep.1).1

/-- C10 as stated fails: in the sample process (every system call granted) `f` at `0x10000`
and `g` at `0x10008` are both hooked successfully; `uninstallAllHooks` restores `f` first and
then writes back what `g` had saved, which contains the literal of the jump installed over `f`.
The byte at `0x1000a` ends as 2, while it was 35 before the first install. -/
theorem uninstallAllHooks_overlap_not_restored :
    sampleOverlapping.map (fun p => p.2.activeHooks.map HookInfo.originalFunction)
      = some [0x10000, 0x10008] ∧
    sampleOverlapping.map
      (fun p => (TeristaNative.uninstallAllHooks .aarch64 sampleOS p.1 p.2).2.activeHooks)
      = some [] ∧
    sampleOverlapping.map
      (fun p => (TeristaNative.uninstallAllHooks .aarch64 sampleOS p.1 p.2).1.mem 0x1000a)
      = some 2 ∧
    sampleWorld.mem 0x1000a = 35 := by
  decide

/-- Instance of the amended C10: `f` at `0x10000` and `h` at `0x10040` are hooked in the
sample process; after `uninstallAllHooks` the sixteen bytes at `0x10040` are the original
ones. -/
theorem uninstallAllHooks_restores_witness :
    readBytes (TeristaNative.uninstallAllHooks .aarch64 sampleOS sampleApart.1
      sampleApart.2).1.mem 0x10040 16 = readBytes sampleWorld.mem 0x10040 16 :=
  (uninstallAllHooks_restores .aarch64 sampleOS sampleLinker
    [InstallCall.mk "f" 0x20000 none, InstallCall.mk "h" 0x30000 none] sampleWorld sampleNative
    sampleApart.1 sampleApart.2 rfl rfl (by decide) (fun _ _ _ _ => rfl)).2.2
    (HookInfo.mk "h" 0x10040 0x30000 0x7008000 true) (by decide)

/-! ## Hook manager: order of teardown and the active-hooks list (C11, C12) -/

theorem uninstallAll_fold_eq (arch : Arch) (os : OS) (hs : List HookInfo) :
    ∀ (w : World) (ih : InlineHook) (acc : List HookInfo),
      ((hs.foldl (TeristaNative.uninstallAllHooks.step arch os) (w, ih, acc)).1,
        (hs.foldl (TeristaNative.uninstallAllHooks.step arch os) (w, ih, acc)).2.1)
      = InlineHook.uninstallEach arch os (TeristaNative.uninstallAllHooks.visited hs) w ih := by
  induction hs with
  | nil => intro w ih acc; rfl
  | cons h hs ihs =>
      intro w ih acc
      simp only [List.foldl_cons, TeristaNative.uninstallAllHooks.visited]
      cases hact : h.active with
      | true =>
          simp only [TeristaNative.uninstallAllHooks.step, hact, if_true,
            InlineHook.uninstallEach]
          exact ihs _ _ _
      | false =>
          simp only [TeristaNative.uninstallAllHooks.step, hact]
          exact ihs _ _ _

theorem visited_of_all_active (hs : List HookInfo) (h : ∀ x ∈ hs, x.active = true) :
    TeristaNative.uninstallAllHooks.visited hs = hs := by
  induction hs with
  | nil => rfl
  | cons x xs ih =>
      simp only [TeristaNative.uninstallAllHooks.visited, h x (List.mem_cons_self _ _), if_true]
      rw [ih (fun y hy => h y (List.mem_cons_of_mem _ hy))]

/-- Entries appended by successful installs are active. -/
theorem installAll_all_active (arch : Arch) (os : OS) (lk : Linker) (calls : List InstallCall)
    (w : World) (n : TeristaNative) (w1 : World) (n1 : TeristaNative)
    (h : TeristaNative.installAll arch os lk calls w n = some (w1, n1))
    (hact : ∀ x ∈ n.activeHooks, x.active = true) : ∀ x ∈ n1.activeHooks, x.active = true := by
  induction calls generalizing w n with
  | nil =>
      simp only [TeristaNative.installAll, Option.some.injEq, Prod.mk.injEq] at h
      obtain ⟨-, rfl⟩ := h
      exact hact
  | cons c cs ih =>
      simp only [TeristaNative.installAll] at h
      cases hr : TeristaNative.installHook arch os lk w n c.symbol c.replacement c.backup with
      | none => simp [hr] at h
      | some r =>
          simp only [hr] at h
          cases hok : r.ok with
          | false => simp [hok] at h
          | true =>
              simp only [hok, if_true] at h
              obtain ⟨wf, A, T, -, -, -, -, -, hlist⟩ :=
                native_installHook_success arch os lk w n c.symbol c.replacement c.backup r hr hok
              apply ih r.world r.native h
              intro x hx
              rw [hlist] at hx
              rcases List.mem_append.mp hx with hx | hx
              · exact hact x hx
              · rw [List.mem_singleton] at hx
                subst hx
                rfl

/-- C11, amended: `uninstallAllHooks` (and therefore `cleanup`, which starts with it)
uninstalls the active hooks in insertion order, not in reverse.  After a sequence of successful
installs `h1, ..., hn` on an empty list, the entries for which `inlineHook->uninstallHook` is
called are exactly `h1, ..., hn` in that order (the i-th uninstall is of `hi`), and the world
and installer it leaves are those of performing these uninstalls one after the other. -/
theorem uninstallAllHooks_insertion_order (arch : Arch) (os : OS) (lk : Linker)
    (calls : List InstallCall) (w0 : World) (n0 : TeristaNative) (w1 : World)
    (n1 : TeristaNative) (hempty : n0.activeHooks = [])
    (hseq : TeristaNative.installAll arch os lk calls w0 n0 = some (w1, n1)) :
    TeristaNative.uninstallAllHooks.visited n1.activeHooks = n1.activeHooks ∧
    (TeristaNative.uninstallAllHooks.visited n1.activeHooks).map HookInfo.symbol
      = calls.map InstallCall.symbol ∧
    ((TeristaNative.uninstallAllHooks arch os w1 n1).1,
      (TeristaNative.uninstallAllHooks arch os w1 n1).2.inlineHook)
      = InlineHook.uninstallEach arch os
          (TeristaNative.uninstallAllHooks.visited n1.activeHooks) w1 n1.inlineHook ∧
    (∀ statics, n1.initialized = true →
      (TeristaNative.cleanup arch os w1 n1 statics).2.1.inlineHook
        = (TeristaNative.unhookBinder arch os
            (TeristaNative.uninstallAllHooks arch os w1 n1).1
            (TeristaNative.uninstallAllHooks arch os w1 n1).2 statics).2.1.inlineHook) := by
  have hact : ∀ x ∈ n1.activeHooks, x.active = true :=
    installAll_all_active arch os lk calls w0 n0 w1 n1 hseq (by simp [hempty])
  have hvis := visited_of_all_active n1.activeHooks hact
  obtain ⟨rest, hrest, hsym⟩ := installAll_extends arch os lk calls w0 n0 w1 n1 hseq
  rw [hempty, List.nil_append] at hrest
  refine ⟨hvis, ?_, ?_, ?_⟩
  · rw [hvis, hrest, hsym]
  · exact uninstallAll_fold_eq arch os n1.activeHooks w1 n1.inlineHook []
  · intro statics hinit
    unfold TeristaNative.cleanup
    rw [hinit]
    simp only [Bool.not_true, Bool.false_eq_true, if_false]
    split <;> rfl

/-- C11 as stated fails: in the sample process `f` and then `g` are hooked; the claim makes
the first uninstall that of `g`, but `uninstallAllHooks` calls the installer for `f` first and
for `g` second.  The order is observable: it leaves the byte at `0x1000a` as 2, as uninstalling
`f` then `g` does, while uninstalling `g` then `f` would leave the original 35. -/
theorem uninstallAllHooks_not_reverse_order :
    sampleOverlapping.map
      (fun p => (TeristaNative.uninstallAllHooks.visited p.2.activeHooks).map HookInfo.symbol)
      = some ["f", "g"] ∧
    sampleOverlapping.map
      (fun p => (TeristaNative.uninstallAllHooks .aarch64 sampleOS p.1 p.2).1.mem 0x1000a)
      = some 2 ∧
    sampleOverlapping.map
      (fun p => (InlineHook.uninstallEach .aarch64 sampleOS p.2.activeHooks
        p.1 p.2.inlineHook).1.mem 0x1000a) = some 2 ∧
    sampleOverlapping.map
      (fun p => (InlineHook.uninstallEach .aarch64 sampleOS p.2.activeHooks.reverse
        p.1 p.2.inlineHook).1.mem 0x1000a) = some 35 := by
  decide

/-- Instance of the amended C11 in the sample process: after hooking `f` and `h`, the
uninstalls are performed for `f` and then for `h`. -/
theorem uninstallAllHooks_insertion_order_witness :
    (TeristaNative.uninstallAllHooks.visited sampleApart.2.activeHooks).map HookInfo.symbol
      = [InstallCall.mk "f" 0x20000 none, InstallCall.mk "h" 0x30000 none].map
          InstallCall.symbol :=
  (uninstallAllHooks_insertion_order .aarch64 sampleOS sampleLinker
    [InstallCall.mk "f" 0x20000 none, InstallCall.mk "h" 0x30000 none] sampleWorld sampleNative
    sampleApart.1 sampleApart.2 rfl rfl).2.1

theorem uninstallHook_find_split (symbol : String) (hs : List HookInfo)
    (r : List HookInfo × HookInfo × List HookInfo)
    (h : TeristaNative.uninstallHook.find symbol hs = some r) :
    hs = r.1 ++ r.2.1 :: r.2.2 ∧ r.2.1.symbol = symbol ∧ r.2.1.active = true := by
  induction hs generalizing r with
  | nil => simp [TeristaNative.uninstallHook.find] at h
  | cons x xs ih =>
      simp only [TeristaNative.uninstallHook.find] at h
      split at h
      · rename_i hx
        cases h
        exact ⟨rfl, hx.1, hx.2⟩
      · cases hf : TeristaNative.uninstallHook.find symbol xs with
        | none => simp [hf] at h
        | some r' =>
            simp only [hf, Option.some.injEq] at h
            subst h
            obtain ⟨h1, h2, h3⟩ := ih r' hf
            exact ⟨by simp only [List.cons_append]; rw [← h1], h2, h3⟩

/-- The active-hooks list after a failed `TeristaNative::installHook` is the list before. -/
theorem native_installHook_failure (arch : Arch) (os : OS) (lk : Linker) (w : World)
    (n : TeristaNative) (sym : String) (R : Nat) (slot : Option Nat) (r : NativeInstallResult)
    (h : TeristaNative.installHook arch os lk w n sym R slot = some r) (hok : r.ok = false) :
    r.native.activeHooks = n.activeHooks := by
  unfold TeristaNative.installHook at h
  cases hinit : n.initialized with
  | false => simp [hinit] at h; subst h; rfl
  | true =>
      simp only [hinit] at h
      cases hf : ElfUtils.findSymbolInAll lk w n.elfUtils sym with
      | none => simp [hf] at h
      | some f =>
          simp only [hf] at h
          by_cases hA : f.2.2 = 0
          · simp [hA] at h; subst h; rfl
          · by_cases hi : (InlineHook.installHook arch os f.1 n.inlineHook f.2.2 R (some 0)).ok
                = true
            · simp [hA, hi] at h; subst h; simp at hok
            · simp [hA, hi] at h; subst h; rfl

/-- C12, amended: the active-hooks list changes only in three ways.  A successful
`installHook` appends exactly one entry for that symbol at the end, and a failed one leaves the
list unchanged.  `uninstallHook` removes one entry, the first active one for that symbol, and
only when the installer's uninstall for that entry returned success; otherwise the list is
unchanged.  `uninstallAllHooks` empties the list whatever the installer's uninstalls
returned. -/
theorem activeHooks_changes (arch : Arch) (os : OS) (lk : Linker) (w : World)
    (n : TeristaNative) (sym : String) (R : Nat) (slot : Option Nat) :
    (∀ r, TeristaNative.installHook arch os lk w n sym R slot = some r →
      (r.ok = true → ∃ h, h.symbol = sym ∧ r.native.activeHooks = n.activeHooks ++ [h]) ∧
      (r.ok = false → r.native.activeHooks = n.activeHooks)) ∧
    ((TeristaNative.uninstallHook arch os w n sym).ok = false →
      (TeristaNative.uninstallHook arch os w n sym).native.activeHooks = n.activeHooks) ∧
    ((TeristaNative.uninstallHook arch os w n sym).ok = true →
      ∃ before h after, n.activeHooks = before ++ h :: after ∧ h.symbol = sym ∧
        (TeristaNative.uninstallHook arch os w n sym).native.activeHooks = before ++ after ∧
        (InlineHook.uninstallHook arch os w n.inlineHook h.originalFunction
          h.backupFunction).ok = true) ∧
    (TeristaNative.uninstallAllHooks arch os w n).2.activeHooks = [] := by
  refine ⟨?_, ?_, ?_, rfl⟩
  · intro r hr
    constructor
    · intro hok
      obtain ⟨wf, A, T, -, -, -, -, -, hlist⟩ :=
        native_installHook_success arch os lk w n sym R slot r hr hok
      exact ⟨_, rfl, hlist⟩
    · intro hok
      exact native_installHook_failure arch os lk w n sym R slot r hr hok
  · intro hok
    unfold TeristaNative.uninstallHook at hok ⊢
    cases hinit : n.initialized with
    | false => simp
    | true =>
        simp only [hinit] at hok ⊢
        cases hf : TeristaNative.uninstallHook.find sym n.activeHooks with
        | none => simp
        | some f =>
            simp only [hf] at hok ⊢
            cases hu : (InlineHook.uninstallHook arch os w n.inlineHook f.2.1.originalFunction
                f.2.1.backupFunction).ok with
            | true => simp [hu] at hok
            | false => simp [hu]
  · intro hok
    unfold TeristaNative.uninstallHook at hok ⊢
    cases hinit : n.initialized with
    | false => simp [hinit] at hok
    | true =>
        simp only [hinit] at hok ⊢
        cases hf : TeristaNative.uninstallHook.find sym n.activeHooks with
        | none => simp [hf] at hok
        | some f =>
            simp only [hf] at hok ⊢
            obtain ⟨hsplit, hsym, -⟩ := uninstallHook_find_split sym n.activeHooks f hf
            cases hu : (InlineHook.uninstallHook arch os w n.inlineHook f.2.1.originalFunction
                f.2.1.backupFunction).ok with
            | false => simp [hu] at hok
            | true => exact ⟨f.1, f.2.1, f.2.2, hsplit, hsym, by simp [hu], hu⟩

/-- C12 as stated fails: `f` is hooked in the sample process; then protection changes are
refused, so the installer's uninstall for the entry returns failure and `f` stays hooked, yet
`uninstallAllHooks` removes the entry from the active-hooks list. -/
theorem uninstallAllHooks_drops_failed_entry :
    sampleHookedFlaky.2.activeHooks.map HookInfo.symbol = ["f"] ∧
    (InlineHook.uninstallHook .aarch64 sampleFlakyOS sampleHookedFlaky.1
      sampleHookedFlaky.2.inlineHook 0x10000 0x7003000).ok = false ∧
    (TeristaNative.uninstallAllHooks .aarch64 sampleFlakyOS sampleHookedFlaky.1
      sampleHookedFlaky.2).2.activeHooks = [] ∧
    (TeristaNative.uninstallAllHooks .aarch64 sampleFlakyOS sampleHookedFlaky.1
      sampleHookedFlaky.2).2.inlineHook.isHookInstalled 0x10000 = true := by
  decide

/-- Instance of the amended C12: in the sample process with `f` and `h` hooked, uninstalling
a symbol that has no entry fails and leaves the list as it was. -/
theorem activeHooks_changes_witness :
    (TeristaNative.uninstallHook .aarch64 sampleOS sampleApart.1 sampleApart.2
      "g").native.activeHooks = sampleApart.2.activeHooks :=
  (activeHooks_changes .aarch64 sampleOS sampleLinker sampleApart.1 sampleApart.2 "g" 0 none).2.1
    (by decide)

/-! ## Failed and rejected calls (C13 to C15) -/

/-- An install that passes its guards and is granted the protection change, but gets
`MAP_FAILED` from `mmap`, returns failure with memory, hook table and trampoline list as
before and with the pages of the target left read+write+execute. -/
theorem installHook_trampoline_failure (arch : Arch) (os : OS) (w : World) (s : InlineHook)
    (A R : Nat) (slot : Option Nat) (hA : A ≠ 0) (hR : R ≠ 0)
    (hI : s.isHookInstalled A = false) (hV : InlineHook.isValidAddress A = true)
    (hP : os.mprotect w.tick (pageAddrOf arch os A) (pageSizeOf arch os A arch.hookSize)
        (PROT_READ ||| PROT_WRITE ||| PROT_EXEC) = true)
    (hM : os.mmap (w.tick + 1) = none) :
    (InlineHook.installHook arch os w s A R slot).ok = false ∧
    (InlineHook.installHook arch os w s A R slot).hook = s ∧
    (InlineHook.installHook arch os w s A R slot).backup = slot ∧
    (InlineHook.installHook arch os w s A R slot).world.mem = w.mem ∧
    ∀ x, pageAddrOf arch os A ≤ x →
      x < pageAddrOf arch os A + pageSizeOf arch os A arch.hookSize →
      (InlineHook.installHook arch os w s A R slot).world.prot x
        = (PROT_READ ||| PROT_WRITE ||| PROT_EXEC) := by
  have h0 : ¬ (A = 0 ∨ R = 0) := by simp [hA, hR]
  cases arch with
  | aarch64 =>
      simp only [Arch.hookSize] at hP
      have hw : (InlineHook.makeMemoryWritable Arch.aarch64 os w A 16).2 = true := by
        rw [makeMemoryWritable_ok]; exact hP
      have heq : InlineHook.installHook .aarch64 os w s A R slot
          = { world := (World.mmap os (InlineHook.makeMemoryWritable Arch.aarch64 os w A 16).1
                os.pageSize (PROT_READ ||| PROT_WRITE ||| PROT_EXEC)).1,
              hook := s, ok := false, backup := slot } := by
        simp [InlineHook.installHook, h0, hI, hV, InlineHook.installArm64Hook, hw,
          InlineHook.allocateTrampoline, World.mmap, makeMemoryWritable_tick, hM]
      rw [heq]
      refine ⟨rfl, rfl, rfl, ?_, ?_⟩
      · simp [World.mmap, makeMemoryWritable_mem]
      · intro x h1 h2
        simp only [Arch.hookSize] at h2
        simp [World.mmap, makeMemoryWritable_tick, hM, InlineHook.makeMemoryWritable,
          World.mprotect, hP, h1, h2]
  | aarch32 =>
      simp only [Arch.hookSize] at hP
      have hw : (InlineHook.makeMemoryWritable Arch.aarch32 os w A 8).2 = true := by
        rw [makeMemoryWritable_ok]; exact hP
      have heq : InlineHook.installHook .aarch32 os w s A R slot
          = { world := (World.mmap os (InlineHook.makeMemoryWritable Arch.aarch32 os w A 8).1
                os.pageSize (PROT_READ ||| PROT_WRITE ||| PROT_EXEC)).1,
              hook := s, ok := false, backup := slot } := by
        simp [InlineHook.installHook, h0, hI, hV, InlineHook.installArm32Hook, hw,
          InlineHook.allocateTrampoline, World.mmap, makeMemoryWritable_tick, hM]
      rw [heq]
      refine ⟨rfl, rfl, rfl, ?_, ?_⟩
      · simp [World.mmap, makeMemoryWritable_mem]
      · intro x h1 h2
        simp only [Arch.hookSize] at h2
        simp [World.mmap, makeMemoryWritable_tick, hM, InlineHook.makeMemoryWritable,
          World.mprotect, hP, h1, h2]

/-- C13 fails on the code: in the sample process (pages read+execute) with a system that
grants `mprotect` but has no page for `mmap`, `installHook(0x10000, 0x20000)` returns failure
with target bytes, hook table and trampoline list unchanged, but the target's page is left
read+write+execute (7) instead of its former read+execute (5). -/
theorem install_failure_keeps_pages_writable :
    (InlineHook.installHook .aarch64 sampleNoMmapOS sampleWorld InlineHook.ctor 0x10000 0x20000
      none).ok = false ∧
    (InlineHook.installHook .aarch64 sampleNoMmapOS sampleWorld InlineHook.ctor 0x10000 0x20000
      none).hook = InlineHook.ctor ∧
    readBytes (InlineHook.installHook .aarch64 sampleNoMmapOS sampleWorld InlineHook.ctor
      0x10000 0x20000 none).world.mem 0x10000 16 = readBytes sampleWorld.mem 0x10000 16 ∧
    sampleWorld.prot 0x10000 = 5 ∧
    (InlineHook.installHook .aarch64 sampleNoMmapOS sampleWorld InlineHook.ctor 0x10000 0x20000
      none).world.prot 0x10000 = 7 ∧
    (InlineHook.installHook .aarch64 sampleNoMmapOS sampleWorld InlineHook.ctor 0x10000 0x20000
      none).world.log
      = [SysCall.mprotect 0x10000 4096 7 true, SysCall.mmap 4096 7 none] := by
  decide

/-- C14: `installHook` rejects every null target, every null replacement and every target
whose address is at most `0x1000` or at least `0x7fffffff00000000`; the rejection returns the
world (memory, protection, call counter) and the installer exactly as they were, for any
memory content.  Every address strictly between the two bounds passes the sanity test. -/
theorem installHook_rejects_out_of_range (arch : Arch) (os : OS) (w : World) (s : InlineHook)
    (A R : Nat) (slot : Option Nat) :
    (A = 0 ∨ R = 0 ∨ A ≤ 0x1000 ∨ 0x7fffffff00000000 ≤ A →
      InlineHook.installHook arch os w s A R slot
        = { world := w, hook := s, ok := false, backup := slot }) ∧
    (0x1000 < A ∧ A < 0x7fffffff00000000 → InlineHook.isValidAddress A = true) ∧
    (InlineHook.isValidAddress A = true → 0x1000 < A ∧ A < 0x7fffffff00000000) := by
  refine ⟨?_, ?_, ?_⟩
  · intro h
    unfold InlineHook.installHook
    by_cases h0 : A = 0 ∨ R = 0
    · rw [if_pos h0]
    · rw [if_neg h0]
      have hbad : A ≤ 0x1000 ∨ 0x7fffffff00000000 ≤ A := by
        rcases h with h | h | h | h
        · exact absurd (Or.inl h) h0
        · exact absurd (Or.inr h) h0
        · exact Or.inl h
        · exact Or.inr h
      have hV : InlineHook.isValidAddress A = false := by
        simp only [InlineHook.isValidAddress, decide_eq_false_iff_not]
        omega
      cases hI : s.isHookInstalled A <;> simp [hV]
  · intro h
    simp only [InlineHook.isValidAddress, decide_eq_true_eq]
    omega
  · intro h
    simp only [InlineHook.isValidAddress, decide_eq_true_eq] at h
    omega

/-- Instance of C14: the target `0x1000` is rejected in the sample process. -/
theorem installHook_rejects_out_of_range_witness :
    InlineHook.installHook .aarch64 sampleOS sampleWorld InlineHook.ctor 0x1000 0x20000 none
      = { world := sampleWorld, hook := InlineHook.ctor, ok := false, backup := none } :=
  (installHook_rejects_out_of_range .aarch64 sampleOS sampleWorld InlineHook.ctor 0x1000 0x20000
    none).1 (by decide)

/-- C15: while the coordinator is not initialised, `installHook`, `uninstallHook`,
`loadLibrary`, `findSymbol`, `hookBinder` and `setBinderFilter` all fail (false, or a null
address) and return the world, the coordinator with all its components, and the interceptor's
statics exactly as they were. -/
theorem uninitialized_calls_rejected (arch : Arch) (os : OS) (lk : Linker) (fs : FileSys)
    (ep : BinderEntryPoints) (w : World) (n : TeristaNative) (statics : BinderStatics)
    (name other : String) (R : Nat) (slot : Option Nat) (allow : Bool)
    (h : n.initialized = false) :
    TeristaNative.installHook arch os lk w n name R slot
      = some { world := w, native := n, ok := false, backup := slot } ∧
    TeristaNative.uninstallHook arch os w n name = { world := w, native := n, ok := false } ∧
    TeristaNative.loadLibrary lk fs w n name
      = { world := w, native := n, ok := false, nullDeref := false } ∧
    TeristaNative.findSymbol lk w n other name = some (w, n, 0) ∧
    TeristaNative.hookBinder arch os lk ep w n statics
      = some { world := w, native := n, statics := statics, ok := false } ∧
    TeristaNative.setBinderFilter n name allow = (n, false) := by
  refine ⟨?_, ?_, ?_, ?_, ?_, ?_⟩
  · simp [TeristaNative.installHook, h]
  · simp [TeristaNative.uninstallHook, h]
  · simp [TeristaNative.loadLibrary, h]
  · simp [TeristaNative.findSymbol, h]
  · simp [TeristaNative.hookBinder, h]
  · simp [TeristaNative.setBinderFilter, h]

/-- Instance of C15 on a freshly constructed coordinator. -/
theorem uninitialized_calls_rejected_witness :
    TeristaNative.uninstallHook .aarch64 sampleOS sampleWorld TeristaNative.ctor "ioctl"
      = { world := sampleWorld, native := TeristaNative.ctor, ok := false } ∧
    TeristaNative.setBinderFilter TeristaNative.ctor "isms" true = (TeristaNative.ctor, false) :=
  ⟨(uninitialized_calls_rejected .aarch64 sampleOS sampleLinker
      { openOk := fun _ _ => false, readHeader := fun _ _ => [] }
      (BinderEntryPoints.mk 0x40000 0x40100 0x40200) sampleWorld TeristaNative.ctor sampleStatics
      "ioctl" "libc.so" 0x20000 none true rfl).2.1,
   (uninitialized_calls_rejected .aarch64 sampleOS sampleLinker
      { openOk := fun _ _ => false, readHeader := fun _ _ => [] }
      (BinderEntryPoints.mk 0x40000 0x40100 0x40200) sampleWorld TeristaNative.ctor sampleStatics
      "isms" "libc.so" 0x20000 none true rfl).2.2.2.2.2⟩

/-! ## Coordinator lifecycle (C16, C17) -/

theorem native_uninstallHook_frame (arch : Arch) (os : OS) (w : World) (n : TeristaNative)
    (sym : String) :
    (TeristaNative.uninstallHook arch os w n sym).native.elfUtils = n.elfUtils ∧
    (TeristaNative.uninstallHook arch os w n sym).native.binderHook = n.binderHook ∧
    (TeristaNative.uninstallHook arch os w n sym).native.symbolResolver = n.symbolResolver ∧
    (TeristaNative.uninstallHook arch os w n sym).native.initialized = n.initialized ∧
    (TeristaNative.uninstallHook arch os w n sym).native.jniEnv = n.jniEnv ∧
    (TeristaNative.uninstallHook arch os w n sym).native.applicationContext
      = n.applicationContext := by
  unfold TeristaNative.uninstallHook
  split
  · simp
  · split
    · simp
    · simp only []
      split <;> simp

theorem binder_uninstallHooks_frame (arch : Arch) (os : OS) (w : World) (n : TeristaNative)
    (statics : BinderStatics) :
    (BinderHook.uninstallHooks arch os w n statics).2.1.elfUtils = n.elfUtils ∧
    (BinderHook.uninstallHooks arch os w n statics).2.1.binderHook.hooksInstalled = false ∧
    (BinderHook.uninstallHooks arch os w n statics).2.1.binderHook.serviceFilters
      = n.binderHook.serviceFilters ∧
    (BinderHook.uninstallHooks arch os w n statics).2.1.symbolResolver = n.symbolResolver ∧
    (BinderHook.uninstallHooks arch os w n statics).2.1.initialized = n.initialized ∧
    (BinderHook.uninstallHooks arch os w n statics).2.1.jniEnv = n.jniEnv ∧
    (BinderHook.uninstallHooks arch os w n statics).2.1.applicationContext
      = n.applicationContext := by
  unfold BinderHook.uninstallHooks
  cases hh : n.binderHook.hooksInstalled with
  | false => simp [hh]
  | true =>
      simp only [Bool.not_true, Bool.false_eq_true, if_false]
      have h1 := native_uninstallHook_frame arch os w n "ioctl"
      have h2 := native_uninstallHook_frame arch os
        (TeristaNative.uninstallHook arch os w n "ioctl").world
        (TeristaNative.uninstallHook arch os w n "ioctl").native "write"
      have h3 := native_uninstallHook_frame arch os
        (TeristaNative.uninstallHook arch os
          (TeristaNative.uninstallHook arch os w n "ioctl").world
          (TeristaNative.uninstallHook arch os w n "ioctl").native "write").world
        (TeristaNative.uninstallHook arch os
          (TeristaNative.uninstallHook arch os w n "ioctl").world
          (TeristaNative.uninstallHook arch os w n "ioctl").native "write").native "read"
      obtain ⟨a1, b1, c1, d1, e1, f1⟩ := h1
      obtain ⟨a2, b2, c2, d2, e2, f2⟩ := h2
      obtain ⟨a3, b3, c3, d3, e3, f3⟩ := h3
      refine ⟨?_, ?_, ?_, ?_, ?_, ?_, ?_⟩
      · exact a3.trans (a2.trans a1)
      · trivial
      · exact congrArg BinderHook.serviceFilters (b3.trans (b2.trans b1))
      · exact c3.trans (c2.trans c1)
      · exact d3.trans (d2.trans d1)
      · exact e3.trans (e2.trans e1)
      · exact f3.trans (f2.trans f1)

/-- The part of the coordinator that `cleanup` goes through before its final resets. -/
theorem cleanup_eq (arch : Arch) (os : OS) (w : World) (n : TeristaNative)
    (statics : BinderStatics) (h : n.initialized = true) :
    (TeristaNative.cleanup arch os w n statics).2.1.initialized = false ∧
    (TeristaNative.cleanup arch os w n statics).2.1.activeHooks = [] ∧
    (TeristaNative.cleanup arch os w n statics).2.1.jniEnv = 0 ∧
    (TeristaNative.cleanup arch os w n statics).2.1.elfUtils
      = (BinderHook.uninstallHooks arch os (TeristaNative.uninstallAllHooks arch os w n).1
          (TeristaNative.uninstallAllHooks arch os w n).2 statics).2.1.elfUtils ∧
    (TeristaNative.cleanup arch os w n statics).2.1.binderHook
      = (BinderHook.uninstallHooks arch os (TeristaNative.uninstallAllHooks arch os w n).1
          (TeristaNative.uninstallAllHooks arch os w n).2 statics).2.1.binderHook ∧
    ((BinderHook.uninstallHooks arch os (TeristaNative.uninstallAllHooks arch os w n).1
          (TeristaNative.uninstallAllHooks arch os w n).2 statics).2.1.jniEnv ≠ 0 →
      (TeristaNative.cleanup arch os w n statics).2.1.applicationContext = 0) := by
  have hu : (TeristaNative.uninstallAllHooks arch os w n).2.initialized = true := h
  have hcu : TeristaNative.unhookBinder arch os (TeristaNative.uninstallAllHooks arch os w n).1
      (TeristaNative.uninstallAllHooks arch os w n).2 statics
      = BinderHook.uninstallHooks arch os (TeristaNative.uninstallAllHooks arch os w n).1
          (TeristaNative.uninstallAllHooks arch os w n).2 statics := by
    simp [TeristaNative.unhookBinder, hu]
  simp only [TeristaNative.cleanup, h, Bool.not_true, Bool.false_eq_true, if_false, hcu]
  refine ⟨trivial, trivial, trivial, ?_, ?_, ?_⟩
  · split <;> rfl
  · split <;> rfl
  · intro hj
    by_cases hc : (BinderHook.uninstallHooks arch os (TeristaNative.uninstallAllHooks arch os w n).1
          (TeristaNative.uninstallAllHooks arch os w n).2 statics).2.1.applicationContext = 0
    · simp [hc]
    · simp [hc, hj]

/-- C16, amended: after `cleanup` on an initialised coordinator, with any hooks and with or
without the interceptor installed, the coordinator is not initialised, its active-hooks list
is empty, the interceptor is marked not hooked, the environment pointer is null (and the host
reference with it), and every later `installHook` or `findSymbol` is rejected as not
initialised.  The library registry is not emptied: `cleanup` leaves it exactly as it was. -/
theorem cleanup_resets (arch : Arch) (os : OS) (w : World) (n : TeristaNative)
    (statics : BinderStatics) (h : n.initialized = true) :
    (TeristaNative.cleanup arch os w n statics).2.1.initialized = false ∧
    (TeristaNative.cleanup arch os w n statics).2.1.activeHooks = [] ∧
    (TeristaNative.cleanup arch os w n statics).2.1.binderHook.hooksInstalled = false ∧
    (TeristaNative.cleanup arch os w n statics).2.1.jniEnv = 0 ∧
    (n.jniEnv ≠ 0 → (TeristaNative.cleanup arch os w n statics).2.1.applicationContext = 0) ∧
    (TeristaNative.cleanup arch os w n statics).2.1.elfUtils = n.elfUtils ∧
    (∀ lk w₂ name R slot,
      TeristaNative.installHook arch os lk w₂ (TeristaNative.cleanup arch os w n statics).2.1
        name R slot
        = some { world := w₂, native := (TeristaNative.cleanup arch os w n statics).2.1,
                 ok := false, backup := slot }) ∧
    (∀ lk w₂ libname name,
      TeristaNative.findSymbol lk w₂ (TeristaNative.cleanup arch os w n statics).2.1 libname
        name = some (w₂, (TeristaNative.cleanup arch os w n statics).2.1, 0)) := by
  obtain ⟨c1, c2, c3, c4, c5, c6⟩ := cleanup_eq arch os w n statics h
  obtain ⟨b1, b2, -, -, -, b6, -⟩ := binder_uninstallHooks_frame arch os
    (TeristaNative.uninstallAllHooks arch os w n).1 (TeristaNative.uninstallAllHooks arch os w n).2
    statics
  have hj : (TeristaNative.uninstallAllHooks arch os w n).2.jniEnv = n.jniEnv := rfl
  have he : (TeristaNative.uninstallAllHooks arch os w n).2.elfUtils = n.elfUtils := rfl
  refine ⟨c1, c2, ?_, c3, ?_, ?_, ?_, ?_⟩
  · rw [c5]; exact b2
  · intro hne
    apply c6
    rw [b6, hj]
    exact hne
  · rw [c4, b1, he]
  · intro lk w₂ name R slot
    simp [TeristaNative.installHook, c1]
  · intro lk w₂ libname name
    simp [TeristaNative.findSymbol, c1]

/-- C16 as stated fails: in the sample session (initialise, hook the interceptor, hook `f`)
the registry holds the three system libraries; `cleanup` resets the coordinator but the
registry still holds the three records with their handles. -/
theorem cleanup_keeps_library_registry :
    sampleSession.map (fun p => p.2.1.activeHooks.map HookInfo.symbol)
      = some ["ioctl", "write", "read", "f"] ∧
    sampleSession.map (fun p => p.2.1.binderHook.hooksInstalled) = some true ∧
    sampleSession.map
      (fun p => (TeristaNative.cleanup .aarch64 sampleOS p.1 p.2.1 p.2.2).2.1.initialized)
      = some false ∧
    sampleSession.map
      (fun p => (TeristaNative.cleanup .aarch64 sampleOS p.1 p.2.1
        p.2.2).2.1.elfUtils.loadedLibraries)
      = some [sampleLibrary "libbinder.so" 0xb1,
          ("libc.so", some (ElfInfo.mk "libc.so" 0xb2 0
            [("f", 0x10000), ("ioctl", 0x11000), ("read", 0x13000), ("write", 0x12000)])),
          sampleLibrary "libdl.so" 0xb3] := by
  decide

/-- Instance of the amended C16: cleaning up the sample coordinator keeps its registry. -/
theorem cleanup_resets_witness :
    (TeristaNative.cleanup .aarch64 sampleOS sampleWorld sampleNative sampleStatics).2.1.elfUtils
      = sampleNative.elfUtils ∧
    (TeristaNative.cleanup .aarch64 sampleOS sampleWorld sampleNative
      sampleStatics).2.1.initialized = false :=
  ⟨(cleanup_resets .aarch64 sampleOS sampleWorld sampleNative sampleStatics rfl).2.2.2.2.2.1,
   (cleanup_resets .aarch64 sampleOS sampleWorld sampleNative sampleStatics rfl).1⟩

/-- C17: `initialize` on an already initialised coordinator returns true and changes nothing
(no library is opened, the host reference and the environment pointer stay, the call counter
does not move), and `cleanup` on a coordinator that is not initialised changes nothing. -/
theorem redundant_lifecycle_calls (arch : Arch) (os : OS) (lk : Linker) (fs : FileSys)
    (jni : Jni) (w : World) (n : TeristaNative) (statics : BinderStatics) (env context : Nat) :
    (n.initialized = true →
      TeristaNative.initialize lk fs jni w n env context
        = some { world := w, native := n, ok := true, nullDeref := false }) ∧
    (n.initialized = false → TeristaNative.cleanup arch os w n statics = (w, n, statics)) := by
  constructor
  · intro h
    simp [ TeristaNative.initialize, h]
  · intro h
    simp [TeristaNative.cleanup, h]

/-- Instance of C17: a second `initialize` of the sample coordinator and a `cleanup` of a
fresh one. -/
theorem redundant_lifecycle_calls_witness :
    TeristaNative.initialize sampleOpenLinker sampleFiles sampleJni sampleWorld sampleNative
        0xe1 0xc1
      = some { world := sampleWorld, native := sampleNative, ok := true, nullDeref := false } ∧
    TeristaNative.cleanup .aarch64 sampleOS sampleWorld TeristaNative.ctor sampleStatics
      = (sampleWorld, TeristaNative.ctor, sampleStatics) :=
  ⟨(redundant_lifecycle_calls .aarch64 sampleOS sampleOpenLinker sampleFiles sampleJni
      sampleWorld sampleNative sampleStatics 0xe1 0xc1).1 rfl,
   (redundant_lifecycle_calls .aarch64 sampleOS sampleOpenLinker sampleFiles sampleJni
      sampleWorld TeristaNative.ctor sampleStatics 0xe1 0xc1).2 rfl⟩

/-! ## Symbol lookup (C18, C19) -/

/-- A cached address of `ElfUtils::findSymbol` is returned again without asking the linker. -/
theorem findSymbol_hit_stable (lk : Linker) (w : World) (e : ElfUtils) (lib sym : String)
    (w₁ : World) (e₁ : ElfUtils) (a : Nat)
    (h : ElfUtils.findSymbol lk w e lib sym = some (w₁, e₁, a)) (ha : a ≠ 0)
    (lk₂ : Linker) (w₂ : World) :
    ElfUtils.findSymbol lk₂ w₂ e₁ lib sym = some (w₂, e₁, a) := by
  unfold ElfUtils.findSymbol at h
  cases hF : StdMap.findEntry e.loadedLibraries lib with
  | none => simp [hF] at h; exact absurd h.2.2.symm ha
  | some it =>
      have hkey := StdMap.findEntry_key _ _ _ hF
      obtain ⟨k, rec⟩ := it
      simp only at hkey
      subst hkey
      simp only [hF] at h
      cases rec with
      | none => simp at h
      | some info =>
          simp only at h
          cases hS : StdMap.findEntry info.symbols sym with
          | some symbolIt =>
              simp only [hS, Option.some.injEq, Prod.mk.injEq] at h
              obtain ⟨-, rfl, rfl⟩ := h
              simp [ElfUtils.findSymbol, hF, hS]
          | none =>
              simp only [hS] at h
              by_cases hd : (World.dlsym lk w info.baseAddress sym).2 = 0
              · simp [hd] at h
                exact absurd h.2.2.symm ha
              · simp only [hd, ne_eq, not_false_eq_true, if_true, Option.some.injEq,
                  Prod.mk.injEq] at h
                obtain ⟨-, rfl, rfl⟩ := h
                simp [ElfUtils.findSymbol, StdMap.findEntry_set_self]

/-- A cached address of the library-scoped `SymbolResolver::resolveSymbol` is returned again
without asking the linker. -/
theorem resolveSymbolIn_hit_stable (lk : Linker) (w : World) (r : SymbolResolver)
    (lib sym : String) (w₁ : World) (r₁ : SymbolResolver) (a : Nat)
    (h : SymbolResolver.resolveSymbolIn lk w r lib sym = (w₁, r₁, a)) (ha : a ≠ 0)
    (lk₂ : Linker) (w₂ : World) :
    SymbolResolver.resolveSymbolIn lk₂ w₂ r₁ lib sym = (w₂, r₁, a) := by
  unfold SymbolResolver.resolveSymbolIn at h
  cases hF : StdMap.findEntry r.symbolCache (lib ++ "::" ++ sym) with
  | some it =>
      simp only [hF, Prod.mk.injEq] at h
      obtain ⟨-, rfl, rfl⟩ := h
      simp [SymbolResolver.resolveSymbolIn, hF]
  | none =>
      simp only [hF] at h
      by_cases hd : (SymbolResolver.dlsymWrapper lk w lib sym).2 = 0
      · simp [hd] at h
        exact absurd h.2.2.symm ha
      · simp only [hd, ne_eq, not_false_eq_true, if_true, Prod.mk.injEq] at h
        obtain ⟨-, rfl, rfl⟩ := h
        simp [SymbolResolver.resolveSymbolIn, StdMap.findEntry_set_self]

/-- A lookup of `ElfUtils::findSymbol` that returns null leaves the registry as it was. -/
theorem findSymbol_miss_not_cached (lk : Linker) (w : World) (e : ElfUtils) (lib sym : String)
    (w₁ : World) (e₁ : ElfUtils) (h : ElfUtils.findSymbol lk w e lib sym = some (w₁, e₁, 0)) :
    e₁ = e := by
  unfold ElfUtils.findSymbol at h
  cases hF : StdMap.findEntry e.loadedLibraries lib with
  | none => simp [hF] at h; exact h.2.symm
  | some it =>
      obtain ⟨k, rec⟩ := it
      cases rec with
      | none => simp [hF] at h
      | some info =>
          simp only [hF] at h
          cases hS : StdMap.findEntry info.symbols sym with
          | some symbolIt => simp [hS] at h; exact h.2.1.symm
          | none =>
              simp only [hS] at h
              by_cases hd : (World.dlsym lk w info.baseAddress sym).2 = 0
              · simp [hd] at h; exact h.2.symm
              · simp [hd] at h

/-- A lookup of `ElfUtils::findSymbol` in a registered library with nothing cached for the
symbol returns the answer of `dlsym` on the library's handle at that moment. -/
theorem findSymbol_uncached_asks (lk : Linker) (w : World) (e : ElfUtils) (lib sym : String)
    (k : String) (info : ElfInfo)
    (hF : StdMap.findEntry e.loadedLibraries lib = some (k, some info))
    (hS : StdMap.findEntry info.symbols sym = none) :
    (ElfUtils.findSymbol lk w e lib sym).map (fun p => p.2.2)
      = some (lk.dlsym w.tick info.baseAddress sym) := by
  unfold ElfUtils.findSymbol
  simp only [hF, hS]
  by_cases hd : (World.dlsym lk w info.baseAddress sym).2 = 0
  · have hd' : lk.dlsym w.tick info.baseAddress sym = 0 := hd
    simp [hd, hd']
  · have hd' : ¬ lk.dlsym w.tick info.baseAddress sym = 0 := hd
    simp [World.dlsym, hd']

/-- A lookup of `SymbolResolver::resolveSymbol(library, name)` that returns null leaves the
resolver as it was. -/
theorem resolveSymbolIn_miss_not_cached (lk : Linker) (w : World) (r : SymbolResolver)
    (lib sym : String) (w₁ : World) (r₁ : SymbolResolver)
    (h : SymbolResolver.resolveSymbolIn lk w r lib sym = (w₁, r₁, 0)) : r₁ = r := by
  unfold SymbolResolver.resolveSymbolIn at h
  cases hF : StdMap.findEntry r.symbolCache (lib ++ "::" ++ sym) with
  | some it => simp [hF] at h; exact h.2.1.symm
  | none =>
      simp only [hF] at h
      by_cases hd : (SymbolResolver.dlsymWrapper lk w lib sym).2 = 0
      · simp [hd] at h; exact h.2.symm
      · simp [hd] at h

/-- A lookup of `SymbolResolver::resolveSymbol(library, name)` with nothing cached under its
key returns the answer of `dlopen` followed by `dlsym` at that moment. -/
theorem resolveSymbolIn_uncached_asks (lk : Linker) (w : World) (r : SymbolResolver)
    (lib sym : String)
    (hF : StdMap.findEntry r.symbolCache (lib ++ "::" ++ sym) = none) :
    (SymbolResolver.resolveSymbolIn lk w r lib sym).2.2
      = (SymbolResolver.dlsymWrapper lk w lib sym).2 := by
  unfold SymbolResolver.resolveSymbolIn
  simp only [hF]
  by_cases hd : (SymbolResolver.dlsymWrapper lk w lib sym).2 = 0
  · simp [hd]
  · simp [hd]

/-- C18, amended: a library-scoped lookup that returned a non-null address returns the same
address when repeated with identical arguments, whatever the dynamic linker would answer and
whenever the repetition happens, and it changes nothing; this holds for `ElfUtils::findSymbol`
and for `SymbolResolver::resolveSymbol(library, name)`.  A lookup that returned null stores
nothing: the registry, respectively the resolver, is what it was before; hence, when the
library is registered with a non-null record that caches nothing for the symbol, the next
`findSymbol` returns what `dlsym` on the library's handle answers then, and when the symbol
cache holds nothing under the key, the next `resolveSymbol` returns what `dlopen` followed by
`dlsym` answers then. -/
theorem scoped_lookup_hit_repeats (lk lk₂ : Linker) (w w₂ : World) (lib sym : String) :
    (∀ (e e₁ : ElfUtils) (w₁ : World) (a : Nat),
      ElfUtils.findSymbol lk w e lib sym = some (w₁, e₁, a) → a ≠ 0 →
      ElfUtils.findSymbol lk₂ w₂ e₁ lib sym = some (w₂, e₁, a)) ∧
    (∀ (r r₁ : SymbolResolver) (w₁ : World) (a : Nat),
      SymbolResolver.resolveSymbolIn lk w r lib sym = (w₁, r₁, a) → a ≠ 0 →
      SymbolResolver.resolveSymbolIn lk₂ w₂ r₁ lib sym = (w₂, r₁, a)) ∧
    (∀ (e e₁ : ElfUtils) (w₁ : World),
      ElfUtils.findSymbol lk w e lib sym = some (w₁, e₁, 0) →
      e₁ = e ∧
      ∀ (k : String) (info : ElfInfo),
        StdMap.findEntry e.loadedLibraries lib = some (k, some info) →
        StdMap.findEntry info.symbols sym = none →
        (ElfUtils.findSymbol lk₂ w₂ e₁ lib sym).map (fun p => p.2.2)
          = some (lk₂.dlsym w₂.tick info.baseAddress sym)) ∧
    (∀ (r r₁ : SymbolResolver) (w₁ : World),
      SymbolResolver.resolveSymbolIn lk w r lib sym = (w₁, r₁, 0) →
      r₁ = r ∧
      (StdMap.findEntry r.symbolCache (lib ++ "::" ++ sym) = none →
        (SymbolResolver.resolveSymbolIn lk₂ w₂ r₁ lib sym).2.2
          = (SymbolResolver.dlsymWrapper lk₂ w₂ lib sym).2)) := by
  refine ⟨fun e e₁ w₁ a h ha => findSymbol_hit_stable lk w e lib sym w₁ e₁ a h ha lk₂ w₂,
    fun r r₁ w₁ a h ha => resolveSymbolIn_hit_stable lk w r lib sym w₁ r₁ a h ha lk₂ w₂, ?_, ?_⟩
  · intro e e₁ w₁ h
    have he := findSymbol_miss_not_cached lk w e lib sym w₁ e₁ h
    subst he
    exact ⟨rfl, fun k info hF hS => findSymbol_uncached_asks lk₂ w₂ _ lib sym k info hF hS⟩
  · intro r r₁ w₁ h
    have hr := resolveSymbolIn_miss_not_cached lk w r lib sym w₁ r₁ h
    subst hr
    exact ⟨rfl, fun hF => resolveSymbolIn_uncached_asks lk₂ w₂ _ lib sym hF⟩

/-- C18 as stated fails: with a linker that cannot serve the first request but serves the
second, two consecutive lookups of `f` in the registered `libc.so` return null and then
`0x10000`, through `ElfUtils::findSymbol` and through `SymbolResolver::resolveSymbol`. -/
theorem scoped_lookup_miss_not_cached :
    (ElfUtils.findSymbol sampleLateLinker sampleWorld sampleNative.elfUtils "libc.so" "f").map
      (fun p => p.2.2) = some 0 ∧
    ((ElfUtils.findSymbol sampleLateLinker sampleWorld sampleNative.elfUtils "libc.so" "f").bind
      (fun p => ElfUtils.findSymbol sampleLateLinker p.1 p.2.1 "libc.so" "f")).map
        (fun p => p.2.2) = some 0x10000 ∧
    (SymbolResolver.resolveSymbolIn sampleLateLinker sampleWorld SymbolResolver.ctor "libc.so"
      "f").2.2 = 0 ∧
    (SymbolResolver.resolveSymbolIn sampleLateLinker
      (SymbolResolver.resolveSymbolIn sampleLateLinker sampleWorld SymbolResolver.ctor "libc.so"
        "f").1
      (SymbolResolver.resolveSymbolIn sampleLateLinker sampleWorld SymbolResolver.ctor "libc.so"
        "f").2.1 "libc.so" "f").2.2 = 0x10000 := by
  decide

/-- Instance of the amended C18: in the sample process `f` resolves to `0x10000` in
`libc.so`, and the repeated lookup, asked of a linker that would answer differently, returns
`0x10000` again; after a lookup that the late linker left unanswered, the next lookup through
either function returns the `0x10000` that this linker answers the second time. -/
theorem scoped_lookup_hit_repeats_witness :
    ElfUtils.findSymbol sampleLateLinker sampleWorld
      (StdMap.set sampleNative.elfUtils.loadedLibraries "libc.so"
        (some (ElfInfo.mk "libc.so" 0xb2 0 [("f", 0x10000)])) |> ElfUtils.mk) "libc.so" "f"
      = some (sampleWorld,
          (StdMap.set sampleNative.elfUtils.loadedLibraries "libc.so"
            (some (ElfInfo.mk "libc.so" 0xb2 0 [("f", 0x10000)])) |> ElfUtils.mk), 0x10000) ∧
    (ElfUtils.findSymbol sampleLateLinker (World.dlsym sampleLateLinker sampleWorld 0xb2 "f").1
      sampleNative.elfUtils "libc.so" "f").map (fun p => p.2.2) = some 0x10000 ∧
    (SymbolResolver.resolveSymbolIn sampleLateLinker
      (SymbolResolver.dlsymWrapper sampleLateLinker sampleWorld "libc.so" "f").1
      SymbolResolver.ctor "libc.so" "f").2.2 = 0x10000 :=
  ⟨(scoped_lookup_hit_repeats sampleLinker sampleLateLinker sampleWorld sampleWorld "libc.so"
      "f").1 sampleNative.elfUtils _ (World.dlsym sampleLinker sampleWorld 0xb2 "f").1 0x10000
      rfl (by decide),
   ((scoped_lookup_hit_repeats sampleLateLinker sampleLateLinker sampleWorld
      (World.dlsym sampleLateLinker sampleWorld 0xb2 "f").1 "libc.so" "f").2.2.1
      sampleNative.elfUtils sampleNative.elfUtils
      (World.dlsym sampleLateLinker sampleWorld 0xb2 "f").1 rfl).2 "libc.so"
      (ElfInfo.mk "libc.so" 0xb2 0 []) (by decide) (by decide),
   ((scoped_lookup_hit_repeats sampleLateLinker sampleLateLinker sampleWorld
      (SymbolResolver.dlsymWrapper sampleLateLinker sampleWorld "libc.so" "f").1 "libc.so"
      "f").2.2.2 SymbolResolver.ctor SymbolResolver.ctor
      (SymbolResolver.dlsymWrapper sampleLateLinker sampleWorld "libc.so" "f").1 rfl).2
      (by decide)⟩

theorem char_toNat_inj (a b : Char) (h : a.toNat = b.toNat) : a = b := by
  rw [← Char.ofNat_toNat a, ← Char.ofNat_toNat b, h]

theorem strLess_trans : ∀ (a b c : List Char), strLess a b = true → strLess b c = true →
    strLess a c = true
  | [], [], _, h, _ => by simp [strLess] at h
  | [], _ :: _, [], _, h => by simp [strLess] at h
  | [], _ :: _, _ :: _, _, _ => by simp [strLess]
  | _ :: _, [], _, h, _ => by simp [strLess] at h
  | _ :: _, _ :: _, [], _, h => by simp [strLess] at h
  | x :: xs, y :: ys, z :: zs, h1, h2 => by
      simp only [strLess] at h1 h2 ⊢
      by_cases hxy : x.toNat < y.toNat
      · by_cases hyz : y.toNat < z.toNat
        · rw [if_pos (by omega)]
        · rw [if_neg hyz] at h2
          by_cases hzy : z.toNat < y.toNat
          · simp [hzy] at h2
          · rw [if_pos (by omega)]
      · rw [if_neg hxy] at h1
        by_cases hyx : y.toNat < x.toNat
        · simp [hyx] at h1
        · rw [if_neg hyx] at h1
          by_cases hyz : y.toNat < z.toNat
          · rw [if_pos (by omega)]
          · rw [if_neg hyz] at h2
            by_cases hzy : z.toNat < y.toNat
            · simp [hzy] at h2
            · rw [if_neg hzy] at h2
              rw [if_neg (by omega), if_neg (by omega)]
              exact strLess_trans xs ys zs h1 h2

theorem strLess_total : ∀ (a b : List Char), strLess a b = false → a ≠ b →
    strLess b a = true
  | [], [], _, h => absurd rfl h
  | [], _ :: _, h, _ => by simp [strLess] at h
  | _ :: _, [], _, _ => by simp [strLess]
  | x :: xs, y :: ys, h1, h2 => by
      simp only [strLess] at h1 ⊢
      by_cases hxy : x.toNat < y.toNat
      · simp [hxy] at h1
      · rw [if_neg hxy] at h1
        by_cases hyx : y.toNat < x.toNat
        · rw [if_pos hyx]
        · rw [if_neg hyx] at h1
          rw [if_neg hyx, if_neg hxy]
          have hxeq : x = y := char_toNat_inj x y (by omega)
          subst hxeq
          exact strLess_total xs ys h1 (fun e => h2 (by rw [e]))

/-- Assignment through `operator[]` keeps a string-keyed map in ascending key order. -/
theorem StdMap.set_keySorted {ν : Type} (m : StdMap String ν) (k : String) (v : ν)
    (h : StdMap.KeySorted m) : StdMap.KeySorted (StdMap.set m k v) := by
  induction m with
  | nil => simp [StdMap.set, StdMap.KeySorted]
  | cons p rest ih =>
      obtain ⟨k', v'⟩ := p
      unfold StdMap.KeySorted at h ih ⊢
      obtain ⟨hhead, htail⟩ := List.pairwise_cons.mp h
      simp only [StdMap.set]
      by_cases hk : k = k'
      · rw [if_pos hk]
        subst hk
        exact List.pairwise_cons.mpr ⟨hhead, htail⟩
      · rw [if_neg hk]
        by_cases hl : KeyLess.less k k' = true
        · rw [if_pos hl]
          refine List.pairwise_cons.mpr ⟨?_, h⟩
          intro b hb
          rcases List.mem_cons.mp hb with rfl | hb
          · exact hl
          · exact strLess_trans _ _ _ hl (hhead b hb)
        · rw [if_neg hl]
          refine List.pairwise_cons.mpr ⟨?_, ih htail⟩
          intro b hb
          -- every key of `set rest k v` is `k` or a key of `rest`
          have hmem : ∀ (l : StdMap String ν), ∀ b ∈ StdMap.set l k v, b.1 = k ∨ b ∈ l := by
            intro l
            induction l with
            | nil => intro b hb; simp [StdMap.set] at hb; exact Or.inl (by rw [hb])
            | cons q l ihl =>
                obtain ⟨k₁, v₁⟩ := q
                intro b hb
                simp only [StdMap.set] at hb
                split at hb
                · rcases List.mem_cons.mp hb with rfl | hb
                  · exact Or.inl rfl
                  · exact Or.inr (List.mem_cons_of_mem _ hb)
                · split at hb
                  · rcases List.mem_cons.mp hb with rfl | hb
                    · exact Or.inl rfl
                    · exact Or.inr hb
                  · rcases List.mem_cons.mp hb with rfl | hb
                    · exact Or.inr (List.mem_cons_self _ _)
                    · rcases ihl b hb with h1 | h1
                      · exact Or.inl h1
                      · exact Or.inr (List.mem_cons_of_mem _ h1)
          rcases hmem rest b hb with h1 | h1
          · rw [h1]
            have hl' : strLess k.data k'.data = false := by
              simpa [KeyLess.less] using hl
            have hne : k.data ≠ k'.data := fun e => hk (String.ext e)
            exact strLess_total _ _ hl' hne
          · exact hhead b h1

theorem subscript_keySorted (e : ElfUtils) (path : String)
    (h : StdMap.KeySorted e.loadedLibraries) :
    StdMap.KeySorted (ElfUtils.subscript e path).1.loadedLibraries := by
  unfold ElfUtils.subscript
  split
  · exact h
  · exact StdMap.set_keySorted _ _ _ h

theorem parseElfHeader_keySorted (fs : FileSys) (w : World) (e : ElfUtils) (path : String)
    (h : StdMap.KeySorted e.loadedLibraries) :
    StdMap.KeySorted (ElfUtils.parseElfHeader fs w e path).elf.loadedLibraries := by
  unfold ElfUtils.parseElfHeader
  simp only []
  split
  · exact h
  · split
    · exact h
    · split
      · exact h
      · split
        · exact subscript_keySorted e path h
        · split
          · exact subscript_keySorted e path h
          · exact h

theorem loadLibrary_keySorted (lk : Linker) (fs : FileSys) (w : World) (e : ElfUtils)
    (path : String) (h : StdMap.KeySorted e.loadedLibraries) :
    StdMap.KeySorted (ElfUtils.loadLibrary lk fs w e path).elf.loadedLibraries := by
  unfold ElfUtils.loadLibrary
  simp only []
  split
  · exact h
  · split
    · exact h
    · exact StdMap.set_keySorted _ _ _ (parseElfHeader_keySorted fs _ e path h)

theorem loadAll_keySorted (lk : Linker) (fs : FileSys) (paths : List String) :
    ∀ (w : World) (e : ElfUtils), StdMap.KeySorted e.loadedLibraries →
      StdMap.KeySorted (ElfUtils.loadAll lk fs paths w e).2.loadedLibraries := by
  induction paths with
  | nil => intro w e h; exact h
  | cons p ps ih =>
      intro w e h
      simp only [ElfUtils.loadAll]
      exact ih _ _ (loadLibrary_keySorted lk fs w e p h)

/-- A library-scoped lookup that misses leaves the registry as it was. -/
theorem findSymbol_miss_keeps (lk : Linker) (w : World) (e : ElfUtils) (lib sym : String)
    (w₁ : World) (e₁ : ElfUtils) (h : ElfUtils.findSymbol lk w e lib sym = some (w₁, e₁, 0)) :
    e₁ = e := by
  unfold ElfUtils.findSymbol at h
  split at h
  · simp only [Option.some.injEq, Prod.mk.injEq] at h
    exact h.2.1.symm
  · split at h
    · simp at h
    · split at h
      · simp only [Option.some.injEq, Prod.mk.injEq] at h
        exact h.2.1.symm
      · simp only [] at h
        split at h
        · rename_i hd
          simp only [Option.some.injEq, Prod.mk.injEq] at h
          exact absurd h.2.2 hd
        · simp only [Option.some.injEq, Prod.mk.injEq] at h
          exact h.2.1.symm

theorem findSymbolInAll_loop_miss_keeps (lk : Linker) (sym : String) (names : List String) :
    ∀ (w : World) (e : ElfUtils) (w₁ : World) (e₁ : ElfUtils),
      ElfUtils.findSymbolInAll.loop lk sym names w e = some (w₁, e₁, 0) → e₁ = e := by
  induction names with
  | nil =>
      intro w e w₁ e₁ h
      simp only [ElfUtils.findSymbolInAll.loop, Option.some.injEq, Prod.mk.injEq] at h
      exact h.2.1.symm
  | cons name rest ih =>
      intro w e w₁ e₁ h
      simp only [ElfUtils.findSymbolInAll.loop] at h
      cases hf : ElfUtils.findSymbol lk w e name sym with
      | none => simp [hf] at h
      | some r =>
          obtain ⟨rw, re, ra⟩ := r
          simp only [hf] at h
          by_cases ha : ra = 0
          · subst ha
            simp only [ne_eq, not_true_eq_false, if_false] at h
            rw [ih _ _ _ _ h]
            exact findSymbol_miss_keeps lk w e name sym rw re hf
          · simp only [ne_eq, ha, not_false_eq_true, if_true, Option.some.injEq,
              Prod.mk.injEq] at h
            exact h.2.2.elim

/-- The loop of `findSymbolInAll` over a concatenation: the first part runs first, and the
second part runs only when the first ended without a hit. -/
theorem findSymbolInAll_loop_append (lk : Linker) (sym : String) (pre post : List String) :
    ∀ (w : World) (e : ElfUtils),
      ElfUtils.findSymbolInAll.loop lk sym (pre ++ post) w e =
        match ElfUtils.findSymbolInAll.loop lk sym pre w e with
        | none => none
        | some r =>
            if r.2.2 ≠ 0 then some r else ElfUtils.findSymbolInAll.loop lk sym post r.1 r.2.1 := by
  induction pre with
  | nil => intro w e; simp [ElfUtils.findSymbolInAll.loop]
  | cons name rest ih =>
      intro w e
      simp only [List.cons_append, ElfUtils.findSymbolInAll.loop]
      cases hf : ElfUtils.findSymbol lk w e name sym with
      | none => rfl
      | some r =>
          simp only []
          by_cases ha : r.2.2 = 0
          · simp only [ha, ne_eq, not_true_eq_false, if_false]
            exact ih _ _
          · simp [ha]

/-- C19, amended: `findSymbolInAll(name)` tries the registered libraries in the registry's key
order, which is the ascending lexicographic order of their paths whatever the order in which
they were opened, and returns the address of the first library whose library-scoped lookup
succeeds (the lookups before it missed and left the registry unchanged, the libraries after
it are not asked).  It uses the linker's global-default lookup only when every registered
library missed, and returns null only when that also misses. -/
theorem findSymbolInAll_key_order (lk : Linker) (w : World) (e : ElfUtils) (sym : String) :
    (∀ before k after w₁ e₁ w₂ e₂ a,
      e.loadedLibraries.map Prod.fst = before ++ k :: after →
      ElfUtils.findSymbolInAll.loop lk sym before w e = some (w₁, e₁, 0) →
      ElfUtils.findSymbol lk w₁ e₁ k sym = some (w₂, e₂, a) → a ≠ 0 →
      e₁ = e ∧ ElfUtils.findSymbolInAll lk w e sym = some (w₂, e₂, a)) ∧
    (∀ w₁ e₁,
      ElfUtils.findSymbolInAll.loop lk sym (e.loadedLibraries.map Prod.fst) w e
        = some (w₁, e₁, 0) →
      e₁ = e ∧ ElfUtils.findSymbolInAll lk w e sym
        = some (World.advance w₁, e, lk.dlsymDefault w₁.tick sym)) ∧
    (∀ w₂ e₂, ElfUtils.findSymbolInAll lk w e sym = some (w₂, e₂, 0) →
      ∃ w₁, ElfUtils.findSymbolInAll.loop lk sym (e.loadedLibraries.map Prod.fst) w e
          = some (w₁, e, 0) ∧ lk.dlsymDefault w₁.tick sym = 0) ∧
    (∀ fs paths w₀,
      StdMap.KeySorted (ElfUtils.loadAll lk fs paths w₀ ElfUtils.ctor).2.loadedLibraries) := by
  refine ⟨?_, ?_, ?_, ?_⟩
  · intro before k after w₁ e₁ w₂ e₂ a hnames hpre hfind ha
    have he := findSymbolInAll_loop_miss_keeps lk sym before w e w₁ e₁ hpre
    refine ⟨he, ?_⟩
    unfold ElfUtils.findSymbolInAll
    rw [hnames, findSymbolInAll_loop_append, hpre]
    simp only [ne_eq, not_true_eq_false, if_false, ElfUtils.findSymbolInAll.loop, hfind, ha,
      not_false_eq_true, if_true]
  · intro w₁ e₁ hloop
    have he := findSymbolInAll_loop_miss_keeps lk sym _ w e w₁ e₁ hloop
    subst he
    refine ⟨rfl, ?_⟩
    unfold ElfUtils.findSymbolInAll
    rw [hloop]
    simp only [ne_eq, not_true_eq_false, if_false, World.dlsymDefault, World.advance]
    split <;> simp_all
  · intro w₂ e₂ h
    unfold ElfUtils.findSymbolInAll at h
    cases hl : ElfUtils.findSymbolInAll.loop lk sym (e.loadedLibraries.map Prod.fst) w e with
    | none => simp [hl] at h
    | some r =>
        obtain ⟨rw, re, ra⟩ := r
        simp only [hl] at h
        by_cases ha : ra = 0
        · subst ha
          have he := findSymbolInAll_loop_miss_keeps lk sym _ w e rw re hl
          subst he
          refine ⟨rw, rfl, ?_⟩
          simp only [ne_eq, not_true_eq_false, if_false, World.dlsymDefault] at h
          by_cases hd : lk.dlsymDefault rw.tick sym = 0
          · exact hd
          · simp [hd] at h
        · simp only [ne_eq, ha, not_false_eq_true, if_true, Option.some.injEq,
            Prod.mk.injEq] at h
          exact h.2.2.elim
  · intro fs paths w₀
    exact loadAll_keySorted lk fs paths w₀ ElfUtils.ctor (by simp [ElfUtils.ctor, StdMap.KeySorted])

/-- C19 as stated fails: `libz.so` is opened first and `liba.so` second, and both define
`sym`; the library-scoped lookup in the first registered library would give `0x6000`, but the
registry is kept by path, so `findSymbolInAll` asks `liba.so` first and returns `0x5000`. -/
theorem findSymbolInAll_not_registration_order :
    (ElfUtils.loadAll sampleTwoLibLinker sampleFiles ["libz.so", "liba.so"] sampleWorld
      ElfUtils.ctor).2.loadedLibraries.map Prod.fst = ["liba.so", "libz.so"] ∧
    (ElfUtils.findSymbol sampleTwoLibLinker
      (ElfUtils.loadAll sampleTwoLibLinker sampleFiles ["libz.so", "liba.so"] sampleWorld
        ElfUtils.ctor).1
      (ElfUtils.loadAll sampleTwoLibLinker sampleFiles ["libz.so", "liba.so"] sampleWorld
        ElfUtils.ctor).2 "libz.so" "sym").map (fun p => p.2.2) = some 0x6000 ∧
    (ElfUtils.findSymbolInAll sampleTwoLibLinker
      (ElfUtils.loadAll sampleTwoLibLinker sampleFiles ["libz.so", "liba.so"] sampleWorld
        ElfUtils.ctor).1
      (ElfUtils.loadAll sampleTwoLibLinker sampleFiles ["libz.so", "liba.so"] sampleWorld
        ElfUtils.ctor).2 "sym").map (fun p => p.2.2) = some 0x5000 := by
  decide

/-- Instance of the amended C19 on the sample coordinator's registry: `f` misses in
`libbinder.so` and is found in `libc.so`, so `findSymbolInAll` returns that address and does
not ask `libdl.so`. -/
theorem findSymbolInAll_key_order_witness :
    (ElfUtils.findSymbolInAll sampleLinker sampleWorld sampleNative.elfUtils "f").map
      (fun p => p.2.2) = some 0x10000 :=
  congrArg (Option.map (fun p => p.2.2))
    ((findSymbolInAll_key_order sampleLinker sampleWorld sampleNative.elfUtils "f").1
      ["libbinder.so"] "libc.so" ["libdl.so"] (World.advance sampleWorld) sampleNative.elfUtils
      (World.advance (World.advance sampleWorld))
      (ElfUtils.mk (StdMap.set sampleNative.elfUtils.loadedLibraries "libc.so"
        (some (ElfInfo.mk "libc.so" 0xb2 0 [("f", 0x10000)]))))
      0x10000 rfl rfl rfl (by decide)).2

/-! ## Transaction parsing (C20) -/

/-- Reading `n` bytes at offset `k` of a buffer that holds them is taking that slice. -/
theorem range_map_getD_eq_slice (buf : List Nat) (k n : Nat) (h : k + n ≤ buf.length) :
    (List.range n).map (fun j => buf.getD (k + j) 0) = (buf.drop k).take n := by
  apply List.ext_getElem
  · simp; omega
  · intro i h1 h2
    have hi : i < n := by simpa using h1
    simp [List.getD_eq_getElem?_getD, List.getElem_take, List.getElem_drop,
      List.getElem?_eq_getElem (show k + i < buf.length by omega)]

/-- C20: `parseBinderTransaction` fails exactly when the buffer is null or `size` is less than
8, and then leaves the output transaction untouched; otherwise it succeeds with `code` the
first little-endian 32-bit word, `flags` the second, `target` the result of `getServiceName`
on the same buffer and size, `data` a copy of all `size` bytes of the buffer, and `reply`
untouched. -/
theorem parseBinderTransaction_spec (data : Option (List Nat)) (size : Nat)
    (t : BinderTransaction) :
    ((BinderHook.parseBinderTransaction data size t).1 = false ↔ (data = none ∨ size < 8)) ∧
    ((BinderHook.parseBinderTransaction data size t).1 = false →
      (BinderHook.parseBinderTransaction data size t).2 = t) ∧
    (∀ buf, data = some buf → 8 ≤ size → size ≤ buf.length →
      (BinderHook.parseBinderTransaction data size t).1 = true ∧
      (BinderHook.parseBinderTransaction data size t).2.code = fromLE (buf.take 4) ∧
      (BinderHook.parseBinderTransaction data size t).2.flags = fromLE ((buf.drop 4).take 4) ∧
      (BinderHook.parseBinderTransaction data size t).2.target
        = BinderHook.getServiceName data size ∧
      (BinderHook.parseBinderTransaction data size t).2.data = buf.take size ∧
      (BinderHook.parseBinderTransaction data size t).2.reply = t.reply) := by
  refine ⟨?_, ?_, ?_⟩
  · cases data with
    | none => simp [BinderHook.parseBinderTransaction]
    | some buf =>
        by_cases hs : size < 8
        · simp [BinderHook.parseBinderTransaction, hs]
        · simp [BinderHook.parseBinderTransaction, hs]
  · intro h
    cases data with
    | none => simp [BinderHook.parseBinderTransaction]
    | some buf =>
        by_cases hs : size < 8
        · simp [BinderHook.parseBinderTransaction, hs]
        · simp [BinderHook.parseBinderTransaction, hs] at h
  · intro buf hd h8 hlen
    subst hd
    have hs : ¬ size < 8 := by omega
    have hc := range_map_getD_eq_slice buf 0 4 (by omega)
    have hf := range_map_getD_eq_slice buf 4 4 (by omega)
    have hdata := range_map_getD_eq_slice buf 0 size (by omega)
    simp only [Nat.zero_add, List.drop_zero] at hc hdata
    refine ⟨?_, ?_, ?_, ?_, ?_, ?_⟩
    · simp [BinderHook.parseBinderTransaction, hs]
    · simp only [BinderHook.parseBinderTransaction, Nat.reduceMul, hs, if_false, Nat.mul_zero,
        Nat.zero_add]
      rw [hc]
    · simp only [BinderHook.parseBinderTransaction, Nat.reduceMul, hs, if_false, Nat.mul_one]
      rw [hf]
    · simp [BinderHook.parseBinderTransaction, hs]
    · simp only [BinderHook.parseBinderTransaction, Nat.reduceMul, hs, if_false]
      rw [hdata]
    · simp [BinderHook.parseBinderTransaction, hs]

/-- Instance of C20: the sample sixteen-byte buffer parses to opcode 1, flags 0, target
"isms" and a copy of the sixteen bytes. -/
theorem parseBinderTransaction_spec_witness :
    (BinderHook.parseBinderTransaction (some sampleBlockedBuffer) 16
      (BinderTransaction.mk 9 9 "x" [] [7])).1 = true ∧
    (BinderHook.parseBinderTransaction (some sampleBlockedBuffer) 16
      (BinderTransaction.mk 9 9 "x" [] [7])).2.code = fromLE (sampleBlockedBuffer.take 4) ∧
    (BinderHook.parseBinderTransaction (some sampleBlockedBuffer) 16
      (BinderTransaction.mk 9 9 "x" [] [7])).2.flags
      = fromLE ((sampleBlockedBuffer.drop 4).take 4) ∧
    (BinderHook.parseBinderTransaction (some sampleBlockedBuffer) 16
      (BinderTransaction.mk 9 9 "x" [] [7])).2.target
      = BinderHook.getServiceName (some sampleBlockedBuffer) 16 ∧
    (BinderHook.parseBinderTransaction (some sampleBlockedBuffer) 16
      (BinderTransaction.mk 9 9 "x" [] [7])).2.data = sampleBlockedBuffer.take 16 ∧
    (BinderHook.parseBinderTransaction (some sampleBlockedBuffer) 16
      (BinderTransaction.mk 9 9 "x" [] [7])).2.reply = [7] :=
  (parseBinderTransaction_spec (some sampleBlockedBuffer) 16
    (BinderTransaction.mk 9 9 "x" [] [7])).2.2 sampleBlockedBuffer rfl (by decide) (by decide)

/-! ## The service-name scan (C21) -/

theorem runLength_run (str : Nat → Nat) (size i : Nat) : ∀ fuel len,
    (∀ k, k < len → i + k < size ∧ isNameByte (str (i + k)) = true) →
    ∀ k, k < getServiceName.runLength str size i fuel len →
      i + k < size ∧ isNameByte (str (i + k)) = true := by
  intro fuel
  induction fuel with
  | zero => intro len h k hk; exact h k (by simpa [getServiceName.runLength] using hk)
  | succ fuel ih =>
      intro len h k hk
      simp only [getServiceName.runLength] at hk
      split at hk
      · next hc =>
          apply ih (len + 1) _ k hk
          intro k' hk'
          by_cases e : k' = len
          · subst e; exact hc
          · exact h k' (by omega)
      · exact h k hk

theorem runLength_stop (str : Nat → Nat) (size i : Nat) : ∀ fuel len, size ≤ i + len + fuel →
    i + getServiceName.runLength str size i fuel len < size →
    isNameByte (str (i + getServiceName.runLength str size i fuel len)) = false := by
  intro fuel
  induction fuel with
  | zero =>
      intro len h hlt
      simp only [getServiceName.runLength] at hlt
      omega
  | succ fuel ih =>
      intro len h hlt
      simp only [getServiceName.runLength] at hlt ⊢
      split
      · next hc =>
          rw [if_pos hc] at hlt
          exact ih (len + 1) (by omega) hlt
      · next hc =>
          rw [if_neg hc] at hlt
          simp only [not_and, Bool.not_eq_true] at hc
          exact hc hlt

theorem runLength_isRunAt (str : Nat → Nat) (size i : Nat) (h : i ≤ size) :
    IsRunAt str size i (getServiceName.runLength str size i size 0) := by
  have hrun := runLength_run str size i size 0 (by intro k hk; omega)
  refine ⟨?_, fun k hk => (hrun k hk).2, runLength_stop str size i size 0 (by omega)⟩
  by_cases h0 : getServiceName.runLength str size i size 0 = 0
  · omega
  · have := (hrun (getServiceName.runLength str size i size 0 - 1) (by omega)).1
    omega

theorem isRunAt_unique {str : Nat → Nat} {size i l1 l2 : Nat} (h1 : IsRunAt str size i l1)
    (h2 : IsRunAt str size i l2) : l1 = l2 := by
  obtain ⟨a1, b1, c1⟩ := h1
  obtain ⟨a2, b2, c2⟩ := h2
  rcases Nat.lt_trichotomy l1 l2 with h | h | h
  · have := c1 (by omega)
    rw [b2 l1 h] at this
    cases this
  · exact h
  · have := c2 (by omega)
    rw [b1 l2 h] at this
    cases this

theorem scan_result (str : Nat → Nat) (size : Nat) : ∀ fuel i0,
    getServiceName.scan str size fuel i0 = "" ∨
    ∃ i len, IsCandidate str size i len ∧
      getServiceName.scan str size fuel i0
        = String.mk ((List.range len).map (fun k => Char.ofNat (str (i + k)))) := by
  intro fuel
  induction fuel with
  | zero => intro i0; left; rfl
  | succ fuel ih =>
      intro i0
      simp only [getServiceName.scan]
      split
      · next hi =>
          split
          · next hl =>
              split
              · next h3 =>
                  right
                  exact ⟨i0, _, ⟨hi, hl.1, hl.2, runLength_isRunAt str size i0 (by omega), h3⟩, rfl⟩
              · exact ih (i0 + 1)
          · exact ih (i0 + 1)
      · left; rfl

theorem scan_first (str : Nat → Nat) (size : Nat) : ∀ fuel i0 i len, i0 ≤ i → i < i0 + fuel →
    IsCandidate str size i len →
    (∀ j l, i0 ≤ j → j < i → ¬ IsCandidate str size j l) →
    getServiceName.scan str size fuel i0
      = String.mk ((List.range len).map (fun k => Char.ofNat (str (i + k)))) := by
  intro fuel
  induction fuel with
  | zero => intro i0 i len h1 h2; omega
  | succ fuel ih =>
      intro i0 i len h1 h2 hc hfirst
      have hi0 : i0 < size - 4 := lt_of_le_of_lt h1 hc.1
      have hrun := runLength_isRunAt str size i0 (by omega)
      simp only [getServiceName.scan, if_pos hi0]
      by_cases e : i = i0
      · subst e
        have hl := isRunAt_unique hrun hc.2.2.2.1
        rw [if_pos ⟨hc.2.1, hc.2.2.1⟩, hl, if_pos hc.2.2.2.2]
      · have hrec := ih (i0 + 1) i len (by omega) (by omega) hc
          (fun j l hj hji => hfirst j l (by omega) hji)
        split
        · next hl =>
            split
            · next h3 => exact absurd ⟨hi0, hl.1, hl.2, hrun, h3⟩ (hfirst i0 _ (le_refl _) (by omega))
            · exact hrec
        · exact hrec

theorem scan_none (str : Nat → Nat) (size : Nat) : ∀ fuel i0,
    (∀ j l, i0 ≤ j → ¬ IsCandidate str size j l) → getServiceName.scan str size fuel i0 = "" := by
  intro fuel
  induction fuel with
  | zero => intro i0 _; rfl
  | succ fuel ih =>
      intro i0 h
      have hrec := ih (i0 + 1) (fun j l hj => h j l (by omega))
      simp only [getServiceName.scan]
      split
      · next hi0 =>
          split
          · next hl =>
              split
              · next h3 =>
                  exact absurd ⟨hi0, hl.1, hl.2, runLength_isRunAt str size i0 (by omega), h3⟩
                    (h i0 _ (le_refl _))
              · exact hrec
          · exact hrec
      · rfl

theorem runReads_spec (str : Nat → Nat) (size i : Nat) : ∀ fuel len reads,
    size ≤ i + len + fuel → (∀ r ∈ reads, r < size) →
    ∃ rs, getServiceName.runReads str size i (fuel + 1) len reads
        = some (getServiceName.runLength str size i fuel len, rs) ∧ ∀ r ∈ rs, r < size := by
  intro fuel
  induction fuel with
  | zero =>
      intro len reads h hr
      have hn : ¬ i + len < size := by omega
      exact ⟨reads, by simp [getServiceName.runReads, getServiceName.runLength, hn], hr⟩
  | succ fuel ih =>
      intro len reads h hr
      by_cases hlt : i + len < size
      · have hr' : ∀ r ∈ reads ++ [i + len], r < size := by
          intro r hm
          rcases List.mem_append.mp hm with hm | hm
          · exact hr r hm
          · simp at hm; omega
        by_cases hb : isNameByte (str (i + len)) = true
        · obtain ⟨rs, e, hrs⟩ := ih (len + 1) (reads ++ [i + len]) (by omega) hr'
          refine ⟨rs, ?_, hrs⟩
          rw [getServiceName.runReads, if_pos hlt, if_pos hb, e, getServiceName.runLength,
            if_pos ⟨hlt, hb⟩]
        · refine ⟨reads ++ [i + len], ?_, hr'⟩
          rw [getServiceName.runReads, if_pos hlt, if_neg hb, getServiceName.runLength,
            if_neg (fun hc => hb hc.2)]
      · refine ⟨reads, ?_, hr⟩
        rw [getServiceName.runReads, if_neg hlt, getServiceName.runLength,
          if_neg (fun hc => hlt hc.1)]

theorem scanReads_spec (str : Nat → Nat) (size : Nat) : ∀ fuel i reads,
    size - 4 ≤ i + fuel → (∀ r ∈ reads, r < size) →
    ∃ rs, getServiceName.scanReads str size (fuel + 1) i reads
        = some (getServiceName.scan str size (fuel + 1) i, rs) ∧ ∀ r ∈ rs, r < size := by
  intro fuel
  induction fuel with
  | zero =>
      intro i reads h hr
      have hn : ¬ i < size - 4 := by omega
      exact ⟨reads, by simp [getServiceName.scanReads, getServiceName.scan, hn], hr⟩
  | succ fuel ih =>
      intro i reads h hr
      by_cases hlt : i < size - 4
      · have hr1 : ∀ r ∈ reads ++ [i], r < size := by
          intro r hm
          rcases List.mem_append.mp hm with hm | hm
          · exact hr r hm
          · simp at hm; omega
        have hr2 : ∀ r ∈ reads ++ [i, i + 1], r < size := by
          intro r hm
          rcases List.mem_append.mp hm with hm | hm
          · exact hr r hm
          · simp at hm; omega
        by_cases ha : isLowerByte (str i) = true
        · by_cases hb : isLowerByte (str (i + 1)) = true
          · obtain ⟨rs, e, hrs⟩ := runReads_spec str size i size 0 (reads ++ [i, i + 1])
              (by omega) hr2
            by_cases h3 : getServiceName.runLength str size i size 0 > 3
            · refine ⟨rs, ?_, hrs⟩
              rw [getServiceName.scanReads, if_pos hlt, if_pos ha, if_pos hb, e,
                getServiceName.scan, if_pos hlt, if_pos ⟨ha, hb⟩]
              simp only [if_pos h3]
            · obtain ⟨rs', e', hrs'⟩ := ih (i + 1) rs (by omega) hrs
              refine ⟨rs', ?_, hrs'⟩
              rw [getServiceName.scanReads, if_pos hlt, if_pos ha, if_pos hb, e,
                getServiceName.scan, if_pos hlt, if_pos ⟨ha, hb⟩]
              simp only [if_neg h3]
              exact e'
          · obtain ⟨rs', e', hrs'⟩ := ih (i + 1) (reads ++ [i, i + 1]) (by omega) hr2
            refine ⟨rs', ?_, hrs'⟩
            have hs : getServiceName.scan str size (fuel + 1 + 1) i
                = getServiceName.scan str size (fuel + 1) (i + 1) := by
              rw [getServiceName.scan, if_pos hlt, if_neg (fun hc => hb hc.2)]
            rw [getServiceName.scanReads, if_pos hlt, if_pos ha, if_neg hb, hs, e']
        · obtain ⟨rs', e', hrs'⟩ := ih (i + 1) (reads ++ [i]) (by omega) hr1
          refine ⟨rs', ?_, hrs'⟩
          have hs : getServiceName.scan str size (fuel + 1 + 1) i
              = getServiceName.scan str size (fuel + 1) (i + 1) := by
            rw [getServiceName.scan, if_pos hlt, if_neg (fun hc => ha hc.1)]
          rw [getServiceName.scanReads, if_pos hlt, if_neg ha, hs, e']
      · refine ⟨reads, ?_, hr⟩
        rw [getServiceName.scanReads, if_neg hlt, getServiceName.scan, if_neg hlt]

theorem candidate_least (str : Nat → Nat) (size : Nat)
    (h : ∃ j l, IsCandidate str size j l) :
    ∃ i len, IsCandidate str size i len ∧ ∀ j l, j < i → ¬ IsCandidate str size j l := by
  classical
  have hex : ∃ j, ∃ l, IsCandidate str size j l := h
  obtain ⟨len, hlen⟩ := Nat.find_spec hex
  refine ⟨Nat.find hex, len, hlen, ?_⟩
  intro j l hj hc
  exact Nat.find_min hex hj ⟨l, hc⟩

theorem string_mk_ne_empty (l : List Char) (h : 0 < l.length) : String.mk l ≠ "" := by
  intro e
  have := congrArg String.length e
  simp at this
  simp [this] at h

/-- C21, amended: for every non-null buffer of at least sixteen bytes `getServiceName` scans
from byte 0 and returns the run of name characters at the first start index `i < size - 4`
whose bytes `i` and `i + 1` are lowercase letters and whose run of characters from
`[A-Za-z0-9._]`, taken as far as it goes inside the buffer, is longer than 3; the result is
empty exactly when no start index qualifies. -/
theorem getServiceName_first_candidate (buf : List Nat) (size : Nat) (h16 : 16 ≤ size) :
    (∀ i len, IsCandidate (fun k => buf.getD k 0) size i len →
      (∀ j l, j < i → ¬ IsCandidate (fun k => buf.getD k 0) size j l) →
      BinderHook.getServiceName (some buf) size
        = String.mk ((List.range len).map (fun k => Char.ofNat (buf.getD (i + k) 0)))) ∧
    (BinderHook.getServiceName (some buf) size = "" ↔
      ∀ j l, ¬ IsCandidate (fun k => buf.getD k 0) size j l) := by
  have hs : ¬ size < 16 := by omega
  have hfirst : ∀ i len, IsCandidate (fun k => buf.getD k 0) size i len →
      (∀ j l, j < i → ¬ IsCandidate (fun k => buf.getD k 0) size j l) →
      BinderHook.getServiceName (some buf) size
        = String.mk ((List.range len).map (fun k => Char.ofNat (buf.getD (i + k) 0))) := by
    intro i len hc hmin
    simp only [BinderHook.getServiceName, if_neg hs]
    exact scan_first _ size size 0 i len (Nat.zero_le _)
      (by have := hc.1; omega) hc (fun j l _ hj => hmin j l hj)
  refine ⟨hfirst, ?_, ?_⟩
  · intro he j l hc
    obtain ⟨i, len, hi, hmin⟩ := candidate_least _ size ⟨j, l, hc⟩
    have := hfirst i len hi hmin
    rw [he] at this
    exact string_mk_ne_empty _ (by simp; have := hi.2.2.2.2; omega) this.symm
  · intro hnone
    simp only [BinderHook.getServiceName, if_neg hs]
    exact scan_none _ size size 0 (fun j l _ => hnone j l)

/-- Instance of C21 (amended): in the sample buffer the first qualifying start index is 0
and the name returned is "abcd". -/
theorem getServiceName_first_candidate_witness :
    BinderHook.getServiceName (some sampleTwoRuns) 16 = "abcd" :=
  (getServiceName_first_candidate sampleTwoRuns 16 (by decide)).1 0 4 (by decide)
    (fun j _ hj => absurd hj (Nat.not_lt_zero j))

/-- Counterexample to C21 as stated: with "abcd" at offset 0 and "efghijk" at offset 8 the
name returned is "abcd", which lies inside the first 8 bytes and is shorter than the run at
offset 8; a four-letter run in the last four bytes, and the run "a.bcd" whose second
character is not a lowercase letter, are runs in the sense of the specification, yet the
name returned is empty. -/
theorem getServiceName_not_longest_run :
    (BinderHook.getServiceName (some sampleTwoRuns) 16 = "abcd" ∧
      isSpecServiceRun sampleTwoRuns 16 8 7 = true) ∧
    (BinderHook.getServiceName (some sampleLateRun) 16 = "" ∧
      isSpecServiceRun sampleLateRun 16 12 4 = true) ∧
    (BinderHook.getServiceName (some sampleDottedRun) 16 = "" ∧
      isSpecServiceRun sampleDottedRun 16 8 5 = true) := by
  decide

/-! ## The control-call replacement (C22) -/

/-- C22: for every descriptor, request code and argument, `hooked_ioctl` with a captured
original invokes that original exactly once, with the same three arguments, and returns its
result, whether or not the request is the read-write code (which only selects a debug
branch); with no captured original it invokes nothing and returns -1. -/
theorem hooked_ioctl_passes_through (sizeofBwr : Nat) (exec : Nat → Int → Nat → Nat → Int)
    (statics : BinderStatics) (fd : Int) (request arg : Nat) :
    (statics.original_ioctl ≠ 0 →
      (BinderHook.hooked_ioctl sizeofBwr exec statics fd request arg).ret
        = exec statics.original_ioctl fd request arg ∧
      (BinderHook.hooked_ioctl sizeofBwr exec statics fd request arg).calls
        = [{ callee := statics.original_ioctl, fd := fd, request := request, arg := arg }]) ∧
    (statics.original_ioctl = 0 →
      (BinderHook.hooked_ioctl sizeofBwr exec statics fd request arg).ret = -1 ∧
      (BinderHook.hooked_ioctl sizeofBwr exec statics fd request arg).calls = []) := by
  constructor
  · intro h
    simp [BinderHook.hooked_ioctl, h]
  · intro h
    simp [BinderHook.hooked_ioctl, h]

/-- Instance of C22: with the original captured at `0x7000000` the read-write request
`0xc0306201` on descriptor 3 is forwarded once, unchanged, and the result 1 of the original
is returned; with no original captured a terminal request returns -1 and calls nothing. -/
theorem hooked_ioctl_passes_through_witness :
    ((BinderHook.hooked_ioctl 48 sampleIoctlExec (BinderStatics.mk 0x7000000 0 0) 3
        (BINDER_WRITE_READ 48) 0x5000).ret = 1 ∧
      (BinderHook.hooked_ioctl 48 sampleIoctlExec (BinderStatics.mk 0x7000000 0 0) 3
        (BINDER_WRITE_READ 48) 0x5000).calls
        = [{ callee := 0x7000000, fd := 3, request := 0xc0306201, arg := 0x5000 }]) ∧
    ((BinderHook.hooked_ioctl 48 sampleIoctlExec (BinderStatics.mk 0 0 0) 3 0x5401 0).ret = -1 ∧
      (BinderHook.hooked_ioctl 48 sampleIoctlExec (BinderStatics.mk 0 0 0) 3 0x5401 0).calls = []) :=
  ⟨(hooked_ioctl_passes_through 48 sampleIoctlExec (BinderStatics.mk 0x7000000 0 0) 3
      (BINDER_WRITE_READ 48) 0x5000).1 (by decide),
   (hooked_ioctl_passes_through 48 sampleIoctlExec (BinderStatics.mk 0 0 0) 3 0x5401 0).2
      (by decide)⟩

/-! ## Execute permission during install and uninstall (C23) -/

theorem execSteps_refl (A : Nat) (w : World) : ExecSteps A w w :=
  ⟨[], by simp, by simp, rfl⟩

theorem execSteps_same {A : Nat} {w0 w w' : World} (h : ExecSteps A w0 w)
    (hl : w'.log = w.log) (hp : w'.prot = w.prot) : ExecSteps A w0 w' := by
  obtain ⟨new, h1, h2, h3⟩ := h
  exact ⟨new, by rw [hl, h1], h2, by rw [hp, h3]⟩

theorem execSteps_snoc {A : Nat} {w0 w w' : World} (c : SysCall) (h : ExecSteps A w0 w)
    (hc : SysCall.keepsExec A c) (hl : w'.log = w.log ++ [c])
    (hp : w'.prot = SysCall.applyProt w.prot c) : ExecSteps A w0 w' := by
  obtain ⟨new, h1, h2, h3⟩ := h
  refine ⟨new ++ [c], by rw [hl, h1, List.append_assoc], ?_, ?_⟩
  · intro c' hc'
    rcases List.mem_append.mp hc' with h | h
    · exact h2 c' h
    · simp at h; subst h; exact hc
  · rw [hp, h3, List.foldl_append]
    rfl

theorem execSteps_makeMemoryWritable (arch : Arch) (os : OS) {w0 w : World} (t s : Nat)
    (h : ExecSteps (pageAddrOf arch os t) w0 w) :
    ExecSteps (pageAddrOf arch os t) w0 (InlineHook.makeMemoryWritable arch os w t s).1 := by
  refine execSteps_snoc (SysCall.mprotect (pageAddrOf arch os t) (pageSizeOf arch os t s)
    (PROT_READ ||| PROT_WRITE ||| PROT_EXEC)
    (os.mprotect w.tick (pageAddrOf arch os t) (pageSizeOf arch os t s)
      (PROT_READ ||| PROT_WRITE ||| PROT_EXEC))) h ⟨rfl, Or.inl rfl⟩ ?_ ?_
  · simp only [InlineHook.makeMemoryWritable, World.mprotect]
    split <;> rfl
  · simp only [InlineHook.makeMemoryWritable, World.mprotect, SysCall.applyProt]
    split <;> rfl

theorem execSteps_makeMemoryExecutable (arch : Arch) (os : OS) {w0 w : World} (t s : Nat)
    (h : ExecSteps (pageAddrOf arch os t) w0 w) :
    ExecSteps (pageAddrOf arch os t) w0 (InlineHook.makeMemoryExecutable arch os w t s).1 := by
  refine execSteps_snoc (SysCall.mprotect (pageAddrOf arch os t) (pageSizeOf arch os t s)
    (PROT_READ ||| PROT_EXEC)
    (os.mprotect w.tick (pageAddrOf arch os t) (pageSizeOf arch os t s)
      (PROT_READ ||| PROT_EXEC))) h ⟨rfl, Or.inr rfl⟩ ?_ ?_
  · simp only [InlineHook.makeMemoryExecutable, World.mprotect]
    split <;> rfl
  · simp only [InlineHook.makeMemoryExecutable, World.mprotect, SysCall.applyProt]
    split <;> rfl

theorem execSteps_allocateTrampoline {A : Nat} (os : OS) {w0 w : World} (self : InlineHook)
    (h : ExecSteps A w0 w) : ExecSteps A w0 (InlineHook.allocateTrampoline os w self).1 := by
  refine execSteps_snoc (SysCall.mmap os.pageSize (PROT_READ ||| PROT_WRITE ||| PROT_EXEC)
    (os.mmap w.tick)) h rfl ?_ ?_
  · simp only [InlineHook.allocateTrampoline, World.mmap]
    split <;> rfl
  · simp only [InlineHook.allocateTrampoline, World.mmap, SysCall.applyProt]
    cases os.mmap w.tick <;> rfl

theorem execSteps_freeTrampoline {A : Nat} {os : OS} {w0 w : World} (self : InlineHook)
    (t : Nat) (h : ExecSteps A w0 w) :
    ExecSteps A w0 (InlineHook.freeTrampoline os w self t).1 := by
  unfold InlineHook.freeTrampoline
  split
  · exact h
  · split
    · exact execSteps_snoc (SysCall.munmap t os.pageSize) h trivial rfl rfl
    · exact h

theorem execSteps_installArm64Hook (os : OS) (w : World) (self : InlineHook)
    (t r : Nat) (b : Option Nat) :
    ExecSteps (pageAddrOf .aarch64 os t) w (InlineHook.installArm64Hook os w self t r b).world := by
  have h1 := execSteps_makeMemoryWritable .aarch64 os t 16 (execSteps_refl _ w)
  have h2 := execSteps_allocateTrampoline os self h1
  unfold InlineHook.installArm64Hook
  simp only []
  split
  · exact h1
  · split
    · exact h2
    · split
      · exact execSteps_freeTrampoline _ _ (execSteps_same h2 rfl rfl)
      · exact execSteps_makeMemoryExecutable _ _ _ _ (execSteps_same h2 rfl rfl)

theorem execSteps_installArm32Hook (os : OS) (w : World) (self : InlineHook)
    (t r : Nat) (b : Option Nat) :
    ExecSteps (pageAddrOf .aarch32 os t) w (InlineHook.installArm32Hook os w self t r b).world := by
  have h1 := execSteps_makeMemoryWritable .aarch32 os t 8 (execSteps_refl _ w)
  have h2 := execSteps_allocateTrampoline os self h1
  unfold InlineHook.installArm32Hook
  simp only []
  split
  · exact h1
  · split
    · exact h2
    · split
      · exact execSteps_freeTrampoline _ _ (execSteps_same h2 rfl rfl)
      · exact execSteps_makeMemoryExecutable _ _ _ _ (execSteps_same h2 rfl rfl)

theorem execSteps_installHook (arch : Arch) (os : OS) (w : World) (self : InlineHook)
    (t r : Nat) (b : Option Nat) :
    ExecSteps (pageAddrOf arch os t) w (InlineHook.installHook arch os w self t r b).world := by
  unfold InlineHook.installHook
  split
  · exact execSteps_refl _ w
  · split
    · exact execSteps_refl _ w
    · split
      · exact execSteps_refl _ w
      · cases arch
        · exact execSteps_installArm64Hook os w self t r b
        · exact execSteps_installArm32Hook os w self t r b

theorem execSteps_uninstallHook (arch : Arch) (os : OS) (w : World) (self : InlineHook)
    (t b : Nat) :
    ExecSteps (pageAddrOf arch os t) w (InlineHook.uninstallHook arch os w self t b).world := by
  unfold InlineHook.uninstallHook
  split
  · exact execSteps_refl _ w
  · next it _ =>
      have h1 := execSteps_makeMemoryWritable arch os t it.2.originalSize
        (execSteps_refl _ w)
      simp only []
      split
      · exact execSteps_refl _ w
      · split
        · exact h1
        · exact execSteps_makeMemoryExecutable _ _ _ _ (execSteps_same h1 rfl rfl)

theorem applyProt_keeps_exec (A : Nat) (p : Nat → Nat) (c : SysCall)
    (hc : SysCall.keepsExec A c) (x : Nat) (hx : hasExec (p x) = true) :
    hasExec (SysCall.applyProt p c x) = true := by
  cases c with
  | mprotect addr len prot ok =>
      obtain ⟨_, hprot⟩ := hc
      simp only [SysCall.applyProt]
      split
      · simp only []
        split
        · rcases hprot with e | e <;> rw [e] <;> decide
        · exact hx
      · exact hx
  | mmap len prot r =>
      have e : prot = (PROT_READ ||| PROT_WRITE ||| PROT_EXEC) := hc
      cases r with
      | none => exact hx
      | some t =>
          simp only [SysCall.applyProt]
          split
          · rw [e]; decide
          · exact hx
  | munmap _ _ => exact hx

theorem protStates_keep_exec (A : Nat) : ∀ (new : List SysCall) (p : Nat → Nat),
    (∀ c ∈ new, SysCall.keepsExec A c) →
    ∀ st ∈ protStates p new, ∀ x, hasExec (p x) = true → hasExec (st x) = true := by
  intro new
  induction new with
  | nil => intro p _ st hst; simp [protStates] at hst
  | cons c rest ih =>
      intro p hall st hst x hx
      have hc := applyProt_keeps_exec A p c (hall c (List.mem_cons_self _ _)) x hx
      simp only [protStates, List.mem_cons] at hst
      rcases hst with e | hst
      · rw [e]; exact hc
      · exact ih _ (fun c' h' => hall c' (List.mem_cons_of_mem _ h')) st hst x hc

theorem protStates_getLastD : ∀ (new : List SysCall) (p : Nat → Nat),
    (protStates p new).getLastD p = new.foldl SysCall.applyProt p := by
  intro new
  induction new with
  | nil => intro p; rfl
  | cons c rest ih =>
      intro p
      simp only [protStates, List.foldl_cons, List.getLastD_cons]
      exact ih _

theorem execSteps_spec {A : Nat} {w w' : World} (h : ExecSteps A w w') :
    w'.log = w.log ++ World.newRequests w w' ∧
    (∀ c ∈ World.newRequests w w', SysCall.keepsExec A c) ∧
    (protStates w.prot (World.newRequests w w')).getLastD w.prot = w'.prot ∧
    (∀ st ∈ protStates w.prot (World.newRequests w w'), ∀ x,
      hasExec (w.prot x) = true → hasExec (st x) = true) := by
  obtain ⟨new, h1, h2, h3⟩ := h
  have e : World.newRequests w w' = new := by
    simp [World.newRequests, h1]
  rw [e]
  exact ⟨h1, h2, by rw [protStates_getLastD, h3], protStates_keep_exec A new w.prot h2⟩

/-- C23: every request that `installHook` and `uninstallHook` make between entry and return
is a protection change starting at the page of the target and asking for read+write+execute
or read+execute, the mapping of a read+write+execute page, or an unmapping; the protection
state on return is the replay of these requests; and in every protection state of the replay
each address that had execute permission on entry still has it. -/
theorem protection_changes_keep_exec (arch : Arch) (os : OS) (w : World) (self : InlineHook)
    (target replacement backup : Nat) (slot : Option Nat) :
    ((InlineHook.installHook arch os w self target replacement slot).world.log
        = w.log ++ World.newRequests w
            (InlineHook.installHook arch os w self target replacement slot).world ∧
      (∀ c ∈ World.newRequests w
            (InlineHook.installHook arch os w self target replacement slot).world,
        SysCall.keepsExec (pageAddrOf arch os target) c) ∧
      (protStates w.prot (World.newRequests w
            (InlineHook.installHook arch os w self target replacement slot).world)).getLastD
          w.prot = (InlineHook.installHook arch os w self target replacement slot).world.prot ∧
      (∀ st ∈ protStates w.prot (World.newRequests w
            (InlineHook.installHook arch os w self target replacement slot).world),
        ∀ x, hasExec (w.prot x) = true → hasExec (st x) = true)) ∧
    ((InlineHook.uninstallHook arch os w self target backup).world.log
        = w.log ++ World.newRequests w
            (InlineHook.uninstallHook arch os w self target backup).world ∧
      (∀ c ∈ World.newRequests w (InlineHook.uninstallHook arch os w self target backup).world,
        SysCall.keepsExec (pageAddrOf arch os target) c) ∧
      (protStates w.prot (World.newRequests w
            (InlineHook.uninstallHook arch os w self target backup).world)).getLastD w.prot
          = (InlineHook.uninstallHook arch os w self target backup).world.prot ∧
      (∀ st ∈ protStates w.prot (World.newRequests w
            (InlineHook.uninstallHook arch os w self target backup).world),
        ∀ x, hasExec (w.prot x) = true → hasExec (st x) = true)) :=
  ⟨execSteps_spec (execSteps_installHook arch os w self target replacement slot),
   execSteps_spec (execSteps_uninstallHook arch os w self target backup)⟩

/-- Instance of C23: installing a hook at `0x10000` in the sample process asks for
read+write+execute and later for read+execute on the page at `0x10000`. -/
theorem protection_changes_keep_exec_witness :
    SysCall.keepsExec (pageAddrOf .aarch64 sampleOS 0x10000) (SysCall.mprotect 0x10000 4096 7 true) ∧
    SysCall.keepsExec (pageAddrOf .aarch64 sampleOS 0x10000) (SysCall.mprotect 0x10000 4096 5 true) :=
  ⟨(protection_changes_keep_exec .aarch64 sampleOS sampleWorld InlineHook.ctor 0x10000 0x20000
      0 none).1.2.1 _ (by decide),
   (protection_changes_keep_exec .aarch64 sampleOS sampleWorld InlineHook.ctor 0x10000 0x20000
      0 none).1.2.1 _ (by decide)⟩

/-! ## Page arithmetic (C24) -/

theorem testBit_two_pow_sub_two_pow (b k i : Nat) (hk : k ≤ b) :
    (2 ^ b - 2 ^ k).testBit i = (decide (k ≤ i) && decide (i < b)) := by
  have e : 2 ^ b - 2 ^ k = 2 ^ k * (2 ^ (b - k) - 1) := by
    rw [Nat.mul_sub, ← pow_add, Nat.mul_one]
    congr 2
    omega
  rw [e, Nat.testBit_mul_pow_two, Nat.testBit_two_pow_sub_one]
  by_cases h : k ≤ i
  · simp [h]; omega
  · simp [h]

theorem land_high_mask (b k x : Nat) (hk : k ≤ b) (hx : x < 2 ^ b) :
    x &&& (2 ^ b - 2 ^ k) = x - x % 2 ^ k := by
  have e : x - x % 2 ^ k = 2 ^ k * (x / 2 ^ k) := by
    have := Nat.div_add_mod x (2 ^ k)
    omega
  apply Nat.eq_of_testBit_eq
  intro i
  rw [Nat.testBit_land, testBit_two_pow_sub_two_pow b k i hk, e, Nat.testBit_mul_pow_two,
    ← Nat.shiftRight_eq_div_pow, Nat.testBit_shiftRight]
  by_cases h1 : k ≤ i
  · by_cases h2 : i < b
    · simp [h1, h2]
    · have : x.testBit i = false :=
        Nat.testBit_lt_two_pow (lt_of_lt_of_le hx (Nat.pow_le_pow_right (by omega) (by omega)))
      have e2 : k + (i - k) = i := by omega
      simp [h1, h2, this, e2]
  · simp [h1]

theorem subW_eq_sub (b x y : Nat) (hx : x < 2 ^ b) (hy : y ≤ x) : subW b x y = x - y := by
  unfold subW
  have hy' : y < 2 ^ b := lt_of_le_of_lt hy hx
  rw [Nat.mod_eq_of_lt hx, Nat.mod_eq_of_lt hy']
  have e : x + (2 ^ b - y) = (x - y) + 2 ^ b := by omega
  rw [e, Nat.add_mod_right, Nat.mod_eq_of_lt (by omega)]

theorem pageAddrOf_eq (arch : Arch) (os : OS) (a k : Nat) (hp : os.pageSize = 2 ^ k)
    (hk : k < arch.ptrBits) (ha : a < 2 ^ arch.ptrBits) :
    pageAddrOf arch os a = a - a % os.pageSize := by
  have hlt : (2 : Nat) ^ k < 2 ^ arch.ptrBits := Nat.pow_lt_pow_right (by omega) hk
  unfold pageAddrOf pageMask
  rw [hp, Nat.mod_eq_of_lt hlt]
  exact land_high_mask _ k a (by omega) ha

theorem pageSizeOf_eq (arch : Arch) (os : OS) (a s k : Nat) (hp : os.pageSize = 2 ^ k)
    (hk : k < arch.ptrBits) (hs : 1 ≤ s) (ha : a + s < 2 ^ arch.ptrBits)
    (hfit : os.pageSize ≤ a ∨ a + s + os.pageSize ≤ 2 ^ arch.ptrBits) :
    pageSizeOf arch os a s
      = (a % os.pageSize + s + os.pageSize - 1)
          - (a % os.pageSize + s + os.pageSize - 1) % os.pageSize := by
  have hlt : (2 : Nat) ^ k < 2 ^ arch.ptrBits := Nat.pow_lt_pow_right (by omega) hk
  have hpos : 0 < 2 ^ k := Nat.pow_pos (by omega)
  have hA := pageAddrOf_eq arch os a k hp hk (by omega)
  have hmod : a % os.pageSize < os.pageSize := Nat.mod_lt _ (by omega)
  have hmle : a % os.pageSize ≤ a := Nat.mod_le _ _
  have hdm := Nat.div_add_mod a os.pageSize
  have hsmall : a % os.pageSize + s + os.pageSize ≤ 2 ^ arch.ptrBits := by
    rcases hfit with h | h
    · have : 1 ≤ a / os.pageSize := Nat.div_pos h (by omega)
      have : os.pageSize * 1 ≤ os.pageSize * (a / os.pageSize) := Nat.mul_le_mul_left _ this
      omega
    · omega
  unfold pageSizeOf
  simp only
  rw [hA]
  have e1 : (a + s) % 2 ^ arch.ptrBits = a + s := Nat.mod_eq_of_lt ha
  rw [e1, subW_eq_sub _ _ _ ha (by omega)]
  have e2 : a + s - (a - a % os.pageSize) = a % os.pageSize + s := by omega
  rw [e2]
  have e4 : subW arch.ptrBits ((a % os.pageSize + s + os.pageSize) % 2 ^ arch.ptrBits) 1
      = a % os.pageSize + s + os.pageSize - 1 := by
    rcases Nat.lt_or_eq_of_le hsmall with h | h
    · rw [Nat.mod_eq_of_lt h, subW_eq_sub _ _ _ h (by omega)]
    · rw [h, Nat.mod_self]
      unfold subW
      have h1 : (1 : Nat) % 2 ^ arch.ptrBits = 1 := Nat.mod_eq_of_lt (by omega)
      rw [h1, Nat.zero_mod, Nat.zero_add, Nat.mod_eq_of_lt (by omega)]
  rw [e4]
  unfold pageMask
  rw [hp, Nat.mod_eq_of_lt hlt]
  rw [hp] at hsmall hmod
  exact land_high_mask _ k _ (by omega) (by omega)

/-- C24, amended: for every address `a`, size `s ≥ 1` and page size `p = 2^k` below the word
size, with `a + s` not overflowing and with `a` outside the first page or `a + s + p` not
overflowing either, the region that `makeMemoryWritable` and `makeMemoryExecutable` pass to
`mprotect` starts at `a - a % p`, the largest multiple of `p` not above `a`, has a length that
is a positive multiple of `p`, contains `[a, a+s)` and ends less than one page after `a + s`. -/
theorem mprotect_region_covers (arch : Arch) (os : OS) (w : World) (a s k : Nat)
    (hp : os.pageSize = 2 ^ k) (hk : k < arch.ptrBits) (hs : 1 ≤ s)
    (ha : a + s < 2 ^ arch.ptrBits)
    (hfit : os.pageSize ≤ a ∨ a + s + os.pageSize ≤ 2 ^ arch.ptrBits) :
    (InlineHook.makeMemoryWritable arch os w a s).1.log
      = w.log ++ [SysCall.mprotect (pageAddrOf arch os a) (pageSizeOf arch os a s)
          (PROT_READ ||| PROT_WRITE ||| PROT_EXEC)
          (os.mprotect w.tick (pageAddrOf arch os a) (pageSizeOf arch os a s)
            (PROT_READ ||| PROT_WRITE ||| PROT_EXEC))] ∧
    (InlineHook.makeMemoryExecutable arch os w a s).1.log
      = w.log ++ [SysCall.mprotect (pageAddrOf arch os a) (pageSizeOf arch os a s)
          (PROT_READ ||| PROT_EXEC)
          (os.mprotect w.tick (pageAddrOf arch os a) (pageSizeOf arch os a s)
            (PROT_READ ||| PROT_EXEC))] ∧
    pageAddrOf arch os a = a - a % os.pageSize ∧
    os.pageSize ∣ pageAddrOf arch os a ∧
    pageAddrOf arch os a ≤ a ∧
    (∀ m, os.pageSize ∣ m → m ≤ a → m ≤ pageAddrOf arch os a) ∧
    os.pageSize ∣ pageSizeOf arch os a s ∧
    0 < pageSizeOf arch os a s ∧
    a + s ≤ pageAddrOf arch os a + pageSizeOf arch os a s ∧
    pageAddrOf arch os a + pageSizeOf arch os a s < a + s + os.pageSize := by
  have hpos : 0 < os.pageSize := by rw [hp]; exact Nat.pow_pos (by omega)
  have hA := pageAddrOf_eq arch os a k hp hk (by omega)
  have hL := pageSizeOf_eq arch os a s k hp hk hs ha hfit
  have hdm := Nat.div_add_mod a os.pageSize
  have hmod : a % os.pageSize < os.pageSize := Nat.mod_lt _ hpos
  have hdm2 := Nat.div_add_mod (a % os.pageSize + s + os.pageSize - 1) os.pageSize
  have hmod2 : (a % os.pageSize + s + os.pageSize - 1) % os.pageSize < os.pageSize :=
    Nat.mod_lt _ hpos
  have hAd : os.pageSize ∣ pageAddrOf arch os a := by
    rw [hA]
    exact ⟨a / os.pageSize, by omega⟩
  have hLd : os.pageSize ∣ pageSizeOf arch os a s := by
    rw [hL]
    exact ⟨(a % os.pageSize + s + os.pageSize - 1) / os.pageSize, by omega⟩
  refine ⟨?_, ?_, hA, hAd, by omega, ?_, hLd, by omega, by omega, by omega⟩
  · simp [InlineHook.makeMemoryWritable, World.mprotect]
    split <;> rfl
  · simp [InlineHook.makeMemoryExecutable, World.mprotect]
    split <;> rfl
  · intro m hm hma
    obtain ⟨c, rfl⟩ := hm
    rw [hA]
    have hc : c ≤ a / os.pageSize := by
      rw [Nat.le_div_iff_mul_le hpos, Nat.mul_comm]
      exact hma
    have := Nat.mul_le_mul_left os.pageSize hc
    omega

/-- Instance of C24 (amended): a sixteen-byte patch at `0x10ff8` with 4 KiB pages makes
`mprotect` receive the two pages from `0x10000` to `0x12000`. -/
theorem mprotect_region_covers_witness :
    pageAddrOf .aarch64 sampleOS 0x10ff8 = 0x10ff8 - 0x10ff8 % sampleOS.pageSize ∧
    0x10ff8 + 16 ≤ pageAddrOf .aarch64 sampleOS 0x10ff8 + pageSizeOf .aarch64 sampleOS 0x10ff8 16 ∧
    pageAddrOf .aarch64 sampleOS 0x10ff8 + pageSizeOf .aarch64 sampleOS 0x10ff8 16 = 0x12000 :=
  ⟨(mprotect_region_covers .aarch64 sampleOS sampleWorld 0x10ff8 16 12 (by decide) (by decide)
      (by decide) (by decide) (Or.inl (by decide))).2.2.1,
   (mprotect_region_covers .aarch64 sampleOS sampleWorld 0x10ff8 16 12 (by decide) (by decide)
      (by decide) (by decide) (Or.inl (by decide))).2.2.2.2.2.2.2.2.1,
   by decide⟩

/-- Counterexample to C24 as stated: a range that starts in the first page and ends in the
last page of the 64-bit address space (`a = 1`, `s = 2^64 - 2`, so `a + s` does not
overflow) makes the rounded length wrap to 0: `mprotect` is asked for the empty region at 0,
which does not contain the range. -/
theorem mprotect_region_wraps :
    1 + (2 ^ 64 - 2) < 2 ^ 64 ∧
    pageSizeOf .aarch64 sampleOS 1 (2 ^ 64 - 2) = 0 ∧
    (InlineHook.makeMemoryWritable .aarch64 sampleOS sampleWorld 1 (2 ^ 64 - 2)).1.log
      = sampleWorld.log ++ [SysCall.mprotect 0 0 7 true] := by
  decide

/-! ## Shape of the extracted name and the bytes read (C25, C26) -/

theorem isNameByte_getD_lt (buf : List Nat) (j : Nat)
    (h : isNameByte (buf.getD j 0) = true) : j < buf.length := by
  by_contra hn
  rw [List.getD_eq_default _ _ (by omega)] at h
  revert h
  decide

/-- C25: the result of `getServiceName` is either empty or, for some non-null buffer `buf`,
the `len > 3` bytes of `buf` at `i .. i+len` inside the first `size` bytes (and inside the
buffer), all of them from `[A-Za-z0-9._]`, the first one a lowercase letter; it is empty for
every size below 16; its length is never 1, 2 or 3. -/
theorem getServiceName_shape (data : Option (List Nat)) (size : Nat) :
    (BinderHook.getServiceName data size = "" ∨
      ∃ buf i len, data = some buf ∧ 3 < len ∧ i + len ≤ size ∧ i + len ≤ buf.length ∧
        BinderHook.getServiceName data size
          = String.mk (((buf.drop i).take len).map Char.ofNat) ∧
        (∀ k, k < len → isNameByte (buf.getD (i + k) 0) = true) ∧
        isLowerByte (buf.getD i 0) = true) ∧
    (size < 16 → BinderHook.getServiceName data size = "") ∧
    ¬ (1 ≤ (BinderHook.getServiceName data size).length ∧
        (BinderHook.getServiceName data size).length ≤ 3) := by
  have hshape : BinderHook.getServiceName data size = "" ∨
      ∃ buf i len, data = some buf ∧ 3 < len ∧ i + len ≤ size ∧ i + len ≤ buf.length ∧
        BinderHook.getServiceName data size
          = String.mk (((buf.drop i).take len).map Char.ofNat) ∧
        (∀ k, k < len → isNameByte (buf.getD (i + k) 0) = true) ∧
        isLowerByte (buf.getD i 0) = true := by
    cases data with
    | none => left; rfl
    | some buf =>
        by_cases hs : size < 16
        · left; simp [BinderHook.getServiceName, hs]
        · simp only [BinderHook.getServiceName, if_neg hs]
          rcases scan_result (fun k => buf.getD k 0) size size 0 with h | ⟨i, len, hc, h⟩
          · left; exact h
          · right
            obtain ⟨_, hl1, _, ⟨hle, hall, _⟩, h3⟩ := hc
            have hlen : i + len ≤ buf.length := by
              have := isNameByte_getD_lt buf (i + (len - 1)) (hall (len - 1) (by omega))
              omega
            refine ⟨buf, i, len, rfl, h3, hle, hlen, ?_, hall, hl1⟩
            rw [h, ← range_map_getD_eq_slice buf i len hlen, List.map_map]
            rfl
  refine ⟨hshape, ?_, ?_⟩
  · intro hs
    cases data with
    | none => rfl
    | some buf => simp [BinderHook.getServiceName, hs]
  · rcases hshape with h | ⟨buf, i, len, _, h3, _, hlen, h, _, _⟩
    · rw [h]; decide
    · rw [h]
      simp only [String.length, List.length_map, List.length_take, List.length_drop]
      omega

/-- Instance of C25: a size of 3 gives the empty name whatever the buffer holds. -/
theorem getServiceName_shape_witness :
    BinderHook.getServiceName (some sampleTwoRuns) 3 = "" :=
  (getServiceName_shape (some sampleTwoRuns) 3).2.1 (by decide)

/-- C26: for every non-null buffer and every `size ≥ 16` the scan of `getServiceName` comes
to an end, returns the name of the plain model, and every byte index it reads (`str[i]`,
`str[i+1]`, `str[i+len]`) is below `size`. -/
theorem getServiceName_reads_in_bounds (buf : List Nat) (size : Nat) (h16 : 16 ≤ size) :
    (BinderHook.getServiceNameReads (some buf) size).isSome = true ∧
    (BinderHook.getServiceNameReads (some buf) size).map Prod.fst
      = some (BinderHook.getServiceName (some buf) size) ∧
    ∀ r ∈ ((BinderHook.getServiceNameReads (some buf) size).map Prod.snd).getD [], r < size := by
  have hs : ¬ size < 16 := by omega
  obtain ⟨rs, e, hrs⟩ := scanReads_spec (fun k => buf.getD k 0) size (size - 1) 0 []
    (by omega) (by simp)
  have e1 : size - 1 + 1 = size := by omega
  rw [e1] at e
  simp only [BinderHook.getServiceNameReads, BinderHook.getServiceName, if_neg hs, e]
  exact ⟨rfl, rfl, hrs⟩

/-- Instance of C26: on the sample buffer the scan ends and reads the indices 0, 1 and
0 to 4, all below 16. -/
theorem getServiceName_reads_in_bounds_witness :
    (BinderHook.getServiceNameReads (some sampleTwoRuns) 16).isSome = true ∧
    (BinderHook.getServiceNameReads (some sampleTwoRuns) 16).map Prod.snd
      = some [0, 1, 0, 1, 2, 3, 4] :=
  ⟨(getServiceName_reads_in_bounds sampleTwoRuns 16 (by decide)).1, by decide⟩

/-! ## Rollback of the control-path install (C27) -/

/-- A successful `TeristaNative::installHook` with a slot appends one entry and stores that
entry's trampoline in the slot. -/
theorem native_installHook_backup (arch : Arch) (os : OS) (lk : Linker) (w : World)
    (n : TeristaNative) (sym : String) (R : Nat) (r : NativeInstallResult)
    (h : TeristaNative.installHook arch os lk w n sym R (some 0) = some r) (hok : r.ok = true) :
    ∃ A T, r.native.activeHooks = n.activeHooks ++ [HookInfo.mk sym A R T true] ∧
      r.backup = some T ∧ r.native.binderHook = n.binderHook := by
  unfold TeristaNative.installHook at h
  cases hinit : n.initialized with
  | false => simp [hinit] at h; subst h; simp at hok
  | true =>
      simp only [hinit] at h
      cases hf : ElfUtils.findSymbolInAll lk w n.elfUtils sym with
      | none => simp [hf] at h
      | some f =>
          simp only [hf] at h
          by_cases hA : f.2.2 = 0
          · simp [hA] at h; subst h; simp at hok
          · by_cases hi : (InlineHook.installHook arch os f.1 n.inlineHook f.2.2 R (some 0)).ok
                = true
            · simp [hA, hi] at h
              subst h
              exact ⟨f.2.2, _, rfl, rfl, rfl⟩
            · simp [hA, hi] at h; subst h; simp at hok

/-- Success path of `BinderHook::installHooks` from a state without control-path hooks: the
entries for `ioctl`, `write` and `read` are appended in that order, the three globals hold
the trampolines of these entries, and the installed flag is set. -/
theorem installHooks_success_appends (arch : Arch) (os : OS) (lk : Linker)
    (ep : BinderEntryPoints) (w : World) (n : TeristaNative) (statics : BinderStatics)
    (r : BinderResult) (hn : n.binderHook.hooksInstalled = false)
    (h : BinderHook.installHooks arch os lk ep w n statics = some r) (hok : r.ok = true) :
    ∃ A1 T1 A2 T2 A3 T3,
      r.native.activeHooks = n.activeHooks ++
        [HookInfo.mk "ioctl" A1 ep.hooked_ioctl T1 true,
         HookInfo.mk "write" A2 ep.hooked_write T2 true,
         HookInfo.mk "read" A3 ep.hooked_read T3 true] ∧
      r.statics = BinderStatics.mk T1 T2 T3 ∧
      r.native.binderHook.hooksInstalled = true := by
  unfold BinderHook.installHooks at h
  simp only [hn] at h
  cases h1 : TeristaNative.installHook arch os lk w n "ioctl" ep.hooked_ioctl (some 0) with
  | none => simp [h1] at h
  | some i =>
      simp only [h1] at h
      cases hi : i.ok with
      | false => simp [hi] at h; subst h; simp at hok
      | true =>
          obtain ⟨A1, T1, e1, b1, _⟩ := native_installHook_backup arch os lk w n _ _ i h1 hi
          simp only [hi] at h
          cases h2 : TeristaNative.installHook arch os lk i.world i.native "write"
              ep.hooked_write (some 0) with
          | none => simp [h2] at h
          | some wr =>
              simp only [h2] at h
              cases hw : wr.ok with
              | false => simp [hw] at h; subst h; simp at hok
              | true =>
                  obtain ⟨A2, T2, e2, b2, _⟩ :=
                    native_installHook_backup arch os lk i.world i.native _ _ wr h2 hw
                  simp only [hw] at h
                  cases h3 : TeristaNative.installHook arch os lk wr.world wr.native "read"
                      ep.hooked_read (some 0) with
                  | none => simp [h3] at h
                  | some rd =>
                      simp only [h3] at h
                      cases hr : rd.ok with
                      | false => simp [hr] at h; subst h; simp at hok
                      | true =>
                          obtain ⟨A3, T3, e3, b3, _⟩ :=
                            native_installHook_backup arch os lk wr.world wr.native _ _ rd h3 hr
                          simp [hr] at h
                          subst h
                          refine ⟨A1, T1, A2, T2, A3, T3, ?_, ?_, rfl⟩
                          · simp [e3, e2, e1]
                          · simp [b1, b2, b3]

/-- C27, behaviour of the code: in the sample process, where `ioctl` resolves and `write`
does not, `BinderHook::installHooks` returns false with the active-hooks list empty and the
installed flag clear as before the call, but `original_ioctl`, null before the call, still
holds the trampoline `0x7003000` of the hook that the rollback removed. -/
theorem installHooks_rollback_keeps_original :
    sampleNative.activeHooks = [] ∧ sampleNative.binderHook.hooksInstalled = false ∧
    (BinderHook.installHooks .aarch64 sampleOS sampleIoctlOnlyLinker sampleEntryPoints
        sampleWorld sampleNative (BinderStatics.mk 0 0 0)).map
      (fun r => (r.ok, r.native.activeHooks, r.native.binderHook.hooksInstalled, r.statics))
      = some (false, [], false, BinderStatics.mk 0x7003000 0 0) := by
  decide

/-! ## Null records in the library registry (C28) -/

/-- C28, behaviour of the code: when the file of a library that is not yet registered opens
and starts with an ELF header, `parseElfHeader` evaluates `*loadedLibraries[path]` on the
null record that `operator[]` has just inserted, both when called from `loadLibrary` and
when called directly; after the direct call the registry holds a null record under the
path, and `findSymbol` on that path dereferences it. -/
theorem parseElfHeader_dereferences_null_record :
    (ElfUtils.loadLibrary sampleOpenLinker sampleElfFiles sampleWorld ElfUtils.ctor
        "libc.so").nullDeref = true ∧
    (ElfUtils.parseElfHeader sampleElfFiles sampleWorld ElfUtils.ctor "libc.so").nullDeref
      = true ∧
    (ElfUtils.parseElfHeader sampleElfFiles sampleWorld ElfUtils.ctor
        "libc.so").elf.loadedLibraries = [("libc.so", none)] ∧
    (ElfUtils.findSymbol sampleOpenLinker sampleWorld
        (ElfUtils.parseElfHeader sampleElfFiles sampleWorld ElfUtils.ctor "libc.so").elf
        "libc.so" "ioctl").isNone = true := by
  decide

/-! ## Cache keys of the resolver (C29) -/

theorem append_cons_inj_of_not_mem {α : Type} (c : α) : ∀ (xs ys r r' : List α),
    c ∉ xs → c ∉ ys → xs ++ c :: r = ys ++ c :: r' → xs = ys ∧ r = r' := by
  intro xs
  induction xs with
  | nil =>
      intro ys r r' _ hy h
      cases ys with
      | nil => simpa using h
      | cons y ys =>
          simp only [List.nil_append, List.cons_append, List.cons.injEq] at h
          exact absurd (by rw [h.1]; exact List.mem_cons_self _ _) hy
  | cons x xs ih =>
      intro ys r r' hx hy h
      cases ys with
      | nil =>
          simp only [List.nil_append, List.cons_append, List.cons.injEq] at h
          exact absurd (by rw [← h.1]; exact List.mem_cons_self _ _) hx
      | cons y ys =>
          simp only [List.cons_append, List.cons.injEq] at h
          obtain ⟨e1, e2⟩ := ih ys r r' (fun hm => hx (List.mem_cons_of_mem _ hm))
            (fun hm => hy (List.mem_cons_of_mem _ hm)) h.2
          exact ⟨by rw [h.1, e1], e2⟩

theorem scopedKey_data (l s : String) :
    (SymbolResolver.scopedKey l s).data = l.data ++ ':' :: ':' :: s.data := by
  simp [SymbolResolver.scopedKey, String.data_append]

/-- C29, amended: when the library names contain no colon, the keys `l + "::" + s` and
`l' + "::" + s'` of two library-scoped lookups are equal only if `l = l'` and `s = s'`, and
such a key differs from every bare name without a colon; the scoped lookup returns what the
cache holds under its key, and the global lookup what the cache holds under the bare name. -/
theorem scopedKey_injective (lk : Linker) (ai : AddrInfo) (w : World) (self : SymbolResolver)
    (l l' s s' n : String) (hl : ':' ∉ l.data) (hl' : ':' ∉ l'.data) :
    (SymbolResolver.scopedKey l s = SymbolResolver.scopedKey l' s' → l = l' ∧ s = s') ∧
    (':' ∉ n.data → SymbolResolver.scopedKey l s ≠ n) ∧
    (∀ it, StdMap.findEntry self.symbolCache (SymbolResolver.scopedKey l s) = some it →
      SymbolResolver.resolveSymbolIn lk w self l s = (w, self, it.2.address)) ∧
    (∀ it, StdMap.findEntry self.symbolCache n = some it →
      SymbolResolver.resolveSymbol lk ai w self n = (w, self, it.2.address)) := by
  refine ⟨?_, ?_, ?_, ?_⟩
  · intro h
    have hd := congrArg String.data h
    rw [scopedKey_data, scopedKey_data] at hd
    obtain ⟨e1, e2⟩ := append_cons_inj_of_not_mem ':' _ _ _ _ hl hl' hd
    simp only [List.cons.injEq, true_and] at e2
    exact ⟨String.ext e1, String.ext e2⟩
  · intro hn h
    apply hn
    rw [← h, scopedKey_data]
    simp
  · intro it h
    have h' : StdMap.findEntry self.symbolCache (l ++ "::" ++ s) = some it := h
    simp [SymbolResolver.resolveSymbolIn, h']
  · intro it h
    simp [SymbolResolver.resolveSymbol, h]

/-- Instance of C29 (amended): the keys of `f` in `libc.so` and of `f` in `libdl.so` differ,
and neither is the bare name `f`. -/
theorem scopedKey_injective_witness :
    SymbolResolver.scopedKey "libc.so" "f" ≠ SymbolResolver.scopedKey "libdl.so" "f" ∧
    SymbolResolver.scopedKey "libc.so" "f" ≠ "f" :=
  ⟨fun h => absurd ((scopedKey_injective sampleOpenLinker sampleAddrInfo sampleWorld
      SymbolResolver.ctor "libc.so" "libdl.so" "f" "f" "f" (by decide) (by decide)).1 h).1
      (by decide),
   (scopedKey_injective sampleOpenLinker sampleAddrInfo sampleWorld SymbolResolver.ctor "libc.so"
      "libdl.so" "f" "f" "f" (by decide) (by decide)).2.1 (by decide)⟩

/-- Counterexample to C29 as stated: the lookups of `c` in library `a::b` and of `b::c` in
library `a` share the key `a::b::c`; the key of `f` in `libc.so` is the bare name
`libc.so::f`, so after the scoped lookup has cached `0x10000` a global lookup of the name
`libc.so::f`, which resolves to nothing on a fresh resolver, returns `0x10000`. -/
theorem scopedKey_collides :
    SymbolResolver.scopedKey "a::b" "c" = SymbolResolver.scopedKey "a" "b::c" ∧
    ("a::b", "c") ≠ ("a", "b::c") ∧
    SymbolResolver.scopedKey "libc.so" "f" = "libc.so::f" ∧
    (SymbolResolver.resolveSymbol sampleOpenLinker sampleAddrInfo sampleWorld
      sampleScopedResolver "libc.so::f").2.2 = 0x10000 ∧
    (SymbolResolver.resolveSymbol sampleOpenLinker sampleAddrInfo sampleWorld
      SymbolResolver.ctor "libc.so::f").2.2 = 0 := by
  decide

/-! ## Frame of a policy update (C30) -/

/-- C30: for every service name `S` and bit `b`, `setServiceFilter(S, b)` returns true,
afterwards `allowService(S) = b`, for every other name the value of `allowService` is what it
was before, and the registered predicates and the installed flag are unchanged. -/
theorem setServiceFilter_frame (self : BinderHook) (S : String) (b : Bool) :
    (self.setServiceFilter S b).2 = true ∧
    (self.setServiceFilter S b).1.allowService S = b ∧
    (∀ S', S' ≠ S → (self.setServiceFilter S b).1.allowService S' = self.allowService S') ∧
    (self.setServiceFilter S b).1.transactionFilters = self.transactionFilters ∧
    (self.setServiceFilter S b).1.hooksInstalled = self.hooksInstalled := by
  refine ⟨rfl, ?_, ?_, rfl, rfl⟩
  · simp [BinderHook.setServiceFilter, BinderHook.allowService, StdMap.findEntry_set_self]
  · intro S' h
    simp [BinderHook.setServiceFilter, BinderHook.allowService,
      StdMap.findEntry_set_other _ _ _ _ h]

/-- Instance of C30: allowing `isms` on a fresh interceptor leaves the answer for `package`
as it was. -/
theorem setServiceFilter_frame_witness :
    "package" ≠ "isms" ∧
    (BinderHook.ctor.setServiceFilter "isms" true).1.allowService "package"
      = BinderHook.ctor.allowService "package" :=
  ⟨by decide, (setServiceFilter_frame BinderHook.ctor "isms" true).2.2.1 "package" (by decide)⟩

end Terista
